import Mathlib

/-!
Verification development for the asynchronous job-queue subsystem of the
product-attention-insights repository: signal evaluation, job enqueueing,
optimistic-concurrency claiming, retry with backoff, run aggregation and
webhook idempotency, shallowly embedded from the TypeScript source.
-/

set_option maxHeartbeats 1000000

/-- Job status. This is the closed set of strings of `InsightJobStatus` in
`app/jobs.server.ts` (QUEUED, RUNNING, SUCCEEDED, FAILED). -/
inductive JobStatus
  | queued
  | running
  | succeeded
  | failed
deriving DecidableEq, Repr

/-- Run status: the closed set of strings used for `Run.status`
(RUNNING, COMPLETED). -/
inductive RunStatus
  | running
  | completed
deriving DecidableEq, Repr

/-- Input to `computeConfidence` in `app/insights/signals.server.ts`.
JavaScript numbers are modelled as rationals. -/
structure ConfidenceInput where
  hasStatus : Bool
  hasImage : Bool
  hasInventory : Bool
  daysSinceUpdated : ℚ
deriving DecidableEq, Repr

/-- `computeConfidence` from `app/insights/signals.server.ts` (lines 36-43):
base 0.5, +0.15 per present signal, +0.05 when freshness is within
[0, 365) days, clamped into [0.10, 0.95]. -/
def computeConfidence (input : ConfidenceInput) : ℚ :=
  let score : ℚ := 1/2
  let score := if input.hasStatus then score + 15/100 else score
  let score := if input.hasImage then score + 15/100 else score
  let score := if input.hasInventory then score + 15/100 else score
  let score :=
    if 0 ≤ input.daysSinceUpdated ∧ input.daysSinceUpdated < 365 then score + 5/100 else score
  min (95/100) (max (1/10) score)

/-- `MAX_ATTEMPTS` from `app/jobs.server.ts`. -/
def MAX_ATTEMPTS : ℕ := 3

/-- `BACKOFF_MS` from `app/jobs.server.ts`: 2s, 5s, 10s. -/
def BACKOFF_MS : List ℕ := [2000, 5000, 10000]

/-- `getBackoffMs` from `app/jobs.server.ts` (lines 237-239):
`BACKOFF_MS[Math.min(attemptIndex, BACKOFF_MS.length - 1)] ?? 10000`. -/
def getBackoffMs (attemptIndex : ℕ) : ℕ :=
  (BACKOFF_MS[min attemptIndex (BACKOFF_MS.length - 1)]?).getD 10000

/-- Whether a status counts as active (`status: { in: ["QUEUED", "RUNNING"] }`). -/
def JobStatus.isActive : JobStatus → Bool
  | .queued => true
  | .running => true
  | _ => false

/-- Whether a status is terminal (SUCCEEDED or FAILED). -/
def JobStatus.isTerminal : JobStatus → Bool
  | .succeeded => true
  | .failed => true
  | _ => false

/-- A row of the `InsightJob` table. Timestamps are logical clock values. -/
structure Job where
  id : ℕ
  shop : String
  productId : String
  runId : Option ℕ
  status : JobStatus
  attempts : ℕ
  lastError : Option String
  nextRetryAt : Option ℕ
  createdAt : ℕ
  updatedAt : ℕ
deriving DecidableEq, Repr

/-- A row of the `Run` table. -/
structure Run where
  id : ℕ
  shop : String
  status : RunStatus
  productsQueued : ℕ
  succeeded : ℕ
  failed : ℕ
  completedAt : Option ℕ
deriving DecidableEq, Repr

/-- A row of the `ProductInsight` table (the fields this subsystem reads or
writes; `reasonsJson` stores `JSON.stringify(nextSteps)`, modelled as the
list of steps themselves). -/
structure Insight where
  id : ℕ
  shop : String
  productId : String
  productTitle : String
  aiStatus : Option JobStatus
  aiError : Option String
  aiExplanation : Option String
  aiActionType : Option String
  aiGeneratedAt : Option ℕ
  aiModel : Option String
  reasonsJson : Option (List String)
deriving DecidableEq, Repr

/-- The persistent store shared by all producers and workers, with
auto-increment id counters and a logical clock supplying timestamps. -/
structure Store where
  jobs : List Job
  runs : List Run
  insights : List Insight
  nextJobId : ℕ
  nextRunId : ℕ
  nextInsightId : ℕ
  clock : ℕ
deriving DecidableEq, Repr

/-- `prisma.insightJob.update({ where: { id }, data })`: rewrite the row with
the given id (ids are unique in a well-formed store). -/
def updateJobById (jobs : List Job) (jid : ℕ) (f : Job → Job) : List Job :=
  jobs.map fun j => if j.id == jid then f j else j

/-- `prisma.run.update({ where: { id }, data })`. -/
def updateRunById (runs : List Run) (rid : ℕ) (f : Run → Run) : List Run :=
  runs.map fun r => if r.id == rid then f r else r

/-- `prisma.productInsight.update({ where: { id }, data })`. -/
def updateInsightById (insights : List Insight) (iid : ℕ) (f : Insight → Insight) :
    List Insight :=
  insights.map fun i => if i.id == iid then f i else i

/-- `prisma.insightJob.findFirst({ where: { shop, productId, status: { in:
["QUEUED", "RUNNING"] } } })` from `enqueueInsightJob` (lines 21-23). -/
def findActiveJob (jobs : List Job) (shop productId : String) : Option Job :=
  jobs.find? fun j => j.shop == shop && j.productId == productId && j.status.isActive

/-- `prisma.productInsight.findUnique({ where: { shop_productId } })`. -/
def findInsightByKey (insights : List Insight) (shop productId : String) : Option Insight :=
  insights.find? fun i => i.shop == shop && i.productId == productId

/-- `enqueueInsightJob` from `app/jobs.server.ts` (lines 15-47): refuse when an
active job exists and `force` is false; under `force` first mark the active
job FAILED with the superseded marker; then create a QUEUED job and mirror the
insight status to QUEUED with the error cleared. Returns the new job id. -/
def enqueueInsightJob (s : Store) (shop productId : String) (runId : Option ℕ)
    (force : Bool) : Store × Option ℕ :=
  let existing := findActiveJob s.jobs shop productId
  if existing.isSome && !force then (s, none) else
  let jobs1 :=
    match existing with
    | some e =>
      if force then
        updateJobById s.jobs e.id fun j =>
          { j with status := .failed, lastError := some "Superseded by regenerate",
                   updatedAt := s.clock }
      else s.jobs
    | none => s.jobs
  let newJob : Job :=
    { id := s.nextJobId, shop := shop, productId := productId, runId := runId,
      status := .queued, attempts := 0, lastError := none, nextRetryAt := none,
      createdAt := s.clock, updatedAt := s.clock }
  let insights1 :=
    match findInsightByKey s.insights shop productId with
    | some i => updateInsightById s.insights i.id fun ins =>
        { ins with aiStatus := some .queued, aiError := none }
    | none => s.insights
  ({ s with jobs := jobs1 ++ [newJob], insights := insights1,
            nextJobId := s.nextJobId + 1 },
   some s.nextJobId)

/-- The fresh QUEUED row `enqueueInsightJob` appends (lines 33-43). -/
def newEnqueuedJob (s : Store) (shop productId : String) (runId : Option ℕ) : Job :=
  { id := s.nextJobId, shop := shop, productId := productId, runId := runId,
    status := .queued, attempts := 0, lastError := none, nextRetryAt := none,
    createdAt := s.clock, updatedAt := s.clock }

/-- The `where` clause of the claim candidate query (lines 76-82):
`status = QUEUED` and `nextRetryAt` null or not after `now`. -/
def claimEligible (now : ℕ) (j : Job) : Bool :=
  j.status == JobStatus.queued &&
    (match j.nextRetryAt with
     | none => true
     | some t => decide (t ≤ now))

/-- `findFirst({ where: ..., orderBy: { createdAt: "asc" } })`: an eligible
row with the least `createdAt` (first such row in table order). -/
def selectCandidate (now : ℕ) : List Job → Option Job
  | [] => none
  | j :: rest =>
    let r := selectCandidate now rest
    if claimEligible now j then
      match r with
      | none => some j
      | some k => if k.createdAt < j.createdAt then some k else some j
    else r

/-- The `where` clause of the conditional claim update (lines 85-90): same id,
still QUEUED, and the `updatedAt` fence unchanged since the candidate read. -/
def claimCond (jid fence : ℕ) (j : Job) : Bool :=
  j.id == jid && j.status == JobStatus.queued && j.updatedAt == fence

/-- The `data` of the claim update (lines 91-96): RUNNING, attempts
incremented, `nextRetryAt` cleared, fence refreshed. -/
def claimTransform (clock : ℕ) (j : Job) : Job :=
  { j with status := .running, attempts := j.attempts + 1, nextRetryAt := none,
           updatedAt := clock }

/-- `updateMany` with the fence condition: rewrites every matching row and
reports the number of matches. -/
def condClaimUpdate (jobs : List Job) (jid fence clock : ℕ) : List Job × ℕ :=
  (jobs.map fun j => if claimCond jid fence j then claimTransform clock j else j,
   jobs.countP (claimCond jid fence))

/-- The `prisma.$transaction` block of `claimNextJob` (lines 75-100): select
the oldest eligible QUEUED job, then conditionally transition it to RUNNING
behind the `updatedAt` fence; an update count of zero means another worker
claimed it. Returns the claimed candidate with `attempts` incremented. -/
def claimTxn (s : Store) : Store × Option Job :=
  match selectCandidate s.clock s.jobs with
  | none => (s, none)
  | some cand =>
    let (jobs1, cnt) := condClaimUpdate s.jobs cand.id cand.updatedAt s.clock
    if cnt == 0 then (s, none)
    else ({ s with jobs := jobs1 }, some { cand with attempts := cand.attempts + 1 })

/-- The value `claimNextJob` hands to the worker loop. -/
structure ClaimResult where
  jobId : ℕ
  shop : String
  productId : String
  runId : Option ℕ
  insightId : ℕ
deriving DecidableEq, Repr

/-- `claimNextJob` from `app/jobs.server.ts` (lines 64-134): run the claim
transaction; on success load the ProductInsight for (shop, productId); when it
is missing mark the job FAILED with "ProductInsight not found" and return
null; otherwise mirror the insight status to RUNNING with the error cleared
and return the claimed job and insight. -/
def claimNextJob (s : Store) : Store × Option ClaimResult :=
  match claimTxn s with
  | (s1, none) => (s1, none)
  | (s1, some job) =>
    match findInsightByKey s1.insights job.shop job.productId with
    | none =>
      ({ s1 with jobs := updateJobById s1.jobs job.id fun j =>
          { j with status := .failed, lastError := some "ProductInsight not found",
                   updatedAt := s1.clock } },
       none)
    | some ins =>
      ({ s1 with insights := updateInsightById s1.insights ins.id fun i =>
          { i with aiStatus := some .running, aiError := none } },
       some { jobId := job.id, shop := job.shop, productId := job.productId,
              runId := job.runId, insightId := ins.id })

/-- Validated output of the external AI executor together with the model
identifier reported by the API. -/
structure AIOutput where
  summary : String
  caveats : Option String
  actionType : String
  nextSteps : List String
  modelName : String
deriving DecidableEq, Repr

/-- `[output.summary, output.caveats].filter(Boolean).join(" ")` (line 178). -/
def joinExplanation (summary : String) (caveats : Option String) : String :=
  String.intercalate " "
    ((([some summary, caveats].filterMap id).filter fun x => x != ""))

/-- `message.slice(0, 500)`: failure messages are value-truncated. -/
def truncateError (msg : String) : String := msg.take 500

/-- The success-path `$transaction` of `processJob` (lines 174-191): in one
atomic unit set the insight explanation, action type, generation timestamp,
model, mirror status SUCCEEDED with the error cleared, and set the job to
SUCCEEDED with its error cleared. -/
def processSuccessTxn (s : Store) (jobId insightId : ℕ) (out : AIOutput) : Store :=
  { s with
    insights := updateInsightById s.insights insightId fun i =>
      { i with
        aiExplanation := some (joinExplanation out.summary out.caveats),
        aiActionType := some out.actionType,
        aiGeneratedAt := some s.clock,
        aiModel := some out.modelName,
        aiStatus := some .succeeded,
        aiError := none,
        reasonsJson := if out.nextSteps.length > 0 then some out.nextSteps else none },
    jobs := updateJobById s.jobs jobId fun j =>
      { j with status := .succeeded, lastError := none, updatedAt := s.clock } }

/-- `prisma.run.update({ data: { succeeded: { increment: 1 } } })`
(lines 193-198), issued after the success transaction commits. -/
def incrRunSucceeded (s : Store) (rid : ℕ) : Store :=
  { s with runs := updateRunById s.runs rid fun r => { r with succeeded := r.succeeded + 1 } }

/-- `prisma.run.update({ data: { failed: { increment: 1 } } })`
(lines 225-232), issued after the failure transaction commits when the
attempts ceiling is reached. -/
def incrRunFailed (s : Store) (rid : ℕ) : Store :=
  { s with runs := updateRunById s.runs rid fun r => { r with failed := r.failed + 1 } }

/-- The failure-path `$transaction` of `processJob` (lines 199-223): re-read
the attempts counter from the store, decide between retry and terminal
failure, and atomically update the insight mirror and the job. Also returns
`willRetry` and the attempts value that was read. -/
def processFailureTxn (s : Store) (jobId insightId : ℕ) (msg : String) :
    Store × Bool × ℕ :=
  let attempts :=
    match s.jobs.find? (fun j => j.id == jobId) with
    | some j => j.attempts
    | none => 1
  let willRetry := decide (attempts < MAX_ATTEMPTS)
  let backoffMs := getBackoffMs (attempts - 1)
  let nextRetryAt := if willRetry then some (s.clock + backoffMs) else none
  ({ s with
     insights := updateInsightById s.insights insightId fun i =>
       { i with
         aiStatus := some (if willRetry then .queued else .failed),
         aiError := if willRetry then none else some (truncateError msg) },
     jobs := updateJobById s.jobs jobId fun j =>
       { j with
         status := if willRetry then .queued else .failed,
         lastError := some (truncateError msg),
         nextRetryAt := nextRetryAt,
         updatedAt := s.clock } },
   willRetry, attempts)

/-- The control point of one in-flight worker cycle, between suspension
points of `claimNextJob` / `processJob` (every store operation awaits):
after the claim transaction; after the insight was loaded and mirrored to
RUNNING (the executor call and the success or failure transaction come
next); and after a terminal transaction of a run-owned job, with the run
counter increment still outstanding. -/
inductive WTask
  | claimed (jobId : ℕ) (shop productId : String) (runId : Option ℕ)
  | processing (jobId insightId : ℕ) (runId : Option ℕ)
  | incrSucc (runId : ℕ)
  | incrFail (runId : ℕ)
  | done
deriving DecidableEq, Repr

/-- One in-flight `enqueueBatch` loop (app.insights.tsx action, "batch"
intent): the run id it feeds and the product ids not yet enqueued. -/
structure Producer where
  shop : String
  runId : ℕ
  remaining : List String
deriving DecidableEq, Repr

/-- The control point of one in-flight `updateRunCompletion` iteration for
one run (worker.ts lines 35-55). The loop body is three separate awaits with
no transaction and no fence: the `findMany` that observed the run RUNNING,
the pending-children `count`, and the unconditional `run.update` by id.
`sawRunning rid` sits between the first and second await; `countedZero rid`
sits between the second and third, after a zero pending count was read. -/
inductive RTask
  | sawRunning (rid : ℕ)
  | countedZero (rid : ℕ)
deriving DecidableEq, Repr

/-- The whole system: the store plus the local state of every in-flight
worker cycle, batch-enqueue loop and run-completion reconciler iteration. -/
structure Sys where
  store : Store
  tasks : List WTask
  producers : List Producer
  rtasks : List RTask
deriving DecidableEq, Repr

/-- Result of the external AI executor for one job: a validated output, or a
failure message. -/
inductive Outcome
  | ok (out : AIOutput)
  | err (msg : String)
deriving DecidableEq, Repr

/-- Advance one worker cycle by one atomic store operation.

For `claimed`: the insight lookup of `claimNextJob` (lines 104-118) - when
missing, mark the job FAILED with "ProductInsight not found" and stop the
cycle; otherwise mirror the insight to RUNNING and hand over to `processJob`.

For `processing`: the success or failure transaction of `processJob`. When
the job or insight row has been purged meanwhile, every update of the
transaction throws inside, the transaction applies nothing and the worker
loop swallows the error (worker.ts catch), so the cycle just ends. On a
successful terminal transaction of a run-owned job the counter increment is
still outstanding and becomes the next step.

For `incrSucc` / `incrFail`: the separate `prisma.run.update` increment
(jobs.server.ts lines 193-198 and 225-232). -/
def stepWTask (sys : Sys) (i : ℕ) (t : WTask) (o : Outcome) : Sys :=
  match t with
  | .claimed jid shop pid runId =>
    let s := sys.store
    match findInsightByKey s.insights shop pid with
    | none =>
      { sys with
        store := { s with jobs := updateJobById s.jobs jid fun j =>
          { j with status := .failed, lastError := some "ProductInsight not found",
                   updatedAt := s.clock } },
        tasks := sys.tasks.set i .done }
    | some ins =>
      { sys with
        store := { s with insights := updateInsightById s.insights ins.id fun x =>
          { x with aiStatus := some .running, aiError := none } },
        tasks := sys.tasks.set i (.processing jid ins.id runId) }
  | .processing jid insId runId =>
    let s := sys.store
    if (s.jobs.find? fun j => j.id == jid).isSome &&
       (s.insights.find? fun x => x.id == insId).isSome then
      match o with
      | .ok out =>
        { sys with
          store := processSuccessTxn s jid insId out,
          tasks := sys.tasks.set i
            (match runId with | some r => .incrSucc r | none => .done) }
      | .err msg =>
        let (s1, willRetry, _) := processFailureTxn s jid insId msg
        { sys with
          store := s1,
          tasks := sys.tasks.set i
            (match runId with
             | some r => if willRetry then .done else .incrFail r
             | none => .done) }
    else
      { sys with tasks := sys.tasks.set i .done }
  | .incrSucc r =>
    { sys with store := incrRunSucceeded sys.store r, tasks := sys.tasks.set i .done }
  | .incrFail r =>
    { sys with store := incrRunFailed sys.store r, tasks := sys.tasks.set i .done }
  | .done => sys

/-- An atomic store operation of the system, i.e. one observable transition.
Each constructor is one await of the source (individual prisma calls and
prisma transactions):

- `upsertInsight`: the loader upsert of a ProductInsight row
  (app.insights.tsx lines 186-219; only fields this subsystem reads).
- `batchStart`: `prisma.run.create` of the batch action (app.insights.tsx
  lines 246-252) with `productsQueued = productIds.length`, starting the
  `enqueueBatch` loop over those ids.
- `producerStep`: one `enqueueInsightJob(shop, productId, runId)` iteration
  of `enqueueBatch` (jobs.server.ts lines 50-61, force false).
- `soloEnqueue`: the single-product action path, `enqueueInsightJob(shop,
  productId, undefined, force)` (app.insights.tsx line 276).
- `workerClaim`: the claim transaction of `claimNextJob`; on success a new
  worker cycle starts.
- `taskStep`: one step of an in-flight worker cycle, see `stepWTask`.
- `reconcileFind`: the `findMany` observation of `updateRunCompletion`
  (worker.ts lines 36-39) for one run: when the run is RUNNING, start an
  in-flight reconciler iteration for it.
- `reconcileCount`: the pending-children `count` of an in-flight reconciler
  iteration (lines 42-44): when zero QUEUED/RUNNING children are counted,
  the iteration proceeds to the update, otherwise it ends.
- `reconcileWrite`: the unconditional `run.update` of an iteration that
  counted zero (lines 46-52): mark the run COMPLETED and stamp
  `completedAt`, fenced on nothing but the run id.
- `uninstallPurge`: the uninstall-webhook purge transaction
  (webhooks.app.uninstalled.tsx lines 28-33), deleting all jobs, runs and
  insights of the shop. -/
inductive Ev
  | upsertInsight (shop productId title : String)
  | batchStart (shop : String) (productIds : List String)
  | producerStep (i : ℕ)
  | soloEnqueue (shop productId : String) (force : Bool)
  | workerClaim
  | taskStep (i : ℕ) (o : Outcome)
  | reconcileFind (rid : ℕ)
  | reconcileCount (i : ℕ)
  | reconcileWrite (i : ℕ)
  | uninstallPurge (shop : String)
deriving DecidableEq, Repr

/-- Apply one event to the system (the logical clock is advanced by
`stepE`). -/
def applyEv (sys : Sys) : Ev → Sys
  | .upsertInsight shop pid title =>
    let s := sys.store
    match findInsightByKey s.insights shop pid with
    | some i =>
      let insights1 := updateInsightById s.insights i.id
        fun ins => { ins with productTitle := title }
      { sys with store := { s with insights := insights1 } }
    | none =>
      { sys with store := { s with
          insights := s.insights ++
            [{ id := s.nextInsightId, shop := shop, productId := pid,
               productTitle := title, aiStatus := none, aiError := none,
               aiExplanation := none, aiActionType := none, aiGeneratedAt := none,
               aiModel := none, reasonsJson := none }],
          nextInsightId := s.nextInsightId + 1 } }
  | .batchStart shop pids =>
    let s := sys.store
    let run : Run :=
      { id := s.nextRunId, shop := shop, status := .running,
        productsQueued := pids.length, succeeded := 0, failed := 0,
        completedAt := none }
    { sys with
      store := { s with runs := s.runs ++ [run], nextRunId := s.nextRunId + 1 },
      producers := sys.producers ++ [{ shop := shop, runId := s.nextRunId,
                                       remaining := pids }] }
  | .producerStep i =>
    match sys.producers[i]? with
    | none => sys
    | some p =>
      match p.remaining with
      | [] => sys
      | pid :: rest =>
        let (s1, _) := enqueueInsightJob sys.store p.shop pid (some p.runId) false
        { sys with store := s1,
                   producers := sys.producers.set i { p with remaining := rest } }
  | .soloEnqueue shop pid force =>
    let (s1, _) := enqueueInsightJob sys.store shop pid none force
    { sys with store := s1 }
  | .workerClaim =>
    match claimTxn sys.store with
    | (s1, none) => { sys with store := s1 }
    | (s1, some job) =>
      { sys with store := s1,
                 tasks := sys.tasks ++ [.claimed job.id job.shop job.productId job.runId] }
  | .taskStep i o =>
    match sys.tasks[i]? with
    | none => sys
    | some t => stepWTask sys i t o
  | .reconcileFind rid =>
    match sys.store.runs.find? (fun r => r.id == rid) with
    | none => sys
    | some r =>
      if r.status == RunStatus.running
      then { sys with rtasks := sys.rtasks ++ [.sawRunning rid] }
      else sys
  | .reconcileCount i =>
    match sys.rtasks[i]? with
    | some (.sawRunning rid) =>
      if sys.store.jobs.countP (fun j => j.runId == some rid &&
          j.status.isActive) == 0
      then { sys with rtasks := sys.rtasks.set i (.countedZero rid) }
      else { sys with rtasks := sys.rtasks.eraseIdx i }
    | _ => sys
  | .reconcileWrite i =>
    match sys.rtasks[i]? with
    | some (.countedZero rid) =>
      { sys with
        store := { sys.store with
          runs := updateRunById sys.store.runs rid fun x =>
            { x with status := .completed,
                     completedAt := some sys.store.clock } },
        rtasks := sys.rtasks.eraseIdx i }
    | _ => sys
  | .uninstallPurge shop =>
    let s := sys.store
    { sys with store := { s with
        jobs := s.jobs.filter fun j => j.shop != shop,
        runs := s.runs.filter fun r => r.shop != shop,
        insights := s.insights.filter fun i => i.shop != shop } }

/-- One observable transition, advancing the logical clock. -/
def stepE (sys : Sys) (e : Ev) : Sys :=
  let sys1 := applyEv sys e
  { sys1 with store := { sys1.store with clock := sys1.store.clock + 1 } }

/-- The empty initial system. -/
def sysInit : Sys :=
  { store := { jobs := [], runs := [], insights := [], nextJobId := 0,
               nextRunId := 0, nextInsightId := 0, clock := 0 },
    tasks := [], producers := [], rtasks := [] }

/-- A system state is observable when some sequence of events produces it
from the empty initial state. -/
def ReachableSys (sys : Sys) : Prop :=
  ∃ evs : List Ev, sys = evs.foldl stepE sysInit

/-- The job id a worker cycle currently holds exclusively (claim made,
terminal transaction not yet committed). -/
def WTask.activeJobId : WTask → Option ℕ
  | .claimed j _ _ _ => some j
  | .processing j _ _ => some j
  | _ => none

/-- The run id of a counter increment a worker cycle still owes. -/
def WTask.pendRunId : WTask → Option ℕ
  | .incrSucc r => some r
  | .incrFail r => some r
  | _ => none

/-- The job id and captured run id of a worker cycle before its terminal
transaction. -/
def WTask.jobRun : WTask → Option (ℕ × Option ℕ)
  | .claimed j _ _ r => some (j, r)
  | .processing j _ r => some (j, r)
  | _ => none

/-- Job ids held by in-flight worker cycles. -/
def liveJobIds (tasks : List WTask) : List ℕ :=
  tasks.filterMap WTask.activeJobId

/-- Whether some in-flight worker cycle holds this job id. -/
def hasLiveTask (tasks : List WTask) (jid : ℕ) : Bool :=
  (liveJobIds tasks).contains jid

/-- Counter increments still owed to a run by in-flight worker cycles. -/
def pendCount (tasks : List WTask) (rid : ℕ) : ℕ :=
  tasks.countP fun t => t.pendRunId == some rid

/-- Terminal jobs of a run not held by any in-flight worker cycle. -/
def freeTerminalCount (sys : Sys) (rid : ℕ) : ℕ :=
  sys.store.jobs.countP fun j =>
    j.runId == some rid && j.status.isTerminal && !(hasLiveTask sys.tasks j.id)

/-- Number of jobs linked to a run. -/
def runJobCount (s : Store) (rid : ℕ) : ℕ :=
  s.jobs.countP fun j => j.runId == some rid

/-- Product ids still to be enqueued for a run by in-flight batch loops. -/
def prodPending (producers : List Producer) (rid : ℕ) : ℕ :=
  (producers.map fun p => if p.runId == rid then p.remaining.length else 0).sum

/-- The inductive invariant of the system. The last two fields are the
run-counter and run-size bounds; the rest is the bookkeeping that makes them
inductive: unique ids below the auto-increment counters, uniqueness of claim
ownership, ownership excluding QUEUED status, captured run ids matching the
store, shop consistency between a run and its jobs and batch loops, and
`completedAt` present exactly on COMPLETED runs. -/
structure WF (sys : Sys) : Prop where
  jobsNodup : (sys.store.jobs.map Job.id).Nodup
  runsNodup : (sys.store.runs.map Run.id).Nodup
  insNodup : (sys.store.insights.map Insight.id).Nodup
  jobsLt : ∀ j ∈ sys.store.jobs, j.id < sys.store.nextJobId
  runsLt : ∀ r ∈ sys.store.runs, r.id < sys.store.nextRunId
  insLt : ∀ i ∈ sys.store.insights, i.id < sys.store.nextInsightId
  jobRunLt : ∀ j ∈ sys.store.jobs, ∀ rid ∈ j.runId, rid < sys.store.nextRunId
  taskJobLt : ∀ t ∈ sys.tasks, ∀ jid ∈ t.activeJobId, jid < sys.store.nextJobId
  pendRunLt : ∀ t ∈ sys.tasks, ∀ rid ∈ t.pendRunId, rid < sys.store.nextRunId
  prodRunLt : ∀ p ∈ sys.producers, p.runId < sys.store.nextRunId
  liveNodup : (liveJobIds sys.tasks).Nodup
  taskStatus : ∀ t ∈ sys.tasks, ∀ jid ∈ t.activeJobId,
    ∀ j ∈ sys.store.jobs, j.id = jid → j.status ≠ .queued
  taskRun : ∀ t ∈ sys.tasks, ∀ pr ∈ t.jobRun,
    ∀ j ∈ sys.store.jobs, j.id = pr.1 → j.runId = pr.2
  runShop : ∀ j ∈ sys.store.jobs, ∀ rid ∈ j.runId,
    ∀ r ∈ sys.store.runs, r.id = rid → r.shop = j.shop
  prodShop : ∀ p ∈ sys.producers, ∀ r ∈ sys.store.runs,
    r.id = p.runId → r.shop = p.shop
  completedIff : ∀ r ∈ sys.store.runs, r.status = .completed ↔ r.completedAt ≠ none
  counters : ∀ r ∈ sys.store.runs,
    r.succeeded + r.failed + pendCount sys.tasks r.id ≤ freeTerminalCount sys r.id
  runBound : ∀ r ∈ sys.store.runs,
    runJobCount sys.store r.id + prodPending sys.producers r.id ≤ r.productsQueued

/-- A sample AI executor output used by concrete traces. -/
def sampleOutput : AIOutput :=
  { summary := "ok", caveats := none, actionType := "SEO", nextSteps := [],
    modelName := "gpt-4o-mini" }

/-- A concrete trace: one insight, a batch run of one product, a worker
claim, the insight lookup, and the success transaction. The run counter
increment is still outstanding at the end. -/
def c2Trace : List Ev :=
  [.upsertInsight "shop1" "p1" "T", .batchStart "shop1" ["p1"], .producerStep 0,
   .workerClaim, .taskStep 0 (.err "ignored"), .taskStep 0 (.ok sampleOutput)]

/-- The state reached by `c2Trace`. -/
def c2Sys : Sys := c2Trace.foldl stepE sysInit

/-- `c2Trace` continued: the run counter increment lands, then the run is
reconciled to COMPLETED by one full find/count/write iteration. -/
def c6Trace : List Ev :=
  c2Trace ++ [.taskStep 0 (.ok sampleOutput), .reconcileFind 0,
    .reconcileCount 0, .reconcileWrite 0]

/-- The state reached by `c6Trace`. -/
def c6Sys : Sys := c6Trace.foldl stepE sysInit

/-- A concrete trace in which a batch job is claimed while no ProductInsight
row exists: the claim marks the job FAILED without touching the run, and the
run is then reconciled to COMPLETED. -/
def c10Trace : List Ev :=
  [.batchStart "shop1" ["p1"], .producerStep 0, .workerClaim,
   .taskStep 0 (.err "ignored"), .reconcileFind 0, .reconcileCount 0,
   .reconcileWrite 0]

/-- The state reached by `c10Trace`. -/
def c10Sys : Sys := c10Trace.foldl stepE sysInit

/-- Two overlapping `updateRunCompletion` passes over the same run: both
observe it RUNNING, both count zero pending children, then both issue the
unfenced completion write - the second write restamps `completedAt`. -/
def cRaceTrace : List Ev :=
  [.batchStart "shop1" ["p1"], .reconcileFind 0, .reconcileFind 0,
   .reconcileCount 0, .reconcileCount 1, .reconcileWrite 0, .reconcileWrite 0]

/-- The state after the first of the two completion writes. -/
def cRace1Sys : Sys := (cRaceTrace.take 6).foldl stepE sysInit

/-- The state after the second completion write. -/
def cRace2Sys : Sys := cRaceTrace.foldl stepE sysInit

/-- A batch-enqueue iteration racing the reconciler: the producer inserts a
QUEUED child between the reconciler's zero count and its completion write,
so the run is stamped COMPLETED while a child is QUEUED. -/
def cStampQueuedTrace : List Ev :=
  [.batchStart "shop1" ["p1"], .reconcileFind 0, .reconcileCount 0,
   .producerStep 0, .reconcileWrite 0]

/-- The state reached by `cStampQueuedTrace`. -/
def cStampQueuedSys : Sys := cStampQueuedTrace.foldl stepE sysInit

/-- Control point of one `claimNextJob` claim transaction when the backing
store runs its two statements without transactional isolation: candidate not
yet read; candidate read together with its `updatedAt` fence; finished with
the claimed job id or empty-handed. -/
inductive CallerPc
  | start
  | got (jobId fence : ℕ)
  | cdone (res : Option ℕ)
deriving DecidableEq, Repr

/-- A store together with concurrent callers of the claim transaction. -/
structure CSys where
  store : Store
  callers : List CallerPc
deriving DecidableEq, Repr

/-- One step of caller `i`: either the candidate read (lines 76-83) or the
fenced conditional update (lines 85-99); a zero update count finishes the
call empty-handed (line 98). -/
def cstep (sys : CSys) (i : ℕ) : CSys :=
  match sys.callers[i]? with
  | none => sys
  | some .start =>
    match selectCandidate sys.store.clock sys.store.jobs with
    | none => { sys with callers := sys.callers.set i (.cdone none) }
    | some cand =>
      { sys with callers := sys.callers.set i (.got cand.id cand.updatedAt) }
  | some (.got jid fence) =>
    let (jobs1, cnt) := condClaimUpdate sys.store.jobs jid fence sys.store.clock
    if cnt == 0 then { sys with callers := sys.callers.set i (.cdone none) }
    else
      { sys with store := { sys.store with jobs := jobs1 },
                 callers := sys.callers.set i (.cdone (some jid)) }
  | some (.cdone _) => sys

/-- Run a schedule (an arbitrary interleaving of caller steps). -/
def crun (sys : CSys) (sched : List ℕ) : CSys := sched.foldl cstep sys

/-- Job ids successfully claimed by finished callers. -/
def claimResults (callers : List CallerPc) : List ℕ :=
  callers.filterMap fun c =>
    match c with
    | .cdone (some a) => some a
    | _ => none

/-- The schedule in which callers run one after the other, i.e. the behaviour
of a store that executes each `prisma.$transaction` block atomically. -/
def serialSched : ℕ → List ℕ
  | 0 => []
  | n + 1 => serialSched n ++ [n, n]

/-- The store touched by the uninstall webhook handler: the WebhookEvent
rows keyed by delivery id, and the log of executed purge transactions (the
purge deletes the shop rows from the other tables; what the idempotency
claims observe is how often it executes). -/
structure WebStore where
  webhookEvents : List String
  purges : List String
deriving DecidableEq, Repr

/-- One execution of the purge `$transaction`
(webhooks.app.uninstalled.tsx lines 28-33). -/
def purgeShopData (st : WebStore) (shop : String) : WebStore :=
  { st with purges := st.purges ++ [shop] }

/-- The uninstall `action` (webhooks.app.uninstalled.tsx lines 5-36) for an
authenticated delivery, run sequentially: when the header is present, a
delivery whose id already has a WebhookEvent row is acknowledged without
reprocessing; otherwise the row is recorded and the purge runs; when the
header is absent, no dedup check and no row, and the purge always runs.
Returns the HTTP status. -/
def handleUninstall (st : WebStore) (webhookId : Option String) (shop : String) :
    WebStore × ℕ :=
  match webhookId with
  | some wid =>
    if st.webhookEvents.contains wid then (st, 200)
    else
      let st1 := { st with webhookEvents := st.webhookEvents ++ [wid] }
      (purgeShopData st1 shop, 200)
  | none => (purgeShopData st shop, 200)

/-- Control point of one in-flight uninstall handler (header present):
before the dedup lookup; after it (insert next, which acknowledges with 200
when the unique constraint on the delivery id fires); after a successful
insert (purge next); acknowledged. -/
inductive HPc
  | hstart
  | checked
  | inserted
  | acked (status : ℕ)
deriving DecidableEq, Repr

/-- One in-flight uninstall delivery. -/
structure WebHandler where
  pc : HPc
  webhookId : String
  shop : String
deriving DecidableEq, Repr

/-- Concurrent uninstall deliveries against one store. -/
structure WebSys where
  st : WebStore
  handlers : List WebHandler
deriving DecidableEq, Repr

/-- One atomic store operation of handler `i`: the dedup lookup (lines 8-13),
the WebhookEvent insert with its conflict catch (lines 18-26), or the purge
transaction (lines 28-33). -/
def webStep (sys : WebSys) (i : ℕ) : WebSys :=
  match sys.handlers[i]? with
  | none => sys
  | some h =>
    match h.pc with
    | .hstart =>
      if sys.st.webhookEvents.contains h.webhookId then
        { sys with handlers := sys.handlers.set i { h with pc := .acked 200 } }
      else
        { sys with handlers := sys.handlers.set i { h with pc := .checked } }
    | .checked =>
      if sys.st.webhookEvents.contains h.webhookId then
        { sys with handlers := sys.handlers.set i { h with pc := .acked 200 } }
      else
        { sys with
          st := { sys.st with
                  webhookEvents := sys.st.webhookEvents ++ [h.webhookId] },
          handlers := sys.handlers.set i { h with pc := .inserted } }
    | .inserted =>
      { sys with st := purgeShopData sys.st h.shop,
                 handlers := sys.handlers.set i { h with pc := .acked 200 } }
    | .acked _ => sys

/-- Run a schedule of handler steps. -/
def webRun (sys : WebSys) (sched : List ℕ) : WebSys := sched.foldl webStep sys

/-- A concrete QUEUED job used to instantiate claim-level theorems. -/
def demoJob0 : Job :=
  { id := 0, shop := "shop1", productId := "p0", runId := none,
    status := .queued, attempts := 0, lastError := none, nextRetryAt := none,
    createdAt := 5, updatedAt := 1 }

/-- A second concrete QUEUED job with an earlier `createdAt`. -/
def demoJob1 : Job :=
  { id := 1, shop := "shop1", productId := "p1", runId := none,
    status := .queued, attempts := 0, lastError := none, nextRetryAt := none,
    createdAt := 3, updatedAt := 2 }

/-- A concrete insight row for ("shop1", "p0"). -/
def demoInsight0 : Insight :=
  { id := 0, shop := "shop1", productId := "p0", productTitle := "T",
    aiStatus := none, aiError := none, aiExplanation := none,
    aiActionType := none, aiGeneratedAt := none, aiModel := none,
    reasonsJson := none }

/-- A concrete RUNNING run. -/
def demoRun0 : Run :=
  { id := 0, shop := "shop1", status := .running, productsQueued := 2,
    succeeded := 0, failed := 0, completedAt := none }

/-- A concrete store with two eligible QUEUED jobs, one run and one insight
row, used to instantiate the claim-level theorems. -/
def demoStore : Store :=
  { jobs := [demoJob0, demoJob1], runs := [demoRun0], insights := [demoInsight0],
    nextJobId := 2, nextRunId := 1, nextInsightId := 1, clock := 10 }

/-- A concrete store holding one claimable QUEUED batch job whose
ProductInsight row is absent. -/
def missingInsightStore : Store :=
  { jobs := [{ id := 0, shop := "s1", productId := "p1", runId := some 0,
               status := .queued, attempts := 0, lastError := none,
               nextRetryAt := none, createdAt := 0, updatedAt := 1 }],
    runs := [{ id := 0, shop := "s1", status := .running, productsQueued := 1,
               succeeded := 0, failed := 0, completedAt := none }],
    insights := [], nextJobId := 1, nextRunId := 1, nextInsightId := 0,
    clock := 5 }

/-- Inductive invariant for two concurrent uninstall deliveries of the same
delivery id against one store: the delivery id row appears at most once, and
the number of executed purges plus the number of handlers that own a
successful insert is one exactly when the row exists. -/
def WebInv (st0 : WebStore) (wid : String) (sys : WebSys) : Prop :=
  sys.handlers.length = 2 ∧
  (∀ h ∈ sys.handlers, h.webhookId = wid) ∧
  (sys.st.webhookEvents = st0.webhookEvents ∨
    sys.st.webhookEvents = st0.webhookEvents ++ [wid]) ∧
  (sys.st.purges.length + sys.handlers.countP (fun h => h.pc == HPc.inserted)
    = if wid ∈ sys.st.webhookEvents then st0.purges.length + 1
      else st0.purges.length) ∧
  (wid ∉ sys.st.webhookEvents →
    ∀ h ∈ sys.handlers, h.pc = .hstart ∨ h.pc = .checked) ∧
  (∀ h ∈ sys.handlers, ∀ a, h.pc = .acked a → a = 200)

/-- Inductive invariant for concurrent claim callers against one store,
relative to the initial store: ids stay unique, the clock is the shared
cycle instant, every job is either untouched or the claimed image of an
initially eligible job, candidate reads and successful claims refer to
initially eligible jobs, claimed jobs are RUNNING, and no two callers hold
the same job. -/
def CInv (s0 : Store) (N : ℕ) (sys : CSys) : Prop :=
  (sys.store.jobs.map Job.id).Nodup ∧
  sys.store.clock = s0.clock ∧
  sys.callers.length = N ∧
  (∀ j ∈ sys.store.jobs, ∃ j0 ∈ s0.jobs, j0.id = j.id ∧
    (j = j0 ∨ (claimEligible s0.clock j0 = true ∧ j = claimTransform s0.clock j0))) ∧
  (∀ c ∈ sys.callers, ∀ jid fence, c = CallerPc.got jid fence →
    ∃ j0 ∈ s0.jobs, j0.id = jid ∧ claimEligible s0.clock j0 = true) ∧
  (∀ a ∈ claimResults sys.callers, ∃ j0 ∈ s0.jobs, j0.id = a ∧
    claimEligible s0.clock j0 = true) ∧
  (∀ a ∈ claimResults sys.callers, ∀ j ∈ sys.store.jobs, j.id = a →
    j.status = .running) ∧
  (claimResults sys.callers).Nodup

/-- Claim C8: for every `ConfidenceInput`, `computeConfidence` lies in
[0.10, 0.95], and turning any one signal flag from `false` to `true` while
holding the other fields fixed never decreases the score. -/
theorem computeConfidence_range_monotone (i : ConfidenceInput) :
    (1/10 ≤ computeConfidence i ∧ computeConfidence i ≤ 95/100) ∧
    computeConfidence { i with hasStatus := false } ≤
      computeConfidence { i with hasStatus := true } ∧
    computeConfidence { i with hasImage := false } ≤
      computeConfidence { i with hasImage := true } ∧
    computeConfidence { i with hasInventory := false } ≤
      computeConfidence { i with hasInventory := true } := by
  obtain ⟨hs, hi, hv, d⟩ := i
  cases hs <;> cases hi <;> cases hv <;>
    simp only [computeConfidence, if_true, if_false, Bool.false_eq_true] <;>
    split_ifs <;> norm_num


/-- In a list whose projections are Nodup, two members with equal projection
are equal. -/
theorem eq_of_nodup_key {α : Type} {key : α → ℕ} {l : List α}
    (hnd : (l.map key).Nodup) {a b : α} (ha : a ∈ l) (hb : b ∈ l)
    (hk : key a = key b) : a = b := by
  induction l with
  | nil => cases ha
  | cons x rest ih =>
    rw [List.map_cons, List.nodup_cons] at hnd
    rcases List.mem_cons.mp ha with rfl | ha' <;>
      rcases List.mem_cons.mp hb with rfl | hb'
    · rfl
    · exact absurd (hk ▸ List.mem_map_of_mem key hb') hnd.1
    · exact absurd (hk ▸ List.mem_map_of_mem key ha') (by simpa [hk] using hnd.1)
    · exact ih hnd.2 ha' hb'

/-- Rewriting a list with a function that fixes every element whose key
differs from that of a distinguished member changes `countP` only at that
member. -/
theorem countP_map_balance {α : Type} (key : α → ℕ) {l : List α} {x : α}
    (hx : x ∈ l) (hnd : (l.map key).Nodup) {h : α → α}
    (hother : ∀ y ∈ l, key y ≠ key x → h y = y) (p : α → Bool) :
    (l.map h).countP p + (if p x then 1 else 0)
      = l.countP p + (if p (h x) then 1 else 0) := by
  induction l with
  | nil => cases hx
  | cons a rest ih =>
    rw [List.map_cons, List.nodup_cons] at hnd
    rcases List.mem_cons.mp hx with rfl | hx'
    · have hrest : ∀ y ∈ rest, h y = y := by
        intro y hy
        refine hother y (List.mem_cons_of_mem _ hy) ?_
        intro hkey
        exact hnd.1 (hkey ▸ List.mem_map_of_mem key hy)
      have : (rest.map h).countP p = rest.countP p := by
        rw [List.countP_map]
        refine List.countP_congr ?_
        intro y hy
        rw [Function.comp_apply, hrest y hy]
      simp only [List.map_cons, List.countP_cons, this]
      omega
    · have hkey : key a ≠ key x := by
        intro hkey
        exact hnd.1 (hkey ▸ List.mem_map_of_mem key hx')
      have ha : h a = a := hother a (List.mem_cons_self _ _) hkey
      have ihr := ih hx' hnd.2 fun y hy => hother y (List.mem_cons_of_mem _ hy)
      simp only [List.map_cons, List.countP_cons, ha]
      omega

/-- `countP` after `List.set`, balanced against the replaced element. -/
theorem countP_set_balance {α : Type} {l : List α} {i : ℕ} {t : α}
    (hget : l[i]? = some t) (a : α) (p : α → Bool) :
    (l.set i a).countP p + (if p t then 1 else 0)
      = l.countP p + (if p a then 1 else 0) := by
  induction l generalizing i with
  | nil => simp at hget
  | cons x rest ih =>
    cases i with
    | zero =>
      simp only [List.getElem?_cons_zero, Option.some.injEq] at hget
      subst hget
      simp only [List.set_cons_zero, List.countP_cons]
      omega
    | succ n =>
      simp only [List.getElem?_cons_succ] at hget
      simp only [List.set_cons_succ, List.countP_cons]
      have := ih hget
      omega

/-- Replacing an element by one with the same `filterMap` image leaves the
`filterMap` unchanged. -/
theorem filterMap_set_eq {α β : Type} {l : List α} {i : ℕ} {t : α}
    (hget : l[i]? = some t) {a : α} {f : α → Option β} (hf : f a = f t) :
    (l.set i a).filterMap f = l.filterMap f := by
  induction l generalizing i with
  | nil => simp at hget
  | cons x rest ih =>
    cases i with
    | zero =>
      simp only [List.getElem?_cons_zero, Option.some.injEq] at hget
      subst hget
      simp only [List.set_cons_zero, List.filterMap_cons, hf]
    | succ n =>
      simp only [List.getElem?_cons_succ] at hget
      simp only [List.set_cons_succ, List.filterMap_cons]
      cases f x <;> simp [ih hget]

/-- Replacing an element that contributes `b` to the `filterMap` by one that
contributes nothing splits the image around `b`. -/
theorem filterMap_set_none {α β : Type} {l : List α} {i : ℕ} {t : α}
    (hget : l[i]? = some t) {a : α} {f : α → Option β} {b : β}
    (hft : f t = some b) (hfa : f a = none) :
    ∃ l1 l2, l.filterMap f = l1 ++ b :: l2 ∧ (l.set i a).filterMap f = l1 ++ l2 := by
  induction l generalizing i with
  | nil => simp at hget
  | cons x rest ih =>
    cases i with
    | zero =>
      simp only [List.getElem?_cons_zero, Option.some.injEq] at hget
      subst hget
      exact ⟨[], rest.filterMap f, by simp [List.filterMap_cons, hft],
             by simp [List.filterMap_cons, hfa]⟩
    | succ n =>
      simp only [List.getElem?_cons_succ] at hget
      obtain ⟨l1, l2, h1, h2⟩ := ih hget
      cases hfx : f x with
      | none =>
        exact ⟨l1, l2, by simp [List.filterMap_cons, hfx, h1],
               by simp [List.filterMap_cons, hfx, h2]⟩
      | some c =>
        exact ⟨c :: l1, l2, by simp [List.filterMap_cons, hfx, h1],
               by simp [List.filterMap_cons, hfx, h2]⟩

/-- Sum of a projection after `List.set`, balanced against the replaced
element. -/
theorem sum_map_set_balance {α : Type} {l : List α} {i : ℕ} {t : α}
    (hget : l[i]? = some t) (a : α) (f : α → ℕ) :
    ((l.set i a).map f).sum + f t = (l.map f).sum + f a := by
  induction l generalizing i with
  | nil => simp at hget
  | cons x rest ih =>
    cases i with
    | zero =>
      simp only [List.getElem?_cons_zero, Option.some.injEq] at hget
      subst hget
      simp only [List.set_cons_zero, List.map_cons, List.sum_cons]
      omega
    | succ n =>
      simp only [List.getElem?_cons_succ] at hget
      simp only [List.set_cons_succ, List.map_cons, List.sum_cons]
      have := ih hget
      omega


/-- The candidate query returns nothing exactly when no row is eligible. -/
theorem selectCandidate_eq_none {now : ℕ} {js : List Job} :
    selectCandidate now js = none ↔ ∀ j ∈ js, claimEligible now j = false := by
  induction js with
  | nil => simp [selectCandidate]
  | cons a rest ih =>
    simp only [selectCandidate]
    by_cases ha : claimEligible now a = true
    · rw [if_pos ha]
      constructor
      · intro h
        cases hr : selectCandidate now rest <;> rw [hr] at h <;> dsimp only at h
        · cases h
        · split at h <;> cases h
      · intro h
        have := h a (List.mem_cons_self _ _)
        rw [this] at ha
        cases ha
    · rw [if_neg ha]
      rw [ih]
      constructor
      · intro h j hj
        rcases List.mem_cons.mp hj with rfl | hj1
        · exact Bool.eq_false_iff.mpr ha
        · exact h j hj1
      · intro h j hj
        exact h j (List.mem_cons_of_mem _ hj)

/-- A selected claim candidate is an eligible row of least `createdAt`. -/
theorem selectCandidate_spec {now : ℕ} {js : List Job} {j : Job}
    (h : selectCandidate now js = some j) :
    j ∈ js ∧ claimEligible now j = true ∧
      ∀ k ∈ js, claimEligible now k = true → j.createdAt ≤ k.createdAt := by
  induction js generalizing j with
  | nil => simp [selectCandidate] at h
  | cons a rest ih =>
    simp only [selectCandidate] at h
    by_cases ha : claimEligible now a = true
    · rw [if_pos ha] at h
      cases hr : selectCandidate now rest with
      | none =>
        rw [hr] at h
        dsimp only at h
        cases h
        refine ⟨List.mem_cons_self _ _, ha, ?_⟩
        intro k hk hke
        rcases List.mem_cons.mp hk with rfl | hk1
        · exact le_refl _
        · have := (selectCandidate_eq_none).mp hr k hk1
          rw [this] at hke
          cases hke
      | some b =>
        rw [hr] at h
        dsimp only at h
        obtain ⟨hbmem, hbe, hbmin⟩ := ih hr
        by_cases hba : b.createdAt < a.createdAt
        · rw [if_pos hba] at h
          cases h
          refine ⟨List.mem_cons_of_mem _ hbmem, hbe, ?_⟩
          intro k hk hke
          rcases List.mem_cons.mp hk with rfl | hk1
          · exact le_of_lt hba
          · exact hbmin k hk1 hke
        · rw [if_neg hba] at h
          cases h
          refine ⟨List.mem_cons_self _ _, ha, ?_⟩
          intro k hk hke
          rcases List.mem_cons.mp hk with rfl | hk1
          · exact le_refl _
          · exact le_trans (le_of_not_lt hba) (hbmin k hk1 hke)
    · rw [if_neg ha] at h
      obtain ⟨hmem, he, hmin⟩ := ih h
      refine ⟨List.mem_cons_of_mem _ hmem, he, ?_⟩
      intro k hk hke
      rcases List.mem_cons.mp hk with rfl | hk1
      · exact absurd hke ha
      · exact hmin k hk1 hke

/-- In a rewritten list, lookup by the key of a distinguished member finds
its rewritten image, provided the rewrite fixes all other keys. -/
theorem find?_map_balance {α : Type} (key : α → ℕ) {l : List α} {x : α}
    (hx : x ∈ l) (hnd : (l.map key).Nodup) {h : α → α}
    (hother : ∀ y ∈ l, key y ≠ key x → h y = y)
    (hkey : ∀ y, key (h y) = key y) :
    (l.map h).find? (fun y => key y == key x) = some (h x) := by
  induction l with
  | nil => cases hx
  | cons a rest ih =>
    rw [List.map_cons, List.nodup_cons] at hnd
    rcases List.mem_cons.mp hx with rfl | hx1
    · simp [List.find?_cons, hkey]
    · have hka : key a ≠ key x := by
        intro hkey1
        exact hnd.1 (hkey1 ▸ List.mem_map_of_mem key hx1)
      have ha : h a = a := hother a (List.mem_cons_self _ _) hka
      rw [List.map_cons, List.find?_cons, ha]
      have : (key a == key x) = false := by
        simp [hka]
      rw [this]
      exact ih hx1 hnd.2 fun y hy => hother y (List.mem_cons_of_mem _ hy)

/-- A successful lookup in the left part of an append is a successful lookup
in the whole. -/
theorem find?_append_left {α : Type} {l1 l2 : List α} {p : α → Bool} {a : α}
    (h : l1.find? p = some a) : (l1 ++ l2).find? p = some a := by
  induction l1 with
  | nil => simp [List.find?] at h
  | cons x rest ih =>
    rw [List.cons_append, List.find?_cons]
    rw [List.find?_cons] at h
    cases hp : p x <;> rw [hp] at h
    · exact ih h
    · exact h

/-- Claim C7: the claim transaction selects the single oldest eligible QUEUED
job (status QUEUED, `nextRetryAt` unset or due, least `createdAt`), and on a
successful claim rewrites exactly that row to RUNNING with `attempts`
incremented by one, `nextRetryAt` cleared and the `updatedAt` fence
refreshed to a fresh value; it comes back empty exactly when no job is
eligible. -/
theorem claimTxn_spec (s : Store)
    (hnd : (s.jobs.map Job.id).Nodup)
    (hclk : ∀ j ∈ s.jobs, j.updatedAt < s.clock) :
    ((claimTxn s).2 = none ↔ ∀ j ∈ s.jobs, claimEligible s.clock j = false) ∧
    ∀ job, (claimTxn s).2 = some job →
      ∃ cand ∈ s.jobs,
        claimEligible s.clock cand = true ∧
        (∀ k ∈ s.jobs, claimEligible s.clock k = true → cand.createdAt ≤ k.createdAt) ∧
        job = { cand with attempts := cand.attempts + 1 } ∧
        (claimTxn s).1.jobs = updateJobById s.jobs cand.id (claimTransform s.clock) ∧
        (claimTxn s).1.jobs.find? (fun j => j.id == cand.id)
          = some (claimTransform s.clock cand) ∧
        (claimTransform s.clock cand).status = .running ∧
        (claimTransform s.clock cand).attempts = cand.attempts + 1 ∧
        (claimTransform s.clock cand).nextRetryAt = none ∧
        (claimTransform s.clock cand).updatedAt ≠ cand.updatedAt := by
  cases hsel : selectCandidate s.clock s.jobs with
  | none =>
    have hnone : claimTxn s = (s, none) := by
      simp [claimTxn, hsel]
    rw [hnone]
    constructor
    · simpa using selectCandidate_eq_none.mp hsel
    · intro job hjob
      simp at hjob
  | some cand =>
    obtain ⟨hmem, helig, hmin⟩ := selectCandidate_spec hsel
    have hq : cand.status = .queued := by
      have h1 := helig
      unfold claimEligible at h1
      rw [Bool.and_eq_true] at h1
      exact eq_of_beq h1.1
    have hcond : claimCond cand.id cand.updatedAt cand = true := by
      simp [claimCond, hq]
    have hcnt : s.jobs.countP (claimCond cand.id cand.updatedAt) ≠ 0 := by
      have h2 : 0 < s.jobs.countP (claimCond cand.id cand.updatedAt) :=
        List.countP_pos_iff.mpr ⟨cand, hmem, hcond⟩
      omega
    have hstep : claimTxn s =
        ({ s with jobs :=
            s.jobs.map fun j =>
              if claimCond cand.id cand.updatedAt j then claimTransform s.clock j
              else j },
         some { cand with attempts := cand.attempts + 1 }) := by
      simp [claimTxn, hsel, condClaimUpdate, hcnt]
    have hmapeq :
        (s.jobs.map fun j =>
          if claimCond cand.id cand.updatedAt j then claimTransform s.clock j else j)
          = updateJobById s.jobs cand.id (claimTransform s.clock) := by
      refine List.map_congr_left ?_
      intro y hy
      by_cases hid : y.id = cand.id
      · have hyc : y = cand := eq_of_nodup_key hnd hy hmem hid
        subst hyc
        simp [hcond, updateJobById]
      · have hc1 : claimCond cand.id cand.updatedAt y = false := by
          simp [claimCond, hid]
        have hc2 : (y.id == cand.id) = false := by
          simp [hid]
        simp [hc1, hc2]
    have hfind :
        (updateJobById s.jobs cand.id (claimTransform s.clock)).find?
            (fun j => j.id == cand.id)
          = some (claimTransform s.clock cand) := by
      unfold updateJobById
      have h5 := find?_map_balance Job.id hmem hnd
          (h := fun j => if j.id == cand.id then claimTransform s.clock j else j)
          (by intro y hy hne
              have hc2 : (y.id == cand.id) = false := by simp [hne]
              simp [hc2])
          (by intro y
              by_cases hc : y.id = cand.id
              · have hc2 : (y.id == cand.id) = true := by simp [hc]
                simp only [hc2, if_true]
                simp [claimTransform, hc]
              · have hc2 : (y.id == cand.id) = false := by simp [hc]
                simp [hc2])
      simpa using h5
    rw [hstep]
    constructor
    · constructor
      · intro hcontr
        simp at hcontr
      · intro hall
        have h3 := hall cand hmem
        rw [helig] at h3
        cases h3
    · intro job hjob
      simp only [Option.some.injEq] at hjob
      refine ⟨cand, hmem, helig, hmin, hjob.symm, ?_, ?_, rfl, rfl, rfl, ?_⟩
      · exact hmapeq
      · rw [hmapeq]
        exact hfind
      · have h4 := hclk cand hmem
        simp only [claimTransform]
        omega

/-- In a list of unique keys, lookup by the key of a member finds that
member. -/
theorem find?_key_of_nodup {α : Type} (key : α → ℕ) {l : List α} {x : α}
    (hx : x ∈ l) (hnd : (l.map key).Nodup) :
    l.find? (fun y => key y == key x) = some x := by
  have h5 := find?_map_balance key hx hnd (h := fun y => y)
    (fun y _ _ => rfl) (fun y => rfl)
  simpa using h5

/-- Claim C4: when an active (QUEUED or RUNNING) job exists for
(shop, productId), `enqueueInsightJob` with force=false changes nothing and
reports no new job; with force=true it first rewrites the active job to
terminal FAILED with the fixed marker "Superseded by regenerate" and then
appends exactly one new QUEUED job, returning its id. -/
theorem enqueueInsightJob_active_spec (s : Store) (shop productId : String)
    (runId : Option ℕ) (e : Job)
    (hnd : (s.jobs.map Job.id).Nodup)
    (hfind : findActiveJob s.jobs shop productId = some e) :
    enqueueInsightJob s shop productId runId false = (s, none) ∧
    (enqueueInsightJob s shop productId runId true).2 = some s.nextJobId ∧
    (enqueueInsightJob s shop productId runId true).1.jobs =
      updateJobById s.jobs e.id
        (fun j => { j with status := .failed,
                           lastError := some "Superseded by regenerate",
                           updatedAt := s.clock })
        ++ [{ id := s.nextJobId, shop := shop, productId := productId,
              runId := runId, status := .queued, attempts := 0,
              lastError := none, nextRetryAt := none, createdAt := s.clock,
              updatedAt := s.clock }] ∧
    (enqueueInsightJob s shop productId runId true).1.jobs.find?
        (fun j => j.id == e.id)
      = some { e with status := .failed,
                      lastError := some "Superseded by regenerate",
                      updatedAt := s.clock } := by
  have hmem : e ∈ s.jobs := List.mem_of_find?_eq_some hfind
  refine ⟨?_, ?_, ?_, ?_⟩
  · simp [enqueueInsightJob, hfind]
  · simp [enqueueInsightJob, hfind]
  · simp [enqueueInsightJob, hfind]
  · have hjobs : (enqueueInsightJob s shop productId runId true).1.jobs =
        updateJobById s.jobs e.id
          (fun j => { j with status := .failed,
                             lastError := some "Superseded by regenerate",
                             updatedAt := s.clock })
          ++ [{ id := s.nextJobId, shop := shop, productId := productId,
                runId := runId, status := .queued, attempts := 0,
                lastError := none, nextRetryAt := none, createdAt := s.clock,
                updatedAt := s.clock }] := by
      simp [enqueueInsightJob, hfind]
    rw [hjobs]
    refine find?_append_left ?_
    unfold updateJobById
    have h5 := find?_map_balance Job.id hmem hnd
        (h := fun j => if j.id == e.id then
            { j with status := .failed,
                     lastError := some "Superseded by regenerate",
                     updatedAt := s.clock }
          else j)
        (by intro y hy hne
            have hc2 : (y.id == e.id) = false := by simp [hne]
            simp [hc2])
        (by intro y
            by_cases hc : y.id = e.id
            · have hc2 : (y.id == e.id) = true := by simp [hc]
              simp only [hc2, if_true]
            · have hc2 : (y.id == e.id) = false := by simp [hc]
              simp [hc2])
    simpa using h5

/-- Witness for claim C4 at the concrete store `demoStore`, whose first job
is active for ("shop1", "p0"). -/
theorem enqueueInsightJob_active_spec_witness :
    enqueueInsightJob demoStore "shop1" "p0" none false = (demoStore, none) ∧
    (enqueueInsightJob demoStore "shop1" "p0" none true).2
      = some demoStore.nextJobId ∧
    (enqueueInsightJob demoStore "shop1" "p0" none true).1.jobs =
      updateJobById demoStore.jobs demoJob0.id
        (fun j => { j with status := .failed,
                           lastError := some "Superseded by regenerate",
                           updatedAt := demoStore.clock })
        ++ [{ id := demoStore.nextJobId, shop := "shop1", productId := "p0",
              runId := none, status := .queued, attempts := 0,
              lastError := none, nextRetryAt := none,
              createdAt := demoStore.clock, updatedAt := demoStore.clock }] ∧
    (enqueueInsightJob demoStore "shop1" "p0" none true).1.jobs.find?
        (fun j => j.id == demoJob0.id)
      = some { demoJob0 with status := .failed,
                             lastError := some "Superseded by regenerate",
                             updatedAt := demoStore.clock } :=
  enqueueInsightJob_active_spec demoStore "shop1" "p0" none demoJob0
    (by decide) (by decide)

/-- Claim C3: failure handling of a claimed job. With attempts-so-far re-read
from the store: below the ceiling of 3 the job returns to QUEUED with
`nextRetryAt = now + backoff(attempts - 1)` and `lastError` the truncated
message, while the insight mirror goes to QUEUED with no visible error; at or
above the ceiling both become FAILED with the truncated message. The failure
transaction itself never touches runs; the separate failed-counter increment
adds exactly one, and the worker schedules it only on the terminal branch of
a run-owned job. A FAILED job is never again eligible for claiming. The
backoff table maps index 0 to 2000 ms, index 1 to 5000 ms and every index of
at least 2 to 10000 ms. -/
theorem processFailure_spec (s : Store) (jid iid : ℕ) (msg : String)
    (jx : Job) (ins : Insight)
    (hjnd : (s.jobs.map Job.id).Nodup)
    (hind : (s.insights.map Insight.id).Nodup)
    (hrnd : (s.runs.map Run.id).Nodup)
    (hj : jx ∈ s.jobs) (hjid : jx.id = jid)
    (hi : ins ∈ s.insights) (hiid : ins.id = iid) :
    (processFailureTxn s jid iid msg).2.2 = jx.attempts ∧
    (processFailureTxn s jid iid msg).2.1 = decide (jx.attempts < 3) ∧
    (processFailureTxn s jid iid msg).1.runs = s.runs ∧
    (jx.attempts < 3 →
      (processFailureTxn s jid iid msg).1.jobs.find? (fun j => j.id == jid)
        = some { jx with
                 status := .queued,
                 lastError := some (truncateError msg),
                 nextRetryAt := some (s.clock + getBackoffMs (jx.attempts - 1)),
                 updatedAt := s.clock } ∧
      (processFailureTxn s jid iid msg).1.insights.find? (fun i => i.id == iid)
        = some { ins with aiStatus := some .queued, aiError := none }) ∧
    (3 ≤ jx.attempts →
      (processFailureTxn s jid iid msg).1.jobs.find? (fun j => j.id == jid)
        = some { jx with
                 status := .failed,
                 lastError := some (truncateError msg),
                 nextRetryAt := none,
                 updatedAt := s.clock } ∧
      (processFailureTxn s jid iid msg).1.insights.find? (fun i => i.id == iid)
        = some { ins with aiStatus := some .failed,
                          aiError := some (truncateError msg) }) ∧
    (∀ rx ∈ s.runs, (incrRunFailed s rx.id).runs.find? (fun r => r.id == rx.id)
        = some { rx with failed := rx.failed + 1 }) ∧
    (∀ sys : Sys, ∀ i r, sys.store = s →
      (stepWTask sys i (.processing jid iid (some r)) (.err msg)).tasks
        = sys.tasks.set i
            (if jx.attempts < 3 then .done else .incrFail r)) ∧
    (∀ j : Job, j.status = .failed → ∀ now, claimEligible now j = false) ∧
    getBackoffMs 0 = 2000 ∧ getBackoffMs 1 = 5000 ∧
    (∀ n, 2 ≤ n → getBackoffMs n = 10000) := by
  subst hjid
  subst hiid
  have hjfound : s.jobs.find? (fun j => j.id == jx.id) = some jx :=
    find?_key_of_nodup Job.id hj hjnd
  have hifound : s.insights.find? (fun i => i.id == ins.id) = some ins :=
    find?_key_of_nodup Insight.id hi hind
  have hjobs1 : (processFailureTxn s jx.id ins.id msg).1.jobs
      = updateJobById s.jobs jx.id (fun j =>
          { j with
            status := if decide (jx.attempts < MAX_ATTEMPTS) then .queued else .failed,
            lastError := some (truncateError msg),
            nextRetryAt := if decide (jx.attempts < MAX_ATTEMPTS) then
                some (s.clock + getBackoffMs (jx.attempts - 1)) else none,
            updatedAt := s.clock }) := by
    simp [processFailureTxn, hjfound]
  have hins1 : (processFailureTxn s jx.id ins.id msg).1.insights
      = updateInsightById s.insights ins.id (fun i =>
          { i with
            aiStatus := some (if decide (jx.attempts < MAX_ATTEMPTS) then .queued
              else .failed),
            aiError := if decide (jx.attempts < MAX_ATTEMPTS) then none
              else some (truncateError msg) }) := by
    simp [processFailureTxn, hjfound, hifound]
  have hjfind : ∀ f : Job → Job, (∀ y, (f y).id = y.id) →
      (updateJobById s.jobs jx.id f).find? (fun j => j.id == jx.id) = some (f jx) := by
    intro f hf
    unfold updateJobById
    have h5 := find?_map_balance Job.id hj hjnd
        (h := fun j => if j.id == jx.id then f j else j)
        (by intro y hy hne
            have hc2 : (y.id == jx.id) = false := by simp [hne]
            simp [hc2])
        (by intro y
            by_cases hc : y.id = jx.id
            · have hc2 : (y.id == jx.id) = true := by simp [hc]
              simp only [hc2, if_true]
              exact hf y
            · have hc2 : (y.id == jx.id) = false := by simp [hc]
              simp [hc2])
    simpa using h5
  have hifind : ∀ f : Insight → Insight, (∀ y, (f y).id = y.id) →
      (updateInsightById s.insights ins.id f).find? (fun i => i.id == ins.id)
        = some (f ins) := by
    intro f hf
    unfold updateInsightById
    have h5 := find?_map_balance Insight.id hi hind
        (h := fun i => if i.id == ins.id then f i else i)
        (by intro y hy hne
            have hc2 : (y.id == ins.id) = false := by simp [hne]
            simp [hc2])
        (by intro y
            by_cases hc : y.id = ins.id
            · have hc2 : (y.id == ins.id) = true := by simp [hc]
              simp only [hc2, if_true]
              exact hf y
            · have hc2 : (y.id == ins.id) = false := by simp [hc]
              simp [hc2])
    simpa using h5
  refine ⟨?_, ?_, ?_, ?_, ?_, ?_, ?_, ?_, rfl, rfl, ?_⟩
  · simp [processFailureTxn, hjfound]
  · simp [processFailureTxn, hjfound, MAX_ATTEMPTS]
  · simp [processFailureTxn]
  · intro hlt
    have hd : decide (jx.attempts < MAX_ATTEMPTS) = true := by
      simp [MAX_ATTEMPTS]
      omega
    constructor
    · rw [hjobs1]
      have := hjfind (fun j =>
        { j with
          status := if decide (jx.attempts < MAX_ATTEMPTS) then .queued else .failed,
          lastError := some (truncateError msg),
          nextRetryAt := if decide (jx.attempts < MAX_ATTEMPTS) then
              some (s.clock + getBackoffMs (jx.attempts - 1)) else none,
          updatedAt := s.clock }) (fun y => rfl)
      rw [this]
      simp [hd]
    · rw [hins1]
      have := hifind (fun i =>
        { i with
          aiStatus := some (if decide (jx.attempts < MAX_ATTEMPTS) then .queued
            else .failed),
          aiError := if decide (jx.attempts < MAX_ATTEMPTS) then none
            else some (truncateError msg) }) (fun y => rfl)
      rw [this]
      simp [hd]
  · intro hge
    have hd : decide (jx.attempts < MAX_ATTEMPTS) = false := by
      simp [MAX_ATTEMPTS]
      omega
    constructor
    · rw [hjobs1]
      have := hjfind (fun j =>
        { j with
          status := if decide (jx.attempts < MAX_ATTEMPTS) then .queued else .failed,
          lastError := some (truncateError msg),
          nextRetryAt := if decide (jx.attempts < MAX_ATTEMPTS) then
              some (s.clock + getBackoffMs (jx.attempts - 1)) else none,
          updatedAt := s.clock }) (fun y => rfl)
      rw [this]
      simp [hd]
    · rw [hins1]
      have := hifind (fun i =>
        { i with
          aiStatus := some (if decide (jx.attempts < MAX_ATTEMPTS) then .queued
            else .failed),
          aiError := if decide (jx.attempts < MAX_ATTEMPTS) then none
            else some (truncateError msg) }) (fun y => rfl)
      rw [this]
      simp [hd]
  · intro rx hrx
    unfold incrRunFailed updateRunById
    have h5 := find?_map_balance Run.id hrx hrnd
        (h := fun r => if r.id == rx.id then { r with failed := r.failed + 1 } else r)
        (by intro y hy hne
            have hc2 : (y.id == rx.id) = false := by simp [hne]
            simp [hc2])
        (by intro y
            by_cases hc : y.id = rx.id
            · have hc2 : (y.id == rx.id) = true := by simp [hc]
              simp only [hc2, if_true]
            · have hc2 : (y.id == rx.id) = false := by simp [hc]
              simp [hc2])
    simpa using h5
  · intro sys i r hstore
    subst hstore
    have hjs : (sys.store.jobs.find? fun j => j.id == jx.id).isSome = true := by
      rw [hjfound]
      rfl
    have his : (sys.store.insights.find? fun x => x.id == ins.id).isSome = true := by
      rw [hifound]
      rfl
    simp only [stepWTask, hjs, his, Bool.and_self, if_true]
    simp only [processFailureTxn, hjfound]
    by_cases hlt : jx.attempts < 3
    · have hd : decide (jx.attempts < MAX_ATTEMPTS) = true := by
        simp [MAX_ATTEMPTS]
        omega
      simp [hd, hlt]
    · have hd : decide (jx.attempts < MAX_ATTEMPTS) = false := by
        simp [MAX_ATTEMPTS]
        omega
      simp [hd, hlt]
  · intro j hjf now
    simp [claimEligible, hjf]
  · intro n hn
    have hmin : min n (BACKOFF_MS.length - 1) = 2 := by
      simp [BACKOFF_MS]
      omega
    unfold getBackoffMs
    rw [hmin]
    rfl

/-- Witness for claim C3 at the concrete store `demoStore` (job attempts 0,
so the retry branch applies). -/
theorem processFailure_spec_witness :
    (processFailureTxn demoStore 0 0 "boom").2.2 = demoJob0.attempts ∧
    (processFailureTxn demoStore 0 0 "boom").2.1 = decide (demoJob0.attempts < 3) ∧
    (processFailureTxn demoStore 0 0 "boom").1.runs = demoStore.runs ∧
    (demoJob0.attempts < 3 →
      (processFailureTxn demoStore 0 0 "boom").1.jobs.find? (fun j => j.id == 0)
        = some { demoJob0 with
                 status := .queued,
                 lastError := some (truncateError "boom"),
                 nextRetryAt := some (demoStore.clock +
                   getBackoffMs (demoJob0.attempts - 1)),
                 updatedAt := demoStore.clock } ∧
      (processFailureTxn demoStore 0 0 "boom").1.insights.find?
          (fun i => i.id == 0)
        = some { demoInsight0 with aiStatus := some .queued, aiError := none }) ∧
    (3 ≤ demoJob0.attempts →
      (processFailureTxn demoStore 0 0 "boom").1.jobs.find? (fun j => j.id == 0)
        = some { demoJob0 with
                 status := .failed,
                 lastError := some (truncateError "boom"),
                 nextRetryAt := none,
                 updatedAt := demoStore.clock } ∧
      (processFailureTxn demoStore 0 0 "boom").1.insights.find?
          (fun i => i.id == 0)
        = some { demoInsight0 with aiStatus := some .failed,
                                   aiError := some (truncateError "boom") }) ∧
    (∀ rx ∈ demoStore.runs,
      (incrRunFailed demoStore rx.id).runs.find? (fun r => r.id == rx.id)
        = some { rx with failed := rx.failed + 1 }) ∧
    (∀ sys : Sys, ∀ i r, sys.store = demoStore →
      (stepWTask sys i (.processing 0 0 (some r)) (.err "boom")).tasks
        = sys.tasks.set i
            (if demoJob0.attempts < 3 then .done else .incrFail r)) ∧
    (∀ j : Job, j.status = .failed → ∀ now, claimEligible now j = false) ∧
    getBackoffMs 0 = 2000 ∧ getBackoffMs 1 = 5000 ∧
    (∀ n, 2 ≤ n → getBackoffMs n = 10000) :=
  processFailure_spec demoStore 0 0 "boom" demoJob0 demoInsight0
    (by decide) (by decide) (by decide) (by decide) (by decide) (by decide)
    (by decide)

/-- Witness for claim C7 at the concrete store `demoStore`, which holds two
eligible QUEUED jobs. -/
theorem claimTxn_spec_witness :
    ((claimTxn demoStore).2 = none ↔
      ∀ j ∈ demoStore.jobs, claimEligible demoStore.clock j = false) ∧
    ∀ job, (claimTxn demoStore).2 = some job →
      ∃ cand ∈ demoStore.jobs,
        claimEligible demoStore.clock cand = true ∧
        (∀ k ∈ demoStore.jobs, claimEligible demoStore.clock k = true →
          cand.createdAt ≤ k.createdAt) ∧
        job = { cand with attempts := cand.attempts + 1 } ∧
        (claimTxn demoStore).1.jobs
          = updateJobById demoStore.jobs cand.id (claimTransform demoStore.clock) ∧
        (claimTxn demoStore).1.jobs.find? (fun j => j.id == cand.id)
          = some (claimTransform demoStore.clock cand) ∧
        (claimTransform demoStore.clock cand).status = .running ∧
        (claimTransform demoStore.clock cand).attempts = cand.attempts + 1 ∧
        (claimTransform demoStore.clock cand).nextRetryAt = none ∧
        (claimTransform demoStore.clock cand).updatedAt ≠ cand.updatedAt :=
  claimTxn_spec demoStore (by decide) (by decide)

/-- Claim C9: when the `x-shopify-webhook-id` header is absent the uninstall
handler performs no dedup check and records no WebhookEvent row, and the full
purge transaction executes on every such delivery, including a repeated
one: two deliveries with no header yield two purge executions, unchanged
WebhookEvent rows, and two 200 acknowledgements. -/
theorem handleUninstall_no_header (st : WebStore) (shop1 shop2 : String) :
    (handleUninstall st none shop1).1.webhookEvents = st.webhookEvents ∧
    (handleUninstall st none shop1).1.purges = st.purges ++ [shop1] ∧
    (handleUninstall st none shop1).2 = 200 ∧
    (handleUninstall (handleUninstall st none shop1).1 none shop2).1.webhookEvents
      = st.webhookEvents ∧
    (handleUninstall (handleUninstall st none shop1).1 none shop2).1.purges
      = st.purges ++ [shop1] ++ [shop2] ∧
    (handleUninstall (handleUninstall st none shop1).1 none shop2).2 = 200 := by
  refine ⟨rfl, rfl, rfl, rfl, rfl, rfl⟩

/-- One handler step preserves the two-delivery invariant. -/
theorem webInv_step (st0 : WebStore) (wid : String)
    (hwid : wid ∉ st0.webhookEvents) (sys : WebSys)
    (hinv : WebInv st0 wid sys) (i : ℕ) : WebInv st0 wid (webStep sys i) := by
  obtain ⟨hlen, hwidall, hevents, hcount, hqueued, hacked⟩ := hinv
  cases hh : sys.handlers[i]? with
  | none =>
    have hstep : webStep sys i = sys := by
      simp [webStep, hh]
    rw [hstep]
    exact ⟨hlen, hwidall, hevents, hcount, hqueued, hacked⟩
  | some h =>
    have hmem : h ∈ sys.handlers := List.getElem?_mem hh
    have hwidh : h.webhookId = wid := hwidall h hmem
    have hbal := fun (a : WebHandler) =>
      countP_set_balance hh a (fun x => x.pc == HPc.inserted)
    cases hpc : h.pc with
    | hstart =>
      by_cases hin : wid ∈ sys.st.webhookEvents
      · have hstep : webStep sys i =
            { sys with handlers := sys.handlers.set i { h with pc := .acked 200 } } := by
          simp [webStep, hh, hpc, hwidh, hin]
        rw [hstep]
        refine ⟨by simp [hlen], ?_, hevents, ?_, ?_, ?_⟩
        · intro h1 hmem1
          rcases List.mem_or_eq_of_mem_set hmem1 with hold | rfl
          · exact hwidall h1 hold
          · exact hwidh
        · have hbal1 := hbal { h with pc := .acked 200 }
          rw [hpc] at hbal1
          simp only [] at hbal1 ⊢
          rw [if_pos hin] at hcount ⊢
          simp at hbal1
          omega
        · intro hin1
          exact absurd hin hin1
        · intro h1 hmem1 a ha
          rcases List.mem_or_eq_of_mem_set hmem1 with hold | rfl
          · exact hacked h1 hold a ha
          · simpa using ha.symm
      · have hstep : webStep sys i =
            { sys with handlers := sys.handlers.set i { h with pc := .checked } } := by
          simp [webStep, hh, hpc, hwidh, hin]
        rw [hstep]
        refine ⟨by simp [hlen], ?_, hevents, ?_, ?_, ?_⟩
        · intro h1 hmem1
          rcases List.mem_or_eq_of_mem_set hmem1 with hold | rfl
          · exact hwidall h1 hold
          · exact hwidh
        · have hbal1 := hbal { h with pc := .checked }
          rw [hpc] at hbal1
          simp only [] at hbal1 ⊢
          rw [if_neg hin] at hcount ⊢
          simp at hbal1
          omega
        · intro _ h1 hmem1
          rcases List.mem_or_eq_of_mem_set hmem1 with hold | rfl
          · exact hqueued hin h1 hold
          · exact Or.inr rfl
        · intro h1 hmem1 a ha
          rcases List.mem_or_eq_of_mem_set hmem1 with hold | rfl
          · exact hacked h1 hold a ha
          · simp at ha
    | checked =>
      by_cases hin : wid ∈ sys.st.webhookEvents
      · have hstep : webStep sys i =
            { sys with handlers := sys.handlers.set i { h with pc := .acked 200 } } := by
          simp [webStep, hh, hpc, hwidh, hin]
        rw [hstep]
        refine ⟨by simp [hlen], ?_, hevents, ?_, ?_, ?_⟩
        · intro h1 hmem1
          rcases List.mem_or_eq_of_mem_set hmem1 with hold | rfl
          · exact hwidall h1 hold
          · exact hwidh
        · have hbal1 := hbal { h with pc := .acked 200 }
          rw [hpc] at hbal1
          simp only [] at hbal1 ⊢
          rw [if_pos hin] at hcount ⊢
          simp at hbal1
          omega
        · intro hin1
          exact absurd hin hin1
        · intro h1 hmem1 a ha
          rcases List.mem_or_eq_of_mem_set hmem1 with hold | rfl
          · exact hacked h1 hold a ha
          · simpa using ha.symm
      · have hstep : webStep sys i =
            { sys with
              st := { sys.st with
                      webhookEvents := sys.st.webhookEvents ++ [h.webhookId] },
              handlers := sys.handlers.set i { h with pc := .inserted } } := by
          simp [webStep, hh, hpc, hwidh, hin]
        rw [hstep]
        have hleft : sys.st.webhookEvents = st0.webhookEvents := by
          rcases hevents with he | he
          · exact he
          · exfalso
            apply hin
            rw [he]
            exact List.mem_append_right _ (List.mem_singleton_self _)
        have hin2 : wid ∈ sys.st.webhookEvents ++ [h.webhookId] := by
          rw [hwidh]
          exact List.mem_append_right _ (List.mem_singleton_self _)
        refine ⟨by simp [hlen], ?_, ?_, ?_, ?_, ?_⟩
        · intro h1 hmem1
          rcases List.mem_or_eq_of_mem_set hmem1 with hold | rfl
          · exact hwidall h1 hold
          · exact hwidh
        · right
          simp [hleft, hwidh]
        · have hbal1 := hbal { h with pc := .inserted }
          rw [hpc] at hbal1
          simp only [] at hbal1 ⊢
          rw [if_neg hin] at hcount
          rw [if_pos hin2]
          simp at hbal1
          omega
        · intro hin1
          exact absurd hin2 hin1
        · intro h1 hmem1 a ha
          rcases List.mem_or_eq_of_mem_set hmem1 with hold | rfl
          · exact hacked h1 hold a ha
          · simp at ha
    | inserted =>
      have hin : wid ∈ sys.st.webhookEvents := by
        by_contra hin
        rcases hqueued hin h hmem with h1 | h1 <;> rw [hpc] at h1 <;> cases h1
      have hstep : webStep sys i =
          { sys with st := purgeShopData sys.st h.shop,
                     handlers := sys.handlers.set i { h with pc := .acked 200 } } := by
        simp [webStep, hh, hpc]
      rw [hstep]
      refine ⟨by simp [hlen], ?_, ?_, ?_, ?_, ?_⟩
      · intro h1 hmem1
        rcases List.mem_or_eq_of_mem_set hmem1 with hold | rfl
        · exact hwidall h1 hold
        · exact hwidh
      · exact hevents
      · have hbal1 := hbal { h with pc := .acked 200 }
        rw [hpc] at hbal1
        simp only [purgeShopData] at hbal1 ⊢
        rw [if_pos hin] at hcount ⊢
        rw [List.length_append]
        simp at hbal1
        simp only [List.length_singleton]
        omega
      · intro hin1
        exact absurd hin hin1
      · intro h1 hmem1 a ha
        rcases List.mem_or_eq_of_mem_set hmem1 with hold | rfl
        · exact hacked h1 hold a ha
        · simpa using ha.symm
    | acked a =>
      have hstep : webStep sys i = sys := by
        simp [webStep, hh, hpc]
      rw [hstep]
      exact ⟨hlen, hwidall, hevents, hcount, hqueued, hacked⟩

/-- Claim C5: delivering the same webhook delivery id twice results in exactly
one execution of the shop data purge and two 200 acknowledgements.
Sequentially, the second delivery finds the WebhookEvent row and acknowledges
without reprocessing; and for every interleaving of two in-flight deliveries
of the same id in which both complete (including the one where the insert of
the loser conflicts with the winner), exactly one purge runs and both
acknowledge 200. -/
theorem webhook_dedup_spec (st0 : WebStore) (wid shop : String)
    (hwid : wid ∉ st0.webhookEvents) :
    (handleUninstall st0 (some wid) shop).2 = 200 ∧
    (handleUninstall (handleUninstall st0 (some wid) shop).1 (some wid) shop).2
      = 200 ∧
    (handleUninstall (handleUninstall st0 (some wid) shop).1 (some wid) shop).1
      = { webhookEvents := st0.webhookEvents ++ [wid],
          purges := st0.purges ++ [shop] } ∧
    ∀ sched : List ℕ,
      (∀ h ∈ (webRun ⟨st0, [⟨.hstart, wid, shop⟩, ⟨.hstart, wid, shop⟩]⟩
          sched).handlers, ∃ a, h.pc = .acked a) →
      (webRun ⟨st0, [⟨.hstart, wid, shop⟩, ⟨.hstart, wid, shop⟩]⟩
          sched).st.purges.length = st0.purges.length + 1 ∧
      ∀ h ∈ (webRun ⟨st0, [⟨.hstart, wid, shop⟩, ⟨.hstart, wid, shop⟩]⟩
          sched).handlers, h.pc = .acked 200 := by
  have hrun : ∀ sched : List ℕ, ∀ sys : WebSys, WebInv st0 wid sys →
      WebInv st0 wid (webRun sys sched) := by
    intro sched
    induction sched with
    | nil => intro sys h; exact h
    | cons i rest ih =>
      intro sys h
      exact ih _ (webInv_step st0 wid hwid sys h i)
  have hinit : WebInv st0 wid
      ⟨st0, [⟨.hstart, wid, shop⟩, ⟨.hstart, wid, shop⟩]⟩ := by
    refine ⟨rfl, ?_, Or.inl rfl, ?_, ?_, ?_⟩
    · intro h hm
      simp only [List.mem_cons, List.mem_singleton] at hm
      rcases hm with rfl | rfl | hfalse
      · rfl
      · rfl
      · cases hfalse
    · rw [if_neg hwid]
      simp [List.countP_cons]
    · intro _ h hm
      simp only [List.mem_cons, List.mem_singleton] at hm
      rcases hm with rfl | rfl | hfalse
      · exact Or.inl rfl
      · exact Or.inl rfl
      · cases hfalse
    · intro h hm a ha
      simp only [List.mem_cons, List.mem_singleton] at hm
      rcases hm with rfl | rfl | hfalse
      · simp at ha
      · simp at ha
      · cases hfalse
  refine ⟨?_, ?_, ?_, ?_⟩
  · simp [handleUninstall, hwid]
  · simp [handleUninstall, purgeShopData, hwid]
  · simp [handleUninstall, purgeShopData, hwid]
  · intro sched hdone
    obtain ⟨hlen, hwidall, hevents, hcount, hqueued, hacked⟩ :=
      hrun sched _ hinit
    have hins0 : (webRun ⟨st0, [⟨.hstart, wid, shop⟩, ⟨.hstart, wid, shop⟩]⟩
        sched).handlers.countP (fun h => h.pc == HPc.inserted) = 0 := by
      rw [List.countP_eq_zero]
      intro h hm
      obtain ⟨a, ha⟩ := hdone h hm
      simp [ha]
    have hne : (webRun ⟨st0, [⟨.hstart, wid, shop⟩, ⟨.hstart, wid, shop⟩]⟩
        sched).handlers ≠ [] := by
      intro hnil
      rw [hnil] at hlen
      simp at hlen
    obtain ⟨h0, hm0⟩ := List.exists_mem_of_ne_nil _ hne
    have hin : wid ∈ (webRun ⟨st0, [⟨.hstart, wid, shop⟩, ⟨.hstart, wid, shop⟩]⟩
        sched).st.webhookEvents := by
      by_contra hin
      obtain ⟨a, ha⟩ := hdone h0 hm0
      rcases hqueued hin h0 hm0 with h1 | h1 <;> rw [ha] at h1 <;> cases h1
    constructor
    · rw [if_pos hin] at hcount
      omega
    · intro h hm
      obtain ⟨a, ha⟩ := hdone h hm
      have := hacked h hm a ha
      rw [this] at ha
      exact ha

/-- Witness for claim C5: an empty store, delivery id "d1", and the
interleaving in which the first handler runs to completion and the second
then deduplicates. -/
theorem webhook_dedup_spec_witness :
    (handleUninstall ⟨[], []⟩ (some "d1") "s1").2 = 200 ∧
    (handleUninstall (handleUninstall ⟨[], []⟩ (some "d1") "s1").1
        (some "d1") "s1").2 = 200 ∧
    (handleUninstall (handleUninstall ⟨[], []⟩ (some "d1") "s1").1
        (some "d1") "s1").1
      = { webhookEvents := ([] : List String) ++ ["d1"],
          purges := ([] : List String) ++ ["s1"] } ∧
    ((webRun ⟨⟨[], []⟩, [⟨.hstart, "d1", "s1"⟩, ⟨.hstart, "d1", "s1"⟩]⟩
        [0, 0, 0, 1]).st.purges.length = ([] : List String).length + 1 ∧
      ∀ h ∈ (webRun ⟨⟨[], []⟩, [⟨.hstart, "d1", "s1"⟩, ⟨.hstart, "d1", "s1"⟩]⟩
          [0, 0, 0, 1]).handlers, h.pc = .acked 200) := by
  obtain ⟨h1, h2, h3, h4⟩ := webhook_dedup_spec ⟨[], []⟩ "d1" "s1" (by decide)
  refine ⟨h1, h2, h3, h4 [0, 0, 0, 1] ?_⟩
  intro h hm
  have hhandlers :
      (webRun ⟨⟨[], []⟩, [⟨.hstart, "d1", "s1"⟩, ⟨.hstart, "d1", "s1"⟩]⟩
        [0, 0, 0, 1]).handlers
      = [⟨.acked 200, "d1", "s1"⟩, ⟨.acked 200, "d1", "s1"⟩] := by decide
  rw [hhandlers] at hm
  simp only [List.mem_cons, List.mem_singleton] at hm
  rcases hm with rfl | rfl | hfalse
  · exact ⟨200, rfl⟩
  · exact ⟨200, rfl⟩
  · cases hfalse

/-- Replacing an element that contributes nothing to the `filterMap` by one
that contributes `b` splits the image around `b`. -/
theorem filterMap_set_some {α β : Type} {l : List α} {i : ℕ} {t : α}
    (hget : l[i]? = some t) {a : α} {f : α → Option β} {b : β}
    (hft : f t = none) (hfa : f a = some b) :
    ∃ l1 l2, l.filterMap f = l1 ++ l2 ∧ (l.set i a).filterMap f = l1 ++ b :: l2 := by
  induction l generalizing i with
  | nil => simp at hget
  | cons x rest ih =>
    cases i with
    | zero =>
      simp only [List.getElem?_cons_zero, Option.some.injEq] at hget
      subst hget
      exact ⟨[], rest.filterMap f, by simp [List.filterMap_cons, hft],
             by simp [List.filterMap_cons, hfa]⟩
    | succ n =>
      simp only [List.getElem?_cons_succ] at hget
      obtain ⟨l1, l2, h1, h2⟩ := ih hget
      cases hfx : f x with
      | none =>
        exact ⟨l1, l2, by simp [List.filterMap_cons, hfx, h1],
               by simp [List.filterMap_cons, hfx, h2]⟩
      | some c =>
        exact ⟨c :: l1, l2, by simp [List.filterMap_cons, hfx, h1],
               by simp [List.filterMap_cons, hfx, h2]⟩

/-- A row of fresh callers has no claim results yet. -/
theorem claimResults_replicate_start (n : ℕ) :
    claimResults (List.replicate n .start) = [] := by
  induction n with
  | zero => rfl
  | succ m ih =>
    rw [List.replicate_succ]
    simpa [claimResults, List.filterMap_cons] using ih

/-- An id-preserving row update preserves the id listing. -/
theorem updateJobById_map_id (jobs : List Job) (jid : ℕ) (f : Job → Job)
    (hf : ∀ y, (f y).id = y.id) :
    (updateJobById jobs jid f).map Job.id = jobs.map Job.id := by
  unfold updateJobById
  rw [List.map_map]
  refine List.map_congr_left ?_
  intro y _
  simp only [Function.comp_apply]
  by_cases hc : (y.id == jid) = true
  · rw [if_pos hc]
    exact hf y
  · rw [if_neg (by simpa using hc)]

/-- Rewriting under the fence condition of a QUEUED candidate with unique ids
is the plain row update of that candidate. -/
theorem condClaim_map_eq (jobs : List Job) (cand : Job) (clock : ℕ)
    (hnd : (jobs.map Job.id).Nodup) (hmem : cand ∈ jobs)
    (hq : cand.status = .queued) :
    (jobs.map fun j =>
        if claimCond cand.id cand.updatedAt j then claimTransform clock j else j)
      = updateJobById jobs cand.id (claimTransform clock) := by
  refine List.map_congr_left ?_
  intro y hy
  by_cases hid : y.id = cand.id
  · have hyc : y = cand := eq_of_nodup_key hnd hy hmem hid
    subst hyc
    have hcond : claimCond y.id y.updatedAt y = true := by
      simp [claimCond, hq]
    simp [hcond, updateJobById]
  · have hc1 : claimCond cand.id cand.updatedAt y = false := by
      simp [claimCond, hid]
    have hc2 : (y.id == cand.id) = false := by
      simp [hid]
    simp [hc1, hc2]

/-- Claiming an eligible candidate decreases the number of eligible jobs by
exactly one. -/
theorem claim_eligible_decrement (jobs : List Job) (cand : Job) (clock now : ℕ)
    (hnd : (jobs.map Job.id).Nodup) (hmem : cand ∈ jobs)
    (hce : claimEligible now cand = true) :
    (updateJobById jobs cand.id (claimTransform clock)).countP (claimEligible now)
        + 1
      = jobs.countP (claimEligible now) := by
  unfold updateJobById
  have hbal := countP_map_balance Job.id hmem hnd
      (h := fun j => if j.id == cand.id then claimTransform clock j else j)
      (by intro y hy hne
          have hc2 : (y.id == cand.id) = false := by simp [hne]
          simp [hc2])
      (claimEligible now)
  have key : claimEligible now
      ((fun j => if j.id == cand.id then claimTransform clock j else j) cand)
        = false := by
    have hself : (cand.id == cand.id) = true := by simp
    simp only [hself, if_true]
    simp [claimEligible, claimTransform]
  rw [hce, key] at hbal
  have e1 : (if (true : Bool) = true then (1 : ℕ) else 0) = 1 := rfl
  have e2 : (if (false : Bool) = true then (1 : ℕ) else 0) = 0 := rfl
  rw [e1, e2] at hbal
  omega

/-- One caller step preserves the concurrent-claim invariant. -/
theorem cInv_step (s0 : Store) (N : ℕ)
    (hnd0 : (s0.jobs.map Job.id).Nodup)
    (sys : CSys) (hinv : CInv s0 N sys) (i : ℕ) :
    CInv s0 N (cstep sys i) := by
  obtain ⟨hnd, hclk, hlen, horig, hgot, hres, hrun, hresnd⟩ := hinv
  cases hc : sys.callers[i]? with
  | none =>
    have heq : cstep sys i = sys := by simp [cstep, hc]
    rw [heq]
    exact ⟨hnd, hclk, hlen, horig, hgot, hres, hrun, hresnd⟩
  | some c =>
    have hmemc : c ∈ sys.callers := List.getElem?_mem hc
    cases c with
    | start =>
      cases hsel : selectCandidate sys.store.clock sys.store.jobs with
      | none =>
        have heq : cstep sys i =
            { sys with callers := sys.callers.set i (.cdone none) } := by
          simp [cstep, hc, hsel]
        rw [heq]
        have hresults : claimResults (sys.callers.set i (.cdone none))
            = claimResults sys.callers := filterMap_set_eq hc rfl
        refine ⟨hnd, hclk, by simp [hlen], horig, ?_, ?_, ?_, ?_⟩
        · intro c1 hm1 jid fence he
          rcases List.mem_or_eq_of_mem_set hm1 with hold | rfl
          · exact hgot c1 hold jid fence he
          · cases he
        · intro a ha
          rw [hresults] at ha
          exact hres a ha
        · intro a ha
          rw [hresults] at ha
          exact hrun a ha
        · rw [hresults]
          exact hresnd
      | some cand =>
        have heq : cstep sys i =
            { sys with callers :=
                sys.callers.set i (.got cand.id cand.updatedAt) } := by
          simp [cstep, hc, hsel]
        rw [heq]
        obtain ⟨hcm, hce, _⟩ := selectCandidate_spec hsel
        have hcq : cand.status = .queued := by
          have h1 := hce
          unfold claimEligible at h1
          rw [Bool.and_eq_true] at h1
          exact eq_of_beq h1.1
        obtain ⟨j0, hj0, hid0, hcase⟩ := horig cand hcm
        have hcand0 : cand = j0 := by
          rcases hcase with h1 | ⟨_, h1⟩
          · exact h1
          · exfalso
            have : cand.status = .running := by rw [h1]; rfl
            rw [hcq] at this
            cases this
        have hresults : claimResults
            (sys.callers.set i (.got cand.id cand.updatedAt))
            = claimResults sys.callers := filterMap_set_eq hc rfl
        refine ⟨hnd, hclk, by simp [hlen], horig, ?_, ?_, ?_, ?_⟩
        · intro c1 hm1 jid fence he
          rcases List.mem_or_eq_of_mem_set hm1 with hold | rfl
          · exact hgot c1 hold jid fence he
          · cases he
            refine ⟨j0, hj0, hid0, ?_⟩
            rw [← hcand0, ← hclk]
            exact hce
        · intro a ha
          rw [hresults] at ha
          exact hres a ha
        · intro a ha
          rw [hresults] at ha
          exact hrun a ha
        · rw [hresults]
          exact hresnd
    | got jid fence =>
      by_cases hcnt :
          sys.store.jobs.countP (claimCond jid fence) = 0
      · have heq : cstep sys i =
            { sys with callers := sys.callers.set i (.cdone none) } := by
          simp [cstep, hc, condClaimUpdate, hcnt]
        rw [heq]
        have hresults : claimResults (sys.callers.set i (.cdone none))
            = claimResults sys.callers := filterMap_set_eq hc rfl
        refine ⟨hnd, hclk, by simp [hlen], horig, ?_, ?_, ?_, ?_⟩
        · intro c1 hm1 jid1 fence1 he
          rcases List.mem_or_eq_of_mem_set hm1 with hold | rfl
          · exact hgot c1 hold jid1 fence1 he
          · cases he
        · intro a ha
          rw [hresults] at ha
          exact hres a ha
        · intro a ha
          rw [hresults] at ha
          exact hrun a ha
        · rw [hresults]
          exact hresnd
      · have heq : cstep sys i =
            { store := { sys.store with
                jobs := sys.store.jobs.map (fun j =>
                  if claimCond jid fence j then claimTransform sys.store.clock j
                  else j) },
              callers := sys.callers.set i (.cdone (some jid)) } := by
          simp [cstep, hc, condClaimUpdate, hcnt]
        rw [heq]
        have hpos : 0 < sys.store.jobs.countP (claimCond jid fence) :=
          Nat.pos_of_ne_zero hcnt
        obtain ⟨jx, hjx, hjxcond⟩ := List.countP_pos_iff.mp hpos
        have hjxprops : jx.id = jid ∧ jx.status = .queued ∧ jx.updatedAt = fence := by
          unfold claimCond at hjxcond
          rw [Bool.and_eq_true, Bool.and_eq_true] at hjxcond
          exact ⟨eq_of_beq hjxcond.1.1, eq_of_beq hjxcond.1.2, eq_of_beq hjxcond.2⟩
        obtain ⟨j0g, hj0g, hj0gid, hj0gelig⟩ := hgot _ hmemc jid fence rfl
        obtain ⟨l1, l2, hrOld, hrNew⟩ :=
          filterMap_set_some (f := fun c => match c with
            | CallerPc.cdone (some a) => some a
            | _ => none) hc (a := .cdone (some jid)) rfl rfl
        have hgid : ∀ y : Job,
            ((fun j => if claimCond jid fence j then
                claimTransform sys.store.clock j else j) y).id = y.id := by
          intro y
          by_cases hcnd : claimCond jid fence y = true
          · simp [hcnd, claimTransform]
          · simp [Bool.not_eq_true] at hcnd
            simp [hcnd]
        have hnd1 : ((sys.store.jobs.map fun j =>
            if claimCond jid fence j then claimTransform sys.store.clock j
            else j).map Job.id).Nodup := by
          rw [List.map_map]
          have : (Job.id ∘ fun j => if claimCond jid fence j then
              claimTransform sys.store.clock j else j) = Job.id := by
            funext y
            exact hgid y
          rw [this]
          exact hnd
        have hnotmem : jid ∉ claimResults sys.callers := by
          intro hmem1
          have := hrun jid hmem1 jx hjx hjxprops.1
          rw [hjxprops.2.1] at this
          cases this
        refine ⟨hnd1, hclk, by simp [hlen], ?_, ?_, ?_, ?_, ?_⟩
        · intro j hj
          obtain ⟨j', hj', hgj⟩ := List.mem_map.mp hj
          by_cases hcnd : claimCond jid fence j' = true
          · obtain ⟨j0, hj0, hid0, hcase⟩ := horig j' hj'
            have hj'props : j'.id = jid ∧ j'.status = .queued := by
              unfold claimCond at hcnd
              rw [Bool.and_eq_true, Bool.and_eq_true] at hcnd
              exact ⟨eq_of_beq hcnd.1.1, eq_of_beq hcnd.1.2⟩
            have hj'0 : j' = j0 := by
              rcases hcase with h1 | ⟨_, h1⟩
              · exact h1
              · exfalso
                have : j'.status = .running := by rw [h1]; rfl
                rw [hj'props.2] at this
                cases this
            have hj00 : j0 = j0g := by
              refine eq_of_nodup_key hnd0 hj0 hj0g ?_
              rw [hid0, hj'props.1, hj0gid]
            refine ⟨j0, hj0, ?_, Or.inr ⟨by rw [hj00]; exact hj0gelig, ?_⟩⟩
            · rw [← hgj, hgid j', hid0]
            · rw [← hgj]
              simp only [hcnd, if_true]
              rw [← hj'0, hclk]
          · simp only [Bool.not_eq_true] at hcnd
            obtain ⟨j0, hj0, hid0, hcase⟩ := horig j' hj'
            refine ⟨j0, hj0, ?_, ?_⟩
            · rw [← hgj]
              simp only [hcnd, Bool.false_eq_true, if_false]
              exact hid0
            · rw [← hgj]
              simp only [hcnd, Bool.false_eq_true, if_false]
              exact hcase
        · intro c1 hm1 jid1 fence1 he
          rcases List.mem_or_eq_of_mem_set hm1 with hold | rfl
          · exact hgot c1 hold jid1 fence1 he
          · cases he
        · intro a ha
          unfold claimResults at ha
          rw [hrNew] at ha
          rcases List.mem_append.mp ha with h1 | h1
          · refine hres a ?_
            unfold claimResults
            rw [hrOld]
            exact List.mem_append_left _ h1
          · rcases List.mem_cons.mp h1 with rfl | h2
            · exact ⟨j0g, hj0g, hj0gid, hj0gelig⟩
            · refine hres a ?_
              unfold claimResults
              rw [hrOld]
              exact List.mem_append_right _ h2
        · intro a ha j hj
          obtain ⟨j', hj', hgj⟩ := List.mem_map.mp hj
          by_cases hcnd : claimCond jid fence j' = true
          · rw [← hgj]
            simp only [hcnd, if_true]
            intro _
            rfl
          · simp only [Bool.not_eq_true] at hcnd
            rw [← hgj] at hj ⊢
            simp only [hcnd, Bool.false_eq_true, if_false] at hj ⊢
            intro hja
            by_cases haj : a = jid
            · exfalso
              subst haj
              have : j' = jx := by
                refine eq_of_nodup_key hnd hj' hjx ?_
                rw [hja, hjxprops.1]
              rw [this, hjxcond] at hcnd
              cases hcnd
            · refine hrun a ?_ j' hj' hja
              unfold claimResults at ha ⊢
              rw [hrNew] at ha
              rw [hrOld]
              rcases List.mem_append.mp ha with h1 | h1
              · exact List.mem_append_left _ h1
              · rcases List.mem_cons.mp h1 with rfl | h2
                · exact absurd rfl haj
                · exact List.mem_append_right _ h2
        · unfold claimResults at hresnd ⊢
          rw [hrNew]
          rw [hrOld] at hresnd
          rw [List.nodup_middle, List.nodup_cons]
          refine ⟨?_, hresnd⟩
          intro hmem1
          apply hnotmem
          unfold claimResults
          rw [hrOld]
          exact hmem1
    | cdone r =>
      have heq : cstep sys i = sys := by simp [cstep, hc]
      rw [heq]
      exact ⟨hnd, hclk, hlen, horig, hgot, hres, hrun, hresnd⟩

/-- Two adjacent steps of a fresh caller are the whole claim transaction run
atomically; run this way it always claims the selected candidate. -/
theorem cstep_twice_start (sys : CSys) (i : ℕ)
    (hnd : (sys.store.jobs.map Job.id).Nodup)
    (hi : sys.callers[i]? = some .start) :
    cstep (cstep sys i) i =
      match selectCandidate sys.store.clock sys.store.jobs with
      | none => { sys with callers := sys.callers.set i (.cdone none) }
      | some cand =>
          { store := { sys.store with
              jobs := updateJobById sys.store.jobs cand.id
                (claimTransform sys.store.clock) },
            callers := sys.callers.set i (.cdone (some cand.id)) } := by
  have hlt : i < sys.callers.length := by
    rcases List.getElem?_eq_some.mp hi with ⟨h, _⟩
    exact h
  cases hsel : selectCandidate sys.store.clock sys.store.jobs with
  | none =>
    have h1 : cstep sys i =
        { sys with callers := sys.callers.set i (.cdone none) } := by
      simp [cstep, hi, hsel]
    rw [h1]
    have h2 : (sys.callers.set i (CallerPc.cdone none))[i]? = some (.cdone none) := by
      rw [List.getElem?_set_self (by simpa using hlt)]
    simp [cstep, h2]
  | some cand =>
    obtain ⟨hcm, hce, _⟩ := selectCandidate_spec hsel
    have hcq : cand.status = .queued := by
      have h4 := hce
      unfold claimEligible at h4
      rw [Bool.and_eq_true] at h4
      exact eq_of_beq h4.1
    have h1 : cstep sys i =
        { sys with callers := sys.callers.set i (.got cand.id cand.updatedAt) } := by
      simp [cstep, hi, hsel]
    rw [h1]
    have h2 : (sys.callers.set i (CallerPc.got cand.id cand.updatedAt))[i]?
        = some (.got cand.id cand.updatedAt) := by
      rw [List.getElem?_set_self (by simpa using hlt)]
    have hcond : claimCond cand.id cand.updatedAt cand = true := by
      simp [claimCond, hcq]
    have hcnt : sys.store.jobs.countP (claimCond cand.id cand.updatedAt) ≠ 0 := by
      have h3 : 0 < sys.store.jobs.countP (claimCond cand.id cand.updatedAt) :=
        List.countP_pos_iff.mpr ⟨cand, hcm, hcond⟩
      omega
    have h3 : cstep { sys with
          callers := sys.callers.set i (.got cand.id cand.updatedAt) } i =
        { store := { sys.store with
            jobs := sys.store.jobs.map (fun j =>
              if claimCond cand.id cand.updatedAt j then
                claimTransform sys.store.clock j
              else j) },
          callers := (sys.callers.set i (.got cand.id cand.updatedAt)).set i
            (.cdone (some cand.id)) } := by
      simp [cstep, h2, condClaimUpdate, hcnt]
    rw [h3]
    rw [condClaim_map_eq sys.store.jobs cand sys.store.clock hnd hcm hcq]
    rw [List.set_set]

/-- One serial round: the next fresh caller claims one eligible job when any
remains, and comes back empty otherwise. -/
theorem serial_step (s0 : Store) (N k M : ℕ) (X : CSys) (hkN : k < N)
    (hM : M = s0.jobs.countP (claimEligible s0.clock))
    (hresk : (claimResults X.callers).length = min k M)
    (hnd : (X.store.jobs.map Job.id).Nodup)
    (hclk : X.store.clock = s0.clock)
    (hlen : X.callers.length = N)
    (hstart : ∀ m, k ≤ m → m < N → X.callers[m]? = some .start)
    (hcnt : X.store.jobs.countP (claimEligible s0.clock) = M - k) :
    (claimResults (cstep (cstep X k) k).callers).length = min (k + 1) M ∧
    ((cstep (cstep X k) k).store.jobs.map Job.id).Nodup ∧
    (cstep (cstep X k) k).store.clock = s0.clock ∧
    (cstep (cstep X k) k).callers.length = N ∧
    (∀ m, k + 1 ≤ m → m < N →
      (cstep (cstep X k) k).callers[m]? = some .start) ∧
    (cstep (cstep X k) k).store.jobs.countP (claimEligible s0.clock)
      = M - (k + 1) := by
  have hik : X.callers[k]? = some .start := hstart k (le_refl k) hkN
  have h2s := cstep_twice_start X k hnd hik
  cases hsel : selectCandidate X.store.clock X.store.jobs with
  | none =>
    rw [hsel] at h2s
    dsimp only at h2s
    have hzero : X.store.jobs.countP (claimEligible s0.clock) = 0 := by
      rw [List.countP_eq_zero]
      intro j hj
      have := selectCandidate_eq_none.mp hsel j hj
      rw [hclk] at this
      simp [this]
    have hkM : M ≤ k := by omega
    rw [h2s]
    have hresults : claimResults (X.callers.set k (.cdone none))
        = claimResults X.callers := filterMap_set_eq hik rfl
    refine ⟨?_, hnd, hclk, by simp [hlen], ?_, ?_⟩
    · rw [hresults, hresk]
      omega
    · intro m hm hmN
      rw [List.getElem?_set_ne (by omega)]
      exact hstart m (by omega) hmN
    · rw [hzero]
      omega
  | some cand =>
    rw [hsel] at h2s
    dsimp only at h2s
    obtain ⟨hcm, hce, _⟩ := selectCandidate_spec hsel
    rw [hclk] at hce
    have hposM : k < M := by
      have h3 : 0 < X.store.jobs.countP (claimEligible s0.clock) :=
        List.countP_pos_iff.mpr ⟨cand, hcm, hce⟩
      omega
    obtain ⟨l1, l2, hrOld, hrNew⟩ :=
      filterMap_set_some (f := fun c => match c with
        | CallerPc.cdone (some a) => some a
        | _ => none) hik (a := .cdone (some cand.id)) rfl rfl
    rw [h2s]
    refine ⟨?_, ?_, hclk, by simp [hlen], ?_, ?_⟩
    · unfold claimResults at hresk ⊢
      rw [hrNew]
      rw [hrOld] at hresk
      rw [Nat.min_eq_left (Nat.le_of_lt hposM)] at hresk
      rw [Nat.min_eq_left (by omega : k + 1 ≤ M)]
      simp only [List.length_append, List.length_cons] at hresk ⊢
      omega
    · rw [updateJobById_map_id X.store.jobs cand.id
        (claimTransform X.store.clock) (fun y => rfl)]
      exact hnd
    · intro m hm hmN
      rw [List.getElem?_set_ne (by omega)]
      exact hstart m (by omega) hmN
    · have hdec := claim_eligible_decrement X.store.jobs cand
        X.store.clock s0.clock hnd hcm hce
      rw [hcnt] at hdec
      dsimp only
      omega

/-- Claim C1: concurrent claim callers never obtain the same job. For every
interleaving of N claim attempts at one cycle instant, the successfully
claimed jobs are pairwise distinct - the conditional update behind the
`updatedAt` fence rejects every caller that lost the race for a row - and
they number at most min(N, M), where M is the number of eligible QUEUED
jobs. Under the serialized execution the store gives the claim transaction
(each `prisma.$transaction` runs atomically), exactly min(N, M) distinct
claims succeed. -/
theorem claim_concurrency_spec (s0 : Store) (N : ℕ)
    (hnd : (s0.jobs.map Job.id).Nodup) :
    (∀ sched : List ℕ,
      (claimResults (crun ⟨s0, List.replicate N .start⟩ sched).callers).Nodup ∧
      (claimResults (crun ⟨s0, List.replicate N .start⟩ sched).callers).length
        ≤ min N (s0.jobs.countP (claimEligible s0.clock))) ∧
    (claimResults (crun ⟨s0, List.replicate N .start⟩
        (serialSched N)).callers).length
      = min N (s0.jobs.countP (claimEligible s0.clock)) := by
  have hinit : CInv s0 N ⟨s0, List.replicate N .start⟩ := by
    refine ⟨hnd, rfl, by simp, ?_, ?_, ?_, ?_, ?_⟩
    · intro j hj
      exact ⟨j, hj, rfl, Or.inl rfl⟩
    · intro c hm jid fence he
      have := List.eq_of_mem_replicate hm
      rw [this] at he
      cases he
    · intro a ha
      rw [claimResults_replicate_start] at ha
      cases ha
    · intro a ha
      rw [claimResults_replicate_start] at ha
      cases ha
    · rw [claimResults_replicate_start]
      exact List.nodup_nil
  have hrunInv : ∀ sched : List ℕ, ∀ sys : CSys, CInv s0 N sys →
      CInv s0 N (crun sys sched) := by
    intro sched
    induction sched with
    | nil => intro sys h; exact h
    | cons i rest ih =>
      intro sys h
      exact ih _ (cInv_step s0 N hnd sys h i)
  constructor
  · intro sched
    obtain ⟨hnd1, hclk1, hlen1, horig1, hgot1, hres1, hrun1, hresnd1⟩ :=
      hrunInv sched _ hinit
    refine ⟨hresnd1, ?_⟩
    have hleN : (claimResults (crun ⟨s0, List.replicate N .start⟩
        sched).callers).length ≤ N := by
      have := List.length_filterMap_le (fun c => match c with
        | CallerPc.cdone (some a) => some a
        | _ => none) (crun ⟨s0, List.replicate N .start⟩ sched).callers
      unfold claimResults
      omega
    have hleM : (claimResults (crun ⟨s0, List.replicate N .start⟩
        sched).callers).length ≤ s0.jobs.countP (claimEligible s0.clock) := by
      have hsub : ∀ a ∈ claimResults (crun ⟨s0, List.replicate N .start⟩
          sched).callers,
          a ∈ (s0.jobs.filter (claimEligible s0.clock)).map Job.id := by
        intro a ha
        obtain ⟨j0, hj0, hid, helig⟩ := hres1 a ha
        exact List.mem_map.mpr ⟨j0, List.mem_filter.mpr ⟨hj0, helig⟩, hid⟩
      have h1 : (claimResults (crun ⟨s0, List.replicate N .start⟩
          sched).callers).toFinset.card
          = (claimResults (crun ⟨s0, List.replicate N .start⟩
          sched).callers).length := List.toFinset_card_of_nodup hresnd1
      have h2 : (claimResults (crun ⟨s0, List.replicate N .start⟩
          sched).callers).toFinset ⊆
          ((s0.jobs.filter (claimEligible s0.clock)).map Job.id).toFinset := by
        intro a ha
        exact List.mem_toFinset.mpr (hsub a (List.mem_toFinset.mp ha))
      have h3 := Finset.card_le_card h2
      have h4 := List.toFinset_card_le
        (l := (s0.jobs.filter (claimEligible s0.clock)).map Job.id)
      have h5 : ((s0.jobs.filter (claimEligible s0.clock)).map Job.id).length
          = s0.jobs.countP (claimEligible s0.clock) := by
        rw [List.length_map, ← List.countP_eq_length_filter]
      omega
    exact Nat.le_min.mpr ⟨hleN, hleM⟩
  · have hserial : ∀ k, k ≤ N →
        (claimResults (crun ⟨s0, List.replicate N .start⟩
            (serialSched k)).callers).length
          = min k (s0.jobs.countP (claimEligible s0.clock)) ∧
        ((crun ⟨s0, List.replicate N .start⟩
            (serialSched k)).store.jobs.map Job.id).Nodup ∧
        (crun ⟨s0, List.replicate N .start⟩ (serialSched k)).store.clock
          = s0.clock ∧
        (crun ⟨s0, List.replicate N .start⟩ (serialSched k)).callers.length
          = N ∧
        (∀ m, k ≤ m → m < N →
          (crun ⟨s0, List.replicate N .start⟩
            (serialSched k)).callers[m]? = some .start) ∧
        (crun ⟨s0, List.replicate N .start⟩
            (serialSched k)).store.jobs.countP (claimEligible s0.clock)
          = s0.jobs.countP (claimEligible s0.clock) - k := by
      intro k
      induction k with
      | zero =>
        intro _
        refine ⟨?_, hnd, rfl, by simp [crun, serialSched], ?_, ?_⟩
        · simp [serialSched, crun, claimResults_replicate_start]
        · intro m _ hm
          simp [serialSched, crun, List.getElem?_replicate, hm]
        · simp [serialSched, crun]
      | succ k ih =>
        intro hk1
        have hk : k ≤ N := Nat.le_of_succ_le hk1
        obtain ⟨ihres, ihnd, ihclk, ihlen, ihstart, ihcnt⟩ := ih hk
        have hsplit : crun ⟨s0, List.replicate N .start⟩ (serialSched (k + 1))
            = cstep (cstep (crun ⟨s0, List.replicate N .start⟩
                (serialSched k)) k) k := by
          show (serialSched (k + 1)).foldl cstep _ = _
          rw [serialSched, List.foldl_append]
          rfl
        rw [hsplit]
        exact serial_step s0 N k (s0.jobs.countP (claimEligible s0.clock))
          (crun ⟨s0, List.replicate N .start⟩ (serialSched k))
          (by omega) rfl ihres ihnd ihclk ihlen ihstart ihcnt
    exact (hserial N (le_refl N)).1

/-- Witness for claim C1 at the concrete store `demoStore` (two eligible
jobs) with three callers and an arbitrary interleaving. -/
theorem claim_concurrency_spec_witness :
    ((claimResults (crun ⟨demoStore, List.replicate 3 .start⟩
        [0, 1, 0, 1, 2, 2]).callers).Nodup ∧
      (claimResults (crun ⟨demoStore, List.replicate 3 .start⟩
          [0, 1, 0, 1, 2, 2]).callers).length
        ≤ min 3 (demoStore.jobs.countP (claimEligible demoStore.clock))) ∧
    (claimResults (crun ⟨demoStore, List.replicate 3 .start⟩
        (serialSched 3)).callers).length
      = min 3 (demoStore.jobs.countP (claimEligible demoStore.clock)) := by
  obtain ⟨h1, h2⟩ := claim_concurrency_spec demoStore 3 (by decide)
  exact ⟨h1 [0, 1, 0, 1, 2, 2], h2⟩

/-- An id-preserving run update preserves the id listing. -/
theorem updateRunById_map_id (runs : List Run) (rid : ℕ) (f : Run → Run)
    (hf : ∀ y, (f y).id = y.id) :
    (updateRunById runs rid f).map Run.id = runs.map Run.id := by
  unfold updateRunById
  rw [List.map_map]
  refine List.map_congr_left ?_
  intro y _
  simp only [Function.comp_apply]
  by_cases hc : (y.id == rid) = true
  · rw [if_pos hc]
    exact hf y
  · rw [if_neg (by simpa using hc)]

/-- An id-preserving insight update preserves the id listing. -/
theorem updateInsightById_map_id (insights : List Insight) (iid : ℕ)
    (f : Insight → Insight) (hf : ∀ y, (f y).id = y.id) :
    (updateInsightById insights iid f).map Insight.id
      = insights.map Insight.id := by
  unfold updateInsightById
  rw [List.map_map]
  refine List.map_congr_left ?_
  intro y _
  simp only [Function.comp_apply]
  by_cases hc : (y.id == iid) = true
  · rw [if_pos hc]
    exact hf y
  · rw [if_neg (by simpa using hc)]

/-- Pointwise-equal predicates across a rewrite give equal counts. -/
theorem countP_map_congr {α : Type} {l : List α} {h : α → α} {p q : α → Bool}
    (hpq : ∀ y ∈ l, q (h y) = p y) : (l.map h).countP q = l.countP p := by
  rw [List.countP_map]
  refine List.countP_congr ?_
  intro y hy
  simp only [Function.comp_apply]
  rw [hpq y hy]

/-- Pointwise implication across a rewrite gives a count bound. -/
theorem countP_map_mono {α : Type} {l : List α} {h : α → α} {p q : α → Bool}
    (hpq : ∀ y ∈ l, p y = true → q (h y) = true) :
    l.countP p ≤ (l.map h).countP q := by
  rw [List.countP_map]
  exact List.countP_mono_left hpq

/-- Removing one ownership from a duplicate-free live list: the removed id is
no longer held, other ids are unaffected. -/
theorem hasLive_remove {tasks tasks1 : List WTask} {jid : ℕ} {l1 l2 : List ℕ}
    (h1 : liveJobIds tasks = l1 ++ jid :: l2)
    (h2 : liveJobIds tasks1 = l1 ++ l2)
    (hnd : (liveJobIds tasks).Nodup) :
    hasLiveTask tasks jid = true ∧ hasLiveTask tasks1 jid = false ∧
    ∀ x, x ≠ jid → hasLiveTask tasks1 x = hasLiveTask tasks x := by
  unfold hasLiveTask
  rw [h1, h2]
  rw [h1, List.nodup_middle, List.nodup_cons] at hnd
  refine ⟨by simp, by simp [hnd.1], ?_⟩
  intro x hx
  simp [List.mem_append, List.mem_cons, hx]

/-- Two-predicate version of `countP_map_balance`: a rewrite that fixes every
element whose key differs from a distinguished member, measured before with
`p` and after with `q` agreeing away from that member. -/
theorem countP_map_balance2 {α : Type} (key : α → ℕ) {l : List α} {x : α}
    (hx : x ∈ l) (hnd : (l.map key).Nodup) {h : α → α} {p q : α → Bool}
    (hother : ∀ y ∈ l, key y ≠ key x → q (h y) = p y) :
    (l.map h).countP q + (if p x then 1 else 0)
      = l.countP p + (if q (h x) then 1 else 0) := by
  induction l with
  | nil => cases hx
  | cons a rest ih =>
    rw [List.map_cons, List.nodup_cons] at hnd
    rcases List.mem_cons.mp hx with rfl | hx1
    · have hrest : ∀ y ∈ rest, q (h y) = p y := by
        intro y hy
        refine hother y (List.mem_cons_of_mem _ hy) ?_
        intro hkey
        exact hnd.1 (hkey ▸ List.mem_map_of_mem key hy)
      have heq : (rest.map h).countP q = rest.countP p := by
        rw [List.countP_map]
        refine List.countP_congr ?_
        intro y hy
        simp only [Function.comp_apply]
        rw [hrest y hy]
      simp only [List.map_cons, List.countP_cons, heq]
      omega
    · have hkey : key a ≠ key x := by
        intro hkey
        exact hnd.1 (hkey ▸ List.mem_map_of_mem key hx1)
      have ha : q (h a) = p a := hother a (List.mem_cons_self _ _) hkey
      have ihr := ih hx1 hnd.2 fun y hy => hother y (List.mem_cons_of_mem _ hy)
      simp only [List.map_cons, List.countP_cons, ha]
      omega

/-- Appending an element strictly above every existing one keeps the list
duplicate-free. -/
theorem nodup_append_fresh {l : List ℕ} {n : ℕ} (hnd : l.Nodup)
    (hlt : ∀ x ∈ l, x < n) : (l ++ [n]).Nodup := by
  rw [List.nodup_append]
  refine ⟨hnd, List.nodup_singleton n, ?_⟩
  intro x hx hmem
  rw [List.mem_singleton] at hmem
  subst hmem
  exact absurd rfl (Nat.ne_of_lt (hlt x hx))

/-- A worker cycle with a captured job-run pair holds that job. -/
theorem jobRun_active (t : WTask) (pr : ℕ × Option ℕ)
    (h : t.jobRun = some pr) : t.activeJobId = some pr.1 := by
  cases t with
  | claimed j sh pid r =>
    simp only [WTask.jobRun, Option.some.injEq] at h
    show some j = some pr.1
    rw [← h]
  | processing j insId r =>
    simp only [WTask.jobRun, Option.some.injEq] at h
    show some j = some pr.1
    rw [← h]
  | incrSucc r => simp [WTask.jobRun] at h
  | incrFail r => simp [WTask.jobRun] at h
  | done => simp [WTask.jobRun] at h

/-- Appending a worker cycle that holds a job makes that job held; other job
ids are unaffected. -/
theorem hasLive_append (tasks : List WTask) (t : WTask) (jid : ℕ)
    (ht : t.activeJobId = some jid) :
    hasLiveTask (tasks ++ [t]) jid = true ∧
    ∀ x, x ≠ jid → hasLiveTask (tasks ++ [t]) x = hasLiveTask tasks x := by
  unfold hasLiveTask liveJobIds
  rw [List.filterMap_append]
  have hsing : [t].filterMap WTask.activeJobId = [jid] := by
    simp [List.filterMap_cons, ht]
  rw [hsing]
  refine ⟨by simp, ?_⟩
  intro x hx
  simp [hx]

/-- A job id is held exactly when some in-flight cycle records it. -/
theorem hasLive_true_iff (tasks : List WTask) (jid : ℕ) :
    hasLiveTask tasks jid = true ↔
      ∃ t ∈ tasks, t.activeJobId = some jid := by
  unfold hasLiveTask liveJobIds
  simp [List.mem_filterMap]

/-- `enqueueInsightJob` either refuses and leaves the store unchanged, or
rewrites the jobs through a row map preserving id, runId and shop (failing at
most the superseded active job), appends one fresh QUEUED job, keeps the
insight id listing and touches nothing else. -/
theorem enqueue_cases (s : Store) (shop pid : String) (runId : Option ℕ)
    (force : Bool) :
    (enqueueInsightJob s shop pid runId force).1 = s ∨
    ∃ g : Job → Job, ∃ insights1 : List Insight,
      (∀ j, (g j).id = j.id) ∧ (∀ j, (g j).runId = j.runId) ∧
      (∀ j, (g j).shop = j.shop) ∧ (∀ j, (g j).productId = j.productId) ∧
      (∀ j, (g j).status = j.status ∨ (g j).status = .failed) ∧
      insights1.map Insight.id = s.insights.map Insight.id ∧
      (enqueueInsightJob s shop pid runId force).1 =
        { s with
          jobs := s.jobs.map g ++
            [newEnqueuedJob s shop pid runId],
          insights := insights1,
          nextJobId := s.nextJobId + 1 } := by
  by_cases href : ((findActiveJob s.jobs shop pid).isSome && !force) = true
  · left
    simp [enqueueInsightJob, href]
  · right
    have hins : ∃ insights1 : List Insight,
        insights1.map Insight.id = s.insights.map Insight.id ∧
        (match findInsightByKey s.insights shop pid with
         | some i => updateInsightById s.insights i.id fun ins =>
             { ins with aiStatus := some .queued, aiError := none }
         | none => s.insights) = insights1 := by
      cases hik : findInsightByKey s.insights shop pid with
      | none => exact ⟨s.insights, rfl, rfl⟩
      | some i =>
        refine ⟨updateInsightById s.insights i.id fun ins =>
          { ins with aiStatus := some .queued, aiError := none }, ?_, rfl⟩
        exact updateInsightById_map_id s.insights i.id _ (fun y => rfl)
    obtain ⟨insights1, hins1, hins2⟩ := hins
    cases hex : findActiveJob s.jobs shop pid with
    | none =>
      refine ⟨fun j => j, insights1, fun j => rfl, fun j => rfl, fun j => rfl,
        fun j => rfl, fun j => Or.inl rfl, hins1, ?_⟩
      have hmap : s.jobs.map (fun j => j) = s.jobs := by
        simp
      rw [hmap]
      simp only [enqueueInsightJob, hex]
      rw [if_neg (by simp)]
      dsimp only
      rw [hins2]
      rfl
    | some e =>
      cases hforce : force with
      | false =>
        exfalso
        apply href
        rw [hex, hforce]
        rfl
      | true =>
        refine ⟨fun j => if j.id == e.id then
            { j with status := .failed,
                     lastError := some "Superseded by regenerate",
                     updatedAt := s.clock } else j,
          insights1, ?_, ?_, ?_, ?_, ?_, hins1, ?_⟩
        · intro j
          dsimp only
          by_cases hc : (j.id == e.id) = true
          · rw [if_pos hc]
          · rw [if_neg (by simpa using hc)]
        · intro j
          dsimp only
          by_cases hc : (j.id == e.id) = true
          · rw [if_pos hc]
          · rw [if_neg (by simpa using hc)]
        · intro j
          dsimp only
          by_cases hc : (j.id == e.id) = true
          · rw [if_pos hc]
          · rw [if_neg (by simpa using hc)]
        · intro j
          dsimp only
          by_cases hc : (j.id == e.id) = true
          · rw [if_pos hc]
          · rw [if_neg (by simpa using hc)]
        · intro j
          dsimp only
          by_cases hc : (j.id == e.id) = true
          · rw [if_pos hc]
            exact Or.inr rfl
          · rw [if_neg (by simpa using hc)]
            exact Or.inl rfl
        · subst hforce
          simp only [enqueueInsightJob, hex]
          rw [if_neg (by simp)]
          dsimp only
          rw [if_pos trivial, hins2]
          rfl

/-- The single-product enqueue preserves the invariant. -/
theorem wf_soloEnqueue (sys : Sys) (hwf : WF sys) (shop pid : String)
    (force : Bool) :
    WF (applyEv sys (.soloEnqueue shop pid force)) := by
  obtain ⟨h1, h2, h3, h4, h5, h6, h7, h8, h9, h10, h11, h12, h13, h14, h15,
    h16, h17, h18⟩ := hwf
  have happ : applyEv sys (.soloEnqueue shop pid force) =
      { sys with store := (enqueueInsightJob sys.store shop pid none force).1 } := rfl
  rw [happ]
  rcases enqueue_cases sys.store shop pid none force with heq |
    ⟨g, insights1, hgid, hgrun, hgshop, hgpid, hgstat, hins1, heq⟩
  · rw [heq]
    exact ⟨h1, h2, h3, h4, h5, h6, h7, h8, h9, h10, h11, h12, h13, h14, h15,
      h16, h17, h18⟩
  · rw [heq]
    have hmapid : (sys.store.jobs.map g).map Job.id = sys.store.jobs.map Job.id := by
      rw [List.map_map]
      exact List.map_congr_left (fun y _ => hgid y)
    have hterm : ∀ j : Job, j.status.isTerminal = true →
        (g j).status.isTerminal = true := by
      intro j hj
      rcases hgstat j with h | h
      · rw [h]
        exact hj
      · rw [h]
        rfl
    refine ⟨?_, h2, ?_, ?_, h5, ?_, ?_, ?_, h9, h10, h11, ?_, ?_, ?_, h15,
      h16, ?_, ?_⟩
    · rw [List.map_append, hmapid]
      exact nodup_append_fresh h1 (by simpa using h4)
    · rw [hins1]
      exact h3
    · intro j hj
      rcases List.mem_append.mp hj with hm | hnew
      · obtain ⟨y, hy, hxy⟩ := List.mem_map.mp hm
        have := h4 y hy
        have hid : j.id = y.id := by
          rw [← hxy]
          exact hgid y
        dsimp only
        omega
      · rw [List.mem_singleton] at hnew
        subst hnew
        simp [newEnqueuedJob]
    · intro x hx
      have hmem : x.id ∈ insights1.map Insight.id := List.mem_map_of_mem _ hx
      rw [hins1] at hmem
      obtain ⟨y, hy, hyid⟩ := List.mem_map.mp hmem
      rw [← hyid]
      exact h6 y hy
    · intro j hj rid hrid
      rcases List.mem_append.mp hj with hm | hnew
      · obtain ⟨y, hy, hxy⟩ := List.mem_map.mp hm
        refine h7 y hy rid ?_
        rw [← hgrun y, hxy]
        exact hrid
      · rw [List.mem_singleton] at hnew
        subst hnew
        cases hrid
    · intro t ht jid hjid
      have := h8 t ht jid hjid
      dsimp only
      omega
    · intro t ht jid hjid j hj hjeq
      rcases List.mem_append.mp hj with hm | hnew
      · obtain ⟨y, hy, hxy⟩ := List.mem_map.mp hm
        have hyid : y.id = jid := by
          rw [← hjeq, ← hxy]
          exact (hgid y).symm
        have hys := h12 t ht jid hjid y hy hyid
        rcases hgstat y with h | h
        · rw [← hxy, h]
          exact hys
        · rw [← hxy, h]
          intro hc
          cases hc
      · rw [List.mem_singleton] at hnew
        have hlt := h8 t ht jid hjid
        exfalso
        rw [hnew] at hjeq
        simp only [newEnqueuedJob] at hjeq
        omega
    · intro t ht pr hpr j hj hjeq
      rcases List.mem_append.mp hj with hm | hnew
      · obtain ⟨y, hy, hxy⟩ := List.mem_map.mp hm
        have hyid : y.id = pr.1 := by
          rw [← hjeq, ← hxy]
          exact (hgid y).symm
        have := h13 t ht pr hpr y hy hyid
        rw [← hxy, hgrun y]
        exact this
      · rw [List.mem_singleton] at hnew
        have hact := jobRun_active t pr (Option.mem_def.mp hpr)
        have hlt := h8 t ht pr.1 (Option.mem_def.mpr hact)
        exfalso
        rw [hnew] at hjeq
        simp only [newEnqueuedJob] at hjeq
        omega
    · intro j hj rid hrid r hr hreq
      rcases List.mem_append.mp hj with hm | hnew
      · obtain ⟨y, hy, hxy⟩ := List.mem_map.mp hm
        have hshop : j.shop = y.shop := by
          rw [← hxy]
          exact hgshop y
        rw [hshop]
        refine h14 y hy rid ?_ r hr hreq
        rw [← hgrun y, hxy]
        exact hrid
      · rw [List.mem_singleton] at hnew
        subst hnew
        cases hrid
    · intro r hr
      have hfree : freeTerminalCount sys r.id ≤
          ((sys.store.jobs.map g ++
            [newEnqueuedJob sys.store shop pid none]).countP fun j =>
            j.runId == some r.id && j.status.isTerminal &&
              !(hasLiveTask sys.tasks j.id)) := by
        rw [List.countP_append]
        have hmono := countP_map_mono (l := sys.store.jobs) (h := g)
          (p := fun j => j.runId == some r.id && j.status.isTerminal &&
            !(hasLiveTask sys.tasks j.id))
          (q := fun j => j.runId == some r.id && j.status.isTerminal &&
            !(hasLiveTask sys.tasks j.id)) ?_
        · unfold freeTerminalCount
          omega
        · intro y _ hp
          simp only [Bool.and_eq_true] at hp ⊢
          obtain ⟨⟨hA, hB⟩, hC⟩ := hp
          refine ⟨⟨?_, hterm y hB⟩, ?_⟩
          · rw [hgrun y]
            exact hA
          · rw [hgid y]
            exact hC
      have := h17 r hr
      show r.succeeded + r.failed + pendCount sys.tasks r.id ≤
        (sys.store.jobs.map g ++
          [newEnqueuedJob sys.store shop pid none]).countP fun j =>
          j.runId == some r.id && j.status.isTerminal &&
            !(hasLiveTask sys.tasks j.id)
      omega
    · intro r hr
      have hcnt : ((sys.store.jobs.map g ++
          [newEnqueuedJob sys.store shop pid none]).countP fun j =>
            j.runId == some r.id)
          = sys.store.jobs.countP fun j => j.runId == some r.id := by
        rw [List.countP_append]
        have hcg : (sys.store.jobs.map g).countP (fun j => j.runId == some r.id)
            = sys.store.jobs.countP fun j => j.runId == some r.id :=
          countP_map_congr (fun y _ => by rw [hgrun y])
        rw [hcg]
        simp [newEnqueuedJob]
      have := h18 r hr
      show ((sys.store.jobs.map g ++
          [newEnqueuedJob sys.store shop pid none]).countP fun j =>
            j.runId == some r.id) + prodPending sys.producers r.id
        ≤ r.productsQueued
      rw [hcnt]
      unfold runJobCount at this
      exact this

/-- One batch-enqueue iteration preserves the invariant. -/
theorem wf_producerStep (sys : Sys) (hwf : WF sys) (i : ℕ) :
    WF (applyEv sys (.producerStep i)) := by
  obtain ⟨h1, h2, h3, h4, h5, h6, h7, h8, h9, h10, h11, h12, h13, h14, h15,
    h16, h17, h18⟩ := hwf
  cases hget : sys.producers[i]? with
  | none =>
    have happ : applyEv sys (.producerStep i) = sys := by
      simp [applyEv, hget]
    rw [happ]
    exact ⟨h1, h2, h3, h4, h5, h6, h7, h8, h9, h10, h11, h12, h13, h14, h15,
      h16, h17, h18⟩
  | some p =>
    have hpmem : p ∈ sys.producers := List.getElem?_mem hget
    cases hrem : p.remaining with
    | nil =>
      have happ : applyEv sys (.producerStep i) = sys := by
        simp [applyEv, hget, hrem]
      rw [happ]
      exact ⟨h1, h2, h3, h4, h5, h6, h7, h8, h9, h10, h11, h12, h13, h14, h15,
        h16, h17, h18⟩
    | cons pid rest =>
      have happ : applyEv sys (.producerStep i) =
          { sys with
            store := (enqueueInsightJob sys.store p.shop pid (some p.runId)
              false).1,
            producers := sys.producers.set i { p with remaining := rest } } := by
        simp [applyEv, hget, hrem]
      rw [happ]
      have hprodmem : ∀ q ∈ sys.producers.set i { p with remaining := rest },
          (q.runId = p.runId ∧ q.shop = p.shop) ∨ q ∈ sys.producers := by
        intro q hq
        rcases List.mem_or_eq_of_mem_set hq with hqo | hqe
        · exact Or.inr hqo
        · subst hqe
          exact Or.inl ⟨rfl, rfl⟩
      have hpend : ∀ rid : ℕ,
          prodPending (sys.producers.set i { p with remaining := rest }) rid
            + (if p.runId == rid then (pid :: rest).length else 0)
          = prodPending sys.producers rid
            + (if p.runId == rid then rest.length else 0) := by
        intro rid
        have hbal := sum_map_set_balance hget ({ p with remaining := rest })
          (fun q => if q.runId == rid then q.remaining.length else 0)
        unfold prodPending
        by_cases hc : (p.runId == rid) = true
        · rw [if_pos hc]
          rw [if_pos hc]
          have e1 : (if p.runId == rid then p.remaining.length else 0)
              = (pid :: rest).length := by
            rw [if_pos hc, hrem]
          have e2 : (if ({ p with remaining := rest } : Producer).runId == rid
              then ({ p with remaining := rest } : Producer).remaining.length
              else 0) = rest.length := by
            rw [if_pos hc]
          rw [e1, e2] at hbal
          omega
        · rw [if_neg (by simpa using hc)]
          rw [if_neg (by simpa using hc)]
          have e1 : (if p.runId == rid then p.remaining.length else 0) = 0 := by
            rw [if_neg (by simpa using hc)]
          have e2 : (if ({ p with remaining := rest } : Producer).runId == rid
              then ({ p with remaining := rest } : Producer).remaining.length
              else 0) = 0 := by
            rw [if_neg (by simpa using hc)]
          rw [e1, e2] at hbal
          omega
      rcases enqueue_cases sys.store p.shop pid (some p.runId) false with heq |
        ⟨g, insights1, hgid, hgrun, hgshop, hgpid, hgstat, hins1, heq⟩
      · rw [heq]
        refine ⟨h1, h2, h3, h4, h5, h6, h7, h8, h9, ?_, h11, h12, h13, h14,
          ?_, h16, h17, ?_⟩
        · intro q hq
          rcases hprodmem q hq with ⟨hqr, _⟩ | hqo
          · rw [hqr]
            exact h10 p hpmem
          · exact h10 q hqo
        · intro q hq r hr hreq
          rcases hprodmem q hq with ⟨hqr, hqs⟩ | hqo
          · rw [hqs]
            refine h15 p hpmem r hr ?_
            rw [hreq, hqr]
          · exact h15 q hqo r hr hreq
        · intro r hr
          have hp18 := h18 r hr
          have hb := hpend r.id
          show runJobCount sys.store r.id +
            prodPending (sys.producers.set i { p with remaining := rest }) r.id
            ≤ r.productsQueued
          by_cases hc : (p.runId == r.id) = true
          · rw [if_pos hc, if_pos hc] at hb
            simp only [List.length_cons] at hb
            omega
          · rw [if_neg (by simpa using hc), if_neg (by simpa using hc)] at hb
            omega
      · rw [heq]
        have hmapid : (sys.store.jobs.map g).map Job.id
            = sys.store.jobs.map Job.id := by
          rw [List.map_map]
          exact List.map_congr_left (fun y _ => hgid y)
        have hterm : ∀ j : Job, j.status.isTerminal = true →
            (g j).status.isTerminal = true := by
          intro j hj
          rcases hgstat j with h | h
          · rw [h]
            exact hj
          · rw [h]
            rfl
        refine ⟨?_, h2, ?_, ?_, h5, ?_, ?_, ?_, h9, ?_, h11, ?_, ?_, ?_, ?_,
          h16, ?_, ?_⟩
        · rw [List.map_append, hmapid]
          exact nodup_append_fresh h1 (by simpa using h4)
        · rw [hins1]
          exact h3
        · intro j hj
          rcases List.mem_append.mp hj with hm | hnew
          · obtain ⟨y, hy, hxy⟩ := List.mem_map.mp hm
            have := h4 y hy
            have hid : j.id = y.id := by
              rw [← hxy]
              exact hgid y
            dsimp only
            omega
          · rw [List.mem_singleton] at hnew
            subst hnew
            simp [newEnqueuedJob]
        · intro x hx
          have hmem : x.id ∈ insights1.map Insight.id := List.mem_map_of_mem _ hx
          rw [hins1] at hmem
          obtain ⟨y, hy, hyid⟩ := List.mem_map.mp hmem
          rw [← hyid]
          exact h6 y hy
        · intro j hj rid hrid
          rcases List.mem_append.mp hj with hm | hnew
          · obtain ⟨y, hy, hxy⟩ := List.mem_map.mp hm
            refine h7 y hy rid ?_
            rw [← hgrun y, hxy]
            exact hrid
          · rw [List.mem_singleton] at hnew
            subst hnew
            have : rid = p.runId := by
              have := Option.mem_def.mp hrid
              simp only [newEnqueuedJob, Option.some.injEq] at this
              omega
            subst this
            exact h10 p hpmem
        · intro t ht jid hjid
          have := h8 t ht jid hjid
          dsimp only
          omega
        · intro q hq
          rcases hprodmem q hq with ⟨hqr, _⟩ | hqo
          · rw [hqr]
            exact h10 p hpmem
          · exact h10 q hqo
        · intro t ht jid hjid j hj hjeq
          rcases List.mem_append.mp hj with hm | hnew
          · obtain ⟨y, hy, hxy⟩ := List.mem_map.mp hm
            have hyid : y.id = jid := by
              rw [← hjeq, ← hxy]
              exact (hgid y).symm
            have hys := h12 t ht jid hjid y hy hyid
            rcases hgstat y with h | h
            · rw [← hxy, h]
              exact hys
            · rw [← hxy, h]
              intro hc
              cases hc
          · rw [List.mem_singleton] at hnew
            have hlt := h8 t ht jid hjid
            exfalso
            rw [hnew] at hjeq
            simp only [newEnqueuedJob] at hjeq
            omega
        · intro t ht pr hpr j hj hjeq
          rcases List.mem_append.mp hj with hm | hnew
          · obtain ⟨y, hy, hxy⟩ := List.mem_map.mp hm
            have hyid : y.id = pr.1 := by
              rw [← hjeq, ← hxy]
              exact (hgid y).symm
            have := h13 t ht pr hpr y hy hyid
            rw [← hxy, hgrun y]
            exact this
          · rw [List.mem_singleton] at hnew
            have hact := jobRun_active t pr (Option.mem_def.mp hpr)
            have hlt := h8 t ht pr.1 (Option.mem_def.mpr hact)
            exfalso
            rw [hnew] at hjeq
            simp only [newEnqueuedJob] at hjeq
            omega
        · intro j hj rid hrid r hr hreq
          rcases List.mem_append.mp hj with hm | hnew
          · obtain ⟨y, hy, hxy⟩ := List.mem_map.mp hm
            have hshop : j.shop = y.shop := by
              rw [← hxy]
              exact hgshop y
            rw [hshop]
            refine h14 y hy rid ?_ r hr hreq
            rw [← hgrun y, hxy]
            exact hrid
          · rw [List.mem_singleton] at hnew
            subst hnew
            have hridp : rid = p.runId := by
              have := Option.mem_def.mp hrid
              simp only [newEnqueuedJob, Option.some.injEq] at this
              omega
            subst hridp
            have : r.shop = p.shop := h15 p hpmem r hr hreq
            rw [this]
            simp [newEnqueuedJob]
        · intro q hq r hr hreq
          rcases hprodmem q hq with ⟨hqr, hqs⟩ | hqo
          · rw [hqs]
            refine h15 p hpmem r hr ?_
            rw [hreq, hqr]
          · exact h15 q hqo r hr hreq
        · intro r hr
          have hfree : freeTerminalCount sys r.id ≤
              ((sys.store.jobs.map g ++
                [newEnqueuedJob sys.store p.shop pid
                  (some p.runId)]).countP fun j =>
                j.runId == some r.id && j.status.isTerminal &&
                  !(hasLiveTask sys.tasks j.id)) := by
            rw [List.countP_append]
            have hmono := countP_map_mono (l := sys.store.jobs) (h := g)
              (p := fun j => j.runId == some r.id && j.status.isTerminal &&
                !(hasLiveTask sys.tasks j.id))
              (q := fun j => j.runId == some r.id && j.status.isTerminal &&
                !(hasLiveTask sys.tasks j.id)) ?_
            · unfold freeTerminalCount
              omega
            · intro y _ hp
              simp only [Bool.and_eq_true] at hp ⊢
              obtain ⟨⟨hA, hB⟩, hC⟩ := hp
              refine ⟨⟨?_, hterm y hB⟩, ?_⟩
              · rw [hgrun y]
                exact hA
              · rw [hgid y]
                exact hC
          have := h17 r hr
          show r.succeeded + r.failed + pendCount sys.tasks r.id ≤
            (sys.store.jobs.map g ++
              [newEnqueuedJob sys.store p.shop pid
                (some p.runId)]).countP fun j =>
              j.runId == some r.id && j.status.isTerminal &&
                !(hasLiveTask sys.tasks j.id)
          omega
        · intro r hr
          have hcnt : ((sys.store.jobs.map g ++
              [newEnqueuedJob sys.store p.shop pid
                (some p.runId)]).countP fun j => j.runId == some r.id)
              = (sys.store.jobs.countP fun j => j.runId == some r.id)
                + (if p.runId == r.id then 1 else 0) := by
            rw [List.countP_append]
            have hcg : (sys.store.jobs.map g).countP
                (fun j => j.runId == some r.id)
                = sys.store.jobs.countP fun j => j.runId == some r.id :=
              countP_map_congr (fun y _ => by rw [hgrun y])
            rw [hcg]
            by_cases hc : (p.runId == r.id) = true
            · have : p.runId = r.id := by
                simpa using hc
              simp [newEnqueuedJob, this, hc]
            · have : ¬ p.runId = r.id := by
                simpa using hc
              simp [newEnqueuedJob, this, hc]
          have hp18 := h18 r hr
          have hb := hpend r.id
          show ((sys.store.jobs.map g ++
              [newEnqueuedJob sys.store p.shop pid
                (some p.runId)]).countP fun j => j.runId == some r.id)
            + prodPending (sys.producers.set i { p with remaining := rest })
                r.id
            ≤ r.productsQueued
          rw [hcnt]
          unfold runJobCount at hp18
          by_cases hc : (p.runId == r.id) = true
          · rw [if_pos hc, if_pos hc] at hb
            rw [if_pos hc]
            simp only [List.length_cons] at hb
            omega
          · rw [if_neg (by simpa using hc), if_neg (by simpa using hc)] at hb
            rw [if_neg (by simpa using hc)]
            omega

/-- The claim transaction preserves the invariant. -/
theorem wf_workerClaim (sys : Sys) (hwf : WF sys) :
    WF (applyEv sys .workerClaim) := by
  obtain ⟨h1, h2, h3, h4, h5, h6, h7, h8, h9, h10, h11, h12, h13, h14, h15,
    h16, h17, h18⟩ := hwf
  cases hsel : selectCandidate sys.store.clock sys.store.jobs with
  | none =>
    have happ : applyEv sys .workerClaim = sys := by
      simp [applyEv, claimTxn, hsel]
    rw [happ]
    exact ⟨h1, h2, h3, h4, h5, h6, h7, h8, h9, h10, h11, h12, h13, h14, h15,
      h16, h17, h18⟩
  | some cand =>
    obtain ⟨hcand, helig, _⟩ := selectCandidate_spec hsel
    have hq : cand.status = .queued := by
      unfold claimEligible at helig
      simp only [Bool.and_eq_true, beq_iff_eq] at helig
      exact helig.1
    by_cases hcnt : (sys.store.jobs.countP
        (claimCond cand.id cand.updatedAt) == 0) = true
    · have happ : applyEv sys .workerClaim = sys := by
        simp [applyEv, claimTxn, hsel, condClaimUpdate, hcnt]
      rw [happ]
      exact ⟨h1, h2, h3, h4, h5, h6, h7, h8, h9, h10, h11, h12, h13, h14, h15,
        h16, h17, h18⟩
    · have happ : applyEv sys .workerClaim =
          { sys with
            store := { sys.store with
              jobs := sys.store.jobs.map fun j =>
                if claimCond cand.id cand.updatedAt j
                then claimTransform sys.store.clock j else j },
            tasks := sys.tasks ++
              [.claimed cand.id cand.shop cand.productId cand.runId] } := by
        simp [applyEv, claimTxn, hsel, condClaimUpdate, hcnt]
      rw [happ]
      have hk_id : ∀ j : Job, (if claimCond cand.id cand.updatedAt j
          then claimTransform sys.store.clock j else j).id = j.id := by
        intro j
        by_cases hc : claimCond cand.id cand.updatedAt j = true
        · rw [if_pos hc]
          rfl
        · rw [if_neg (by simpa using hc)]
      have hk_run : ∀ j : Job, (if claimCond cand.id cand.updatedAt j
          then claimTransform sys.store.clock j else j).runId = j.runId := by
        intro j
        by_cases hc : claimCond cand.id cand.updatedAt j = true
        · rw [if_pos hc]
          rfl
        · rw [if_neg (by simpa using hc)]
      have hk_shop : ∀ j : Job, (if claimCond cand.id cand.updatedAt j
          then claimTransform sys.store.clock j else j).shop = j.shop := by
        intro j
        by_cases hc : claimCond cand.id cand.updatedAt j = true
        · rw [if_pos hc]
          rfl
        · rw [if_neg (by simpa using hc)]
      have hk_term : ∀ j : Job, (if claimCond cand.id cand.updatedAt j
          then claimTransform sys.store.clock j else j).status.isTerminal
          = j.status.isTerminal := by
        intro j
        by_cases hc : claimCond cand.id cand.updatedAt j = true
        · rw [if_pos hc]
          have : j.status = .queued := by
            unfold claimCond at hc
            simp only [Bool.and_eq_true, beq_iff_eq] at hc
            exact hc.1.2
          rw [this]
          rfl
        · rw [if_neg (by simpa using hc)]
      have hk_nq : ∀ j : Job, (if claimCond cand.id cand.updatedAt j
          then claimTransform sys.store.clock j else j).status = j.status ∨
          (if claimCond cand.id cand.updatedAt j
          then claimTransform sys.store.clock j else j).status = .running := by
        intro j
        by_cases hc : claimCond cand.id cand.updatedAt j = true
        · rw [if_pos hc]
          exact Or.inr rfl
        · rw [if_neg (by simpa using hc)]
          exact Or.inl rfl
      have hccand : claimCond cand.id cand.updatedAt cand = true := by
        unfold claimCond
        simp [hq]
      have hnl : hasLiveTask sys.tasks cand.id = false := by
        cases hhl : hasLiveTask sys.tasks cand.id with
        | false => rfl
        | true =>
          exfalso
          obtain ⟨t, ht, hact⟩ := (hasLive_true_iff _ _).mp hhl
          exact h12 t ht cand.id (Option.mem_def.mpr hact) cand hcand rfl hq
      obtain ⟨hla, hlo⟩ := hasLive_append sys.tasks
        (.claimed cand.id cand.shop cand.productId cand.runId) cand.id rfl
      have hnmem : cand.id ∉ liveJobIds sys.tasks := by
        simpa [hasLiveTask] using hnl
      have hlive_app : liveJobIds (sys.tasks ++
          [.claimed cand.id cand.shop cand.productId cand.runId])
          = liveJobIds sys.tasks ++ [cand.id] := by
        unfold liveJobIds
        rw [List.filterMap_append]
        rfl
      have hmapid : ((sys.store.jobs.map fun j =>
          if claimCond cand.id cand.updatedAt j
          then claimTransform sys.store.clock j else j).map Job.id)
          = sys.store.jobs.map Job.id := by
        rw [List.map_map]
        exact List.map_congr_left (fun y _ => hk_id y)
      have hpendeq : ∀ rid : ℕ, pendCount (sys.tasks ++
          [.claimed cand.id cand.shop cand.productId cand.runId]) rid
          = pendCount sys.tasks rid := by
        intro rid
        unfold pendCount
        rw [List.countP_append]
        simp [WTask.pendRunId]
      refine ⟨?_, h2, h3, ?_, h5, h6, ?_, ?_, ?_, h10, ?_, ?_, ?_, ?_, h15,
        h16, ?_, ?_⟩
      · rw [hmapid]
        exact h1
      · intro j hj
        obtain ⟨y, hy, hxy⟩ := List.mem_map.mp hj
        have hid : j.id = y.id := by
          rw [← hxy]
          exact hk_id y
        rw [hid]
        exact h4 y hy
      · intro j hj rid hrid
        obtain ⟨y, hy, hxy⟩ := List.mem_map.mp hj
        refine h7 y hy rid ?_
        rw [← hk_run y, hxy]
        exact hrid
      · intro t ht jid hjid
        rcases List.mem_append.mp ht with hto | htn
        · exact h8 t hto jid hjid
        · rw [List.mem_singleton] at htn
          subst htn
          have : jid = cand.id := by
            have := Option.mem_def.mp hjid
            simpa [WTask.activeJobId] using this.symm
          subst this
          exact h4 cand hcand
      · intro t ht rid hrid
        rcases List.mem_append.mp ht with hto | htn
        · exact h9 t hto rid hrid
        · rw [List.mem_singleton] at htn
          subst htn
          cases Option.mem_def.mp hrid
      · rw [hlive_app]
        rw [List.nodup_append]
        refine ⟨h11, List.nodup_singleton _, ?_⟩
        intro x hx hmem
        rw [List.mem_singleton] at hmem
        subst hmem
        exact hnmem hx
      · intro t ht jid hjid j hj hjeq
        obtain ⟨y, hy, hxy⟩ := List.mem_map.mp hj
        have hyid : y.id = jid := by
          rw [← hjeq, ← hxy]
          exact (hk_id y).symm
        rcases List.mem_append.mp ht with hto | htn
        · have hys := h12 t hto jid hjid y hy hyid
          rcases hk_nq y with h | h
          · rw [← hxy, h]
            exact hys
          · rw [← hxy, h]
            intro hc
            cases hc
        · rw [List.mem_singleton] at htn
          subst htn
          have hjidc : jid = cand.id := by
            have := Option.mem_def.mp hjid
            simpa [WTask.activeJobId] using this.symm
          have hyc : y = cand := by
            refine eq_of_nodup_key h1 hy hcand ?_
            rw [hyid, hjidc]
          subst hyc
          rw [← hxy, if_pos hccand]
          intro hc
          cases hc
      · intro t ht pr hpr j hj hjeq
        obtain ⟨y, hy, hxy⟩ := List.mem_map.mp hj
        have hyid : y.id = pr.1 := by
          rw [← hjeq, ← hxy]
          exact (hk_id y).symm
        rcases List.mem_append.mp ht with hto | htn
        · have := h13 t hto pr hpr y hy hyid
          rw [← hxy, hk_run y]
          exact this
        · rw [List.mem_singleton] at htn
          subst htn
          have hprc : pr = (cand.id, cand.runId) := by
            have := Option.mem_def.mp hpr
            simpa [WTask.jobRun] using this.symm
          have hyc : y = cand := by
            refine eq_of_nodup_key h1 hy hcand ?_
            rw [hyid, hprc]
          rw [← hxy, hk_run y, hyc, hprc]
      · intro j hj rid hrid r hr hreq
        obtain ⟨y, hy, hxy⟩ := List.mem_map.mp hj
        have hshop : j.shop = y.shop := by
          rw [← hxy]
          exact hk_shop y
        rw [hshop]
        refine h14 y hy rid ?_ r hr hreq
        rw [← hk_run y, hxy]
        exact hrid
      · intro r hr
        have hfeq : ((sys.store.jobs.map fun j =>
            if claimCond cand.id cand.updatedAt j
            then claimTransform sys.store.clock j else j).countP fun j =>
              j.runId == some r.id && j.status.isTerminal &&
                !(hasLiveTask (sys.tasks ++
                  [.claimed cand.id cand.shop cand.productId cand.runId]) j.id))
            = sys.store.jobs.countP fun j =>
              j.runId == some r.id && j.status.isTerminal &&
                !(hasLiveTask sys.tasks j.id) := by
          refine countP_map_congr ?_
          intro y hy
          by_cases hyc : y.id = cand.id
          · have hyeq : y = cand := eq_of_nodup_key h1 hy hcand hyc
            subst hyeq
            rw [if_pos hccand]
            have e1 : (claimTransform sys.store.clock y).status.isTerminal
                = false := rfl
            have e2 : y.status.isTerminal = false := by
              rw [hq]
              rfl
            rw [e1, e2]
            simp
          · have hcc : claimCond cand.id cand.updatedAt y = false := by
              unfold claimCond
              simp [hyc]
            rw [hcc]
            rw [if_neg (by simp)]
            rw [hlo y.id hyc]
        have := h17 r hr
        rw [hpendeq r.id]
        show r.succeeded + r.failed + pendCount sys.tasks r.id ≤
          (sys.store.jobs.map fun j =>
            if claimCond cand.id cand.updatedAt j
            then claimTransform sys.store.clock j else j).countP fun j =>
              j.runId == some r.id && j.status.isTerminal &&
                !(hasLiveTask (sys.tasks ++
                  [.claimed cand.id cand.shop cand.productId cand.runId]) j.id)
        rw [hfeq]
        exact this
      · intro r hr
        have hcnt2 : ((sys.store.jobs.map fun j =>
            if claimCond cand.id cand.updatedAt j
            then claimTransform sys.store.clock j else j).countP fun j =>
              j.runId == some r.id)
            = sys.store.jobs.countP fun j => j.runId == some r.id :=
          countP_map_congr (fun y _ => by rw [hk_run y])
        have := h18 r hr
        show ((sys.store.jobs.map fun j =>
            if claimCond cand.id cand.updatedAt j
            then claimTransform sys.store.clock j else j).countP fun j =>
              j.runId == some r.id) + prodPending sys.producers r.id
          ≤ r.productsQueued
        rw [hcnt2]
        unfold runJobCount at this
        exact this

/-- Replacing a worker cycle that holds a job by one that holds none: the job
becomes free, other ids are untouched, and the live listing stays
duplicate-free. -/
theorem live_set_remove (tasks : List WTask) (i : ℕ) (t t' : WTask) (jid : ℕ)
    (hget : tasks[i]? = some t) (hta : t.activeJobId = some jid)
    (hta' : t'.activeJobId = none) (hnd : (liveJobIds tasks).Nodup) :
    hasLiveTask tasks jid = true ∧
    hasLiveTask (tasks.set i t') jid = false ∧
    (∀ x, x ≠ jid → hasLiveTask (tasks.set i t') x = hasLiveTask tasks x) ∧
    (liveJobIds (tasks.set i t')).Nodup := by
  obtain ⟨l1, l2, hL1, hL2⟩ := filterMap_set_none hget hta hta'
  have e1 : liveJobIds tasks = l1 ++ jid :: l2 := hL1
  have e2 : liveJobIds (tasks.set i t') = l1 ++ l2 := hL2
  obtain ⟨a, b, c⟩ := hasLive_remove e1 e2 hnd
  refine ⟨a, b, c, ?_⟩
  rw [e2]
  rw [e1, List.nodup_middle, List.nodup_cons] at hnd
  exact hnd.2

/-- Rewriting one existing held job row while releasing its hold changes the
free-terminal count of a run by exactly the rewritten row's contribution. -/
theorem counters_balance (jobs : List Job) (tasks tasks1 : List WTask)
    (ujf : Job → Job) (j0 : Job) (hj0 : j0 ∈ jobs)
    (hnd : (jobs.map Job.id).Nodup)
    (hother : ∀ y ∈ jobs, y.id ≠ j0.id → ujf y = y)
    (hid : ∀ y, (ujf y).id = y.id)
    (hlivej0 : hasLiveTask tasks j0.id = true)
    (hlive1 : hasLiveTask tasks1 j0.id = false)
    (hliveo : ∀ x, x ≠ j0.id → hasLiveTask tasks1 x = hasLiveTask tasks x)
    (rid : ℕ) :
    ((jobs.map ujf).countP fun j => j.runId == some rid &&
        j.status.isTerminal && !(hasLiveTask tasks1 j.id))
      = (jobs.countP fun j => j.runId == some rid && j.status.isTerminal &&
          !(hasLiveTask tasks j.id))
        + (if (ujf j0).runId == some rid && (ujf j0).status.isTerminal
           then 1 else 0) := by
  have hbal := countP_map_balance2 Job.id hj0 hnd
    (h := ujf)
    (p := fun j => j.runId == some rid && j.status.isTerminal &&
      !(hasLiveTask tasks j.id))
    (q := fun j => j.runId == some rid && j.status.isTerminal &&
      !(hasLiveTask tasks1 j.id))
    (fun y hy hyne => by
      dsimp only
      rw [hother y hy hyne, hliveo y.id hyne])
  have hp0 : (fun j => j.runId == some rid && j.status.isTerminal &&
      !(hasLiveTask tasks j.id) : Job → Bool) j0 = false := by
    dsimp only
    rw [hlivej0]
    simp
  have hq0 : (fun j => j.runId == some rid && j.status.isTerminal &&
      !(hasLiveTask tasks1 j.id) : Job → Bool) (ujf j0)
      = ((ujf j0).runId == some rid && (ujf j0).status.isTerminal) := by
    dsimp only
    rw [hid j0, hlive1]
    simp
  rw [hp0, hq0] at hbal
  have e0 : (if false = true then (1 : ℕ) else 0) = 0 := rfl
  rw [e0] at hbal
  by_cases hc : ((ujf j0).runId == some rid &&
      (ujf j0).status.isTerminal) = true
  · rw [if_pos hc]
    rw [if_pos hc] at hbal
    omega
  · rw [if_neg (by simpa using hc)]
    rw [if_neg (by simpa using hc)] at hbal
    omega

/-- The insight-lookup step of a freshly claimed worker cycle preserves the
invariant. -/
theorem wf_taskStep_claimed (sys : Sys) (hwf : WF sys) (i jid : ℕ)
    (shop pid : String) (runId : Option ℕ) (o : Outcome)
    (hget : sys.tasks[i]? = some (.claimed jid shop pid runId)) :
    WF (stepWTask sys i (.claimed jid shop pid runId) o) := by
  obtain ⟨h1, h2, h3, h4, h5, h6, h7, h8, h9, h10, h11, h12, h13, h14, h15,
    h16, h17, h18⟩ := hwf
  have htmem : WTask.claimed jid shop pid runId ∈ sys.tasks :=
    List.getElem?_mem hget
  cases hfind : findInsightByKey sys.store.insights shop pid with
  | none =>
    have happ : stepWTask sys i (.claimed jid shop pid runId) o =
        { sys with
          store := { sys.store with
            jobs := sys.store.jobs.map fun j => if j.id == jid then
              { j with status := .failed,
                       lastError := some "ProductInsight not found",
                       updatedAt := sys.store.clock } else j },
          tasks := sys.tasks.set i .done } := by
      simp [stepWTask, hfind, updateJobById]
    rw [happ]
    obtain ⟨hlva, hlvb, hlvc, hlvnd⟩ := live_set_remove sys.tasks i
      (.claimed jid shop pid runId) .done jid hget rfl rfl h11
    have hk_id : ∀ j : Job, (if j.id == jid then
        ({ j with status := .failed,
                  lastError := some "ProductInsight not found",
                  updatedAt := sys.store.clock } : Job) else j).id = j.id := by
      intro j
      by_cases hc : (j.id == jid) = true
      · rw [if_pos hc]
      · rw [if_neg (by simpa using hc)]
    have hk_run : ∀ j : Job, (if j.id == jid then
        ({ j with status := .failed,
                  lastError := some "ProductInsight not found",
                  updatedAt := sys.store.clock } : Job) else j).runId
        = j.runId := by
      intro j
      by_cases hc : (j.id == jid) = true
      · rw [if_pos hc]
      · rw [if_neg (by simpa using hc)]
    have hk_shop : ∀ j : Job, (if j.id == jid then
        ({ j with status := .failed,
                  lastError := some "ProductInsight not found",
                  updatedAt := sys.store.clock } : Job) else j).shop
        = j.shop := by
      intro j
      by_cases hc : (j.id == jid) = true
      · rw [if_pos hc]
      · rw [if_neg (by simpa using hc)]
    have hk_nq : ∀ j : Job, (if j.id == jid then
        ({ j with status := .failed,
                  lastError := some "ProductInsight not found",
                  updatedAt := sys.store.clock } : Job) else j).status = j.status
        ∨ (if j.id == jid then
        ({ j with status := .failed,
                  lastError := some "ProductInsight not found",
                  updatedAt := sys.store.clock } : Job) else j).status
          = .failed := by
      intro j
      by_cases hc : (j.id == jid) = true
      · rw [if_pos hc]
        exact Or.inr rfl
      · rw [if_neg (by simpa using hc)]
        exact Or.inl rfl
    have hmapid : ((sys.store.jobs.map fun j => if j.id == jid then
        ({ j with status := .failed,
                  lastError := some "ProductInsight not found",
                  updatedAt := sys.store.clock } : Job) else j).map Job.id)
        = sys.store.jobs.map Job.id := by
      rw [List.map_map]
      exact List.map_congr_left (fun y _ => hk_id y)
    have hpendeq : ∀ rid : ℕ, pendCount (sys.tasks.set i .done) rid
        = pendCount sys.tasks rid := by
      intro rid
      unfold pendCount
      have := countP_set_balance hget WTask.done
        (fun t => t.pendRunId == some rid)
      simpa using this
    refine ⟨?_, h2, h3, ?_, h5, h6, ?_, ?_, ?_, h10, hlvnd, ?_, ?_, ?_, h15,
      h16, ?_, ?_⟩
    · rw [hmapid]
      exact h1
    · intro j hj
      obtain ⟨y, hy, hxy⟩ := List.mem_map.mp hj
      have hidj : j.id = y.id := by
        rw [← hxy]
        exact hk_id y
      rw [hidj]
      exact h4 y hy
    · intro j hj rid hrid
      obtain ⟨y, hy, hxy⟩ := List.mem_map.mp hj
      refine h7 y hy rid ?_
      rw [← hk_run y, hxy]
      exact hrid
    · intro t ht jid1 hjid1
      rcases List.mem_or_eq_of_mem_set ht with hto | htn
      · exact h8 t hto jid1 hjid1
      · subst htn
        cases Option.mem_def.mp hjid1
    · intro t ht rid hrid
      rcases List.mem_or_eq_of_mem_set ht with hto | htn
      · exact h9 t hto rid hrid
      · subst htn
        cases Option.mem_def.mp hrid
    · intro t ht jid1 hjid1 j hj hjeq
      obtain ⟨y, hy, hxy⟩ := List.mem_map.mp hj
      have hyid : y.id = jid1 := by
        rw [← hjeq, ← hxy]
        exact (hk_id y).symm
      rcases List.mem_or_eq_of_mem_set ht with hto | htn
      · have hys := h12 t hto jid1 hjid1 y hy hyid
        rcases hk_nq y with h | h
        · rw [← hxy, h]
          exact hys
        · rw [← hxy, h]
          intro hc
          cases hc
      · subst htn
        cases Option.mem_def.mp hjid1
    · intro t ht pr hpr j hj hjeq
      obtain ⟨y, hy, hxy⟩ := List.mem_map.mp hj
      have hyid : y.id = pr.1 := by
        rw [← hjeq, ← hxy]
        exact (hk_id y).symm
      rcases List.mem_or_eq_of_mem_set ht with hto | htn
      · have := h13 t hto pr hpr y hy hyid
        rw [← hxy, hk_run y]
        exact this
      · subst htn
        cases Option.mem_def.mp hpr
    · intro j hj rid hrid r hr hreq
      obtain ⟨y, hy, hxy⟩ := List.mem_map.mp hj
      have hshop : j.shop = y.shop := by
        rw [← hxy]
        exact hk_shop y
      rw [hshop]
      refine h14 y hy rid ?_ r hr hreq
      rw [← hk_run y, hxy]
      exact hrid
    · intro r hr
      have hmono := countP_map_mono (l := sys.store.jobs)
        (h := fun j => if j.id == jid then
          ({ j with status := .failed,
                    lastError := some "ProductInsight not found",
                    updatedAt := sys.store.clock } : Job) else j)
        (p := fun j => j.runId == some r.id && j.status.isTerminal &&
          !(hasLiveTask sys.tasks j.id))
        (q := fun j => j.runId == some r.id && j.status.isTerminal &&
          !(hasLiveTask (sys.tasks.set i .done) j.id)) ?_
      · have := h17 r hr
        rw [hpendeq r.id]
        show r.succeeded + r.failed + pendCount sys.tasks r.id ≤
          (sys.store.jobs.map fun j => if j.id == jid then
            ({ j with status := .failed,
                      lastError := some "ProductInsight not found",
                      updatedAt := sys.store.clock } : Job) else j).countP
            fun j => j.runId == some r.id && j.status.isTerminal &&
              !(hasLiveTask (sys.tasks.set i .done) j.id)
        unfold freeTerminalCount at this
        omega
      · intro y _ hp
        simp only [Bool.and_eq_true] at hp
        obtain ⟨⟨hA, hB⟩, hC⟩ := hp
        have hyne : y.id ≠ jid := by
          intro hyeq
          rw [hyeq, hlva] at hC
          cases hC
        have hyf : (if y.id == jid then
            ({ y with status := .failed,
                      lastError := some "ProductInsight not found",
                      updatedAt := sys.store.clock } : Job) else y) = y := by
          rw [if_neg (by simpa using hyne)]
        dsimp only
        rw [hyf]
        simp only [Bool.and_eq_true]
        refine ⟨⟨hA, hB⟩, ?_⟩
        rw [hlvc y.id hyne]
        exact hC
    · intro r hr
      have hcnt : ((sys.store.jobs.map fun j => if j.id == jid then
          ({ j with status := .failed,
                    lastError := some "ProductInsight not found",
                    updatedAt := sys.store.clock } : Job) else j).countP
            fun j => j.runId == some r.id)
          = sys.store.jobs.countP fun j => j.runId == some r.id :=
        countP_map_congr (fun y _ => by rw [hk_run y])
      have := h18 r hr
      show ((sys.store.jobs.map fun j => if j.id == jid then
          ({ j with status := .failed,
                    lastError := some "ProductInsight not found",
                    updatedAt := sys.store.clock } : Job) else j).countP
            fun j => j.runId == some r.id) + prodPending sys.producers r.id
        ≤ r.productsQueued
      rw [hcnt]
      unfold runJobCount at this
      exact this
  | some ins =>
    have happ : stepWTask sys i (.claimed jid shop pid runId) o =
        { sys with
          store := { sys.store with
            insights := updateInsightById sys.store.insights ins.id fun x =>
              { x with aiStatus := some .running, aiError := none } },
          tasks := sys.tasks.set i (.processing jid ins.id runId) } := by
      simp [stepWTask, hfind]
    rw [happ]
    have hlive : liveJobIds (sys.tasks.set i (.processing jid ins.id runId))
        = liveJobIds sys.tasks :=
      filterMap_set_eq hget rfl
    have hhl : ∀ x : ℕ,
        hasLiveTask (sys.tasks.set i (.processing jid ins.id runId)) x
        = hasLiveTask sys.tasks x := by
      intro x
      unfold hasLiveTask
      rw [hlive]
    have hpendeq : ∀ rid : ℕ,
        pendCount (sys.tasks.set i (.processing jid ins.id runId)) rid
        = pendCount sys.tasks rid := by
      intro rid
      unfold pendCount
      have := countP_set_balance hget (WTask.processing jid ins.id runId)
        (fun t => t.pendRunId == some rid)
      simpa using this
    refine ⟨h1, h2, ?_, h4, h5, ?_, h7, ?_, ?_, h10, ?_, ?_, ?_, h14, h15,
      h16, ?_, h18⟩
    · rw [updateInsightById_map_id sys.store.insights ins.id
        (fun x => { x with aiStatus := some .running, aiError := none })
        (fun y => rfl)]
      exact h3
    · intro x hx
      obtain ⟨y, hy, hxy⟩ := List.mem_map.mp hx
      have hidx : x.id = y.id := by
        rw [← hxy]
        by_cases hc : (y.id == ins.id) = true
        · rw [if_pos hc]
        · rw [if_neg (by simpa using hc)]
      rw [hidx]
      exact h6 y hy
    · intro t ht jid1 hjid1
      rcases List.mem_or_eq_of_mem_set ht with hto | htn
      · exact h8 t hto jid1 hjid1
      · subst htn
        have hj1 : jid1 = jid := by
          have := Option.mem_def.mp hjid1
          simpa [WTask.activeJobId] using this.symm
        rw [hj1]
        exact h8 _ htmem jid (Option.mem_def.mpr rfl)
    · intro t ht rid hrid
      rcases List.mem_or_eq_of_mem_set ht with hto | htn
      · exact h9 t hto rid hrid
      · subst htn
        cases Option.mem_def.mp hrid
    · rw [hlive]
      exact h11
    · intro t ht jid1 hjid1 j hj hjeq
      rcases List.mem_or_eq_of_mem_set ht with hto | htn
      · exact h12 t hto jid1 hjid1 j hj hjeq
      · subst htn
        have hj1 : jid1 = jid := by
          have := Option.mem_def.mp hjid1
          simpa [WTask.activeJobId] using this.symm
        rw [hj1] at hjeq
        exact h12 _ htmem jid (Option.mem_def.mpr rfl) j hj hjeq
    · intro t ht pr hpr j hj hjeq
      rcases List.mem_or_eq_of_mem_set ht with hto | htn
      · exact h13 t hto pr hpr j hj hjeq
      · subst htn
        have hpr1 : pr = (jid, runId) := by
          have := Option.mem_def.mp hpr
          simpa [WTask.jobRun] using this.symm
        rw [hpr1] at hjeq ⊢
        exact h13 _ htmem (jid, runId) (Option.mem_def.mpr rfl) j hj hjeq
    · intro r hr
      have hfeq : (sys.store.jobs.countP fun j => j.runId == some r.id &&
          j.status.isTerminal &&
            !(hasLiveTask (sys.tasks.set i (.processing jid ins.id runId))
              j.id))
          = sys.store.jobs.countP fun j => j.runId == some r.id &&
            j.status.isTerminal && !(hasLiveTask sys.tasks j.id) := by
        refine List.countP_congr ?_
        intro y _
        dsimp only
        rw [hhl y.id]
      have := h17 r hr
      rw [hpendeq r.id]
      show r.succeeded + r.failed + pendCount sys.tasks r.id ≤
        sys.store.jobs.countP fun j => j.runId == some r.id &&
          j.status.isTerminal &&
            !(hasLiveTask (sys.tasks.set i (.processing jid ins.id runId))
              j.id)
      rw [hfeq]
      exact this

/-- Core preservation argument for the terminal transaction of a processing
worker cycle: the held job row is rewritten in place, the insight listing
keeps its ids, and the cycle hands over to a follow-up step whose owed
counter increment matches the rewritten row's terminal contribution. -/
theorem wf_processing_core (sys : Sys) (i jid insId : ℕ) (runId : Option ℕ)
    (tnew : WTask) (ujf : Job → Job) (insights1 : List Insight) (j0 : Job)
    (hget : sys.tasks[i]? = some (.processing jid insId runId))
    (hj0mem : j0 ∈ sys.store.jobs) (hj0id : j0.id = jid)
    (hnew_active : tnew.activeJobId = none)
    (hnew_jobrun : tnew.jobRun = none)
    (hpend_link : ∀ rid : ℕ, (tnew.pendRunId == some rid)
      = ((ujf j0).runId == some rid && (ujf j0).status.isTerminal))
    (hother : ∀ y : Job, y.id ≠ jid → ujf y = y)
    (hk_id : ∀ y : Job, (ujf y).id = y.id)
    (hk_run : ∀ y : Job, (ujf y).runId = y.runId)
    (hk_shop : ∀ y : Job, (ujf y).shop = y.shop)
    (hins1 : insights1.map Insight.id = sys.store.insights.map Insight.id)
    (hwf : WF sys) :
    WF { sys with
      store := { sys.store with
        jobs := sys.store.jobs.map ujf,
        insights := insights1 },
      tasks := sys.tasks.set i tnew } := by
  obtain ⟨h1, h2, h3, h4, h5, h6, h7, h8, h9, h10, h11, h12, h13, h14, h15,
    h16, h17, h18⟩ := hwf
  obtain ⟨hlva, hlvb, hlvc, hlvnd⟩ := live_set_remove sys.tasks i
    (.processing jid insId runId) tnew jid hget rfl hnew_active h11
  have htmem : WTask.processing jid insId runId ∈ sys.tasks :=
    List.getElem?_mem hget
  have hother1 : ∀ y ∈ sys.store.jobs, y.id ≠ j0.id → ujf y = y := by
    intro y _ hy
    refine hother y ?_
    rw [← hj0id]
    exact hy
  have hmapid : ((sys.store.jobs.map ujf).map Job.id)
      = sys.store.jobs.map Job.id := by
    rw [List.map_map]
    exact List.map_congr_left (fun y _ => hk_id y)
  refine ⟨?_, h2, ?_, ?_, h5, ?_, ?_, ?_, ?_, h10, hlvnd, ?_, ?_, ?_, h15,
    h16, ?_, ?_⟩
  · rw [hmapid]
    exact h1
  · rw [hins1]
    exact h3
  · intro j hj
    obtain ⟨y, hy, hxy⟩ := List.mem_map.mp hj
    have hidj : j.id = y.id := by
      rw [← hxy]
      exact hk_id y
    rw [hidj]
    exact h4 y hy
  · intro x hx
    have hmem : x.id ∈ insights1.map Insight.id := List.mem_map_of_mem _ hx
    rw [hins1] at hmem
    obtain ⟨y, hy, hyid⟩ := List.mem_map.mp hmem
    rw [← hyid]
    exact h6 y hy
  · intro j hj rid hrid
    obtain ⟨y, hy, hxy⟩ := List.mem_map.mp hj
    refine h7 y hy rid ?_
    rw [← hk_run y, hxy]
    exact hrid
  · intro t ht jid1 hjid1
    rcases List.mem_or_eq_of_mem_set ht with hto | htn
    · exact h8 t hto jid1 hjid1
    · subst htn
      rw [hnew_active] at hjid1
      cases Option.mem_def.mp hjid1
  · intro t ht rid hrid
    rcases List.mem_or_eq_of_mem_set ht with hto | htn
    · exact h9 t hto rid hrid
    · rw [htn] at hrid
      have hsome : tnew.pendRunId = some rid := Option.mem_def.mp hrid
      have hlink := hpend_link rid
      rw [hsome] at hlink
      have htrue : ((ujf j0).runId == some rid &&
          (ujf j0).status.isTerminal) = true := by
        rw [← hlink]
        simp
      simp only [Bool.and_eq_true] at htrue
      have hrun0 : j0.runId = some rid := by
        have := htrue.1
        rw [hk_run j0] at this
        simpa using this
      exact h7 j0 hj0mem rid (Option.mem_def.mpr hrun0)
  · intro t ht jid1 hjid1 j hj hjeq
    obtain ⟨y, hy, hxy⟩ := List.mem_map.mp hj
    have hyid : y.id = jid1 := by
      rw [← hjeq, ← hxy]
      exact (hk_id y).symm
    by_cases hyjid : y.id = jid
    · exfalso
      have hlv : hasLiveTask (sys.tasks.set i tnew) jid = true := by
        refine (hasLive_true_iff _ _).mpr ⟨t, ht, ?_⟩
        have := Option.mem_def.mp hjid1
        rw [this, hyid.symm.trans hyjid]
      rw [hlvb] at hlv
      cases hlv
    · rcases List.mem_or_eq_of_mem_set ht with hto | htn
      · have hys := h12 t hto jid1 hjid1 y hy hyid
        rw [← hxy, hother y hyjid]
        exact hys
      · subst htn
        rw [hnew_active] at hjid1
        cases Option.mem_def.mp hjid1
  · intro t ht pr hpr j hj hjeq
    obtain ⟨y, hy, hxy⟩ := List.mem_map.mp hj
    have hyid : y.id = pr.1 := by
      rw [← hjeq, ← hxy]
      exact (hk_id y).symm
    rcases List.mem_or_eq_of_mem_set ht with hto | htn
    · have := h13 t hto pr hpr y hy hyid
      rw [← hxy, hk_run y]
      exact this
    · subst htn
      rw [hnew_jobrun] at hpr
      cases Option.mem_def.mp hpr
  · intro j hj rid hrid r hr hreq
    obtain ⟨y, hy, hxy⟩ := List.mem_map.mp hj
    have hshop : j.shop = y.shop := by
      rw [← hxy]
      exact hk_shop y
    rw [hshop]
    refine h14 y hy rid ?_ r hr hreq
    rw [← hk_run y, hxy]
    exact hrid
  · intro r hr
    have hlva0 : hasLiveTask sys.tasks j0.id = true := by
      rw [hj0id]
      exact hlva
    have hlvb0 : hasLiveTask (sys.tasks.set i tnew) j0.id = false := by
      rw [hj0id]
      exact hlvb
    have hlvc0 : ∀ x, x ≠ j0.id →
        hasLiveTask (sys.tasks.set i tnew) x = hasLiveTask sys.tasks x := by
      intro x hx
      refine hlvc x ?_
      rw [← hj0id]
      exact hx
    have hfree := counters_balance sys.store.jobs sys.tasks
      (sys.tasks.set i tnew) ujf j0 hj0mem h1 hother1 hk_id hlva0 hlvb0
      hlvc0 r.id
    have hpend := countP_set_balance hget tnew
      (fun t => t.pendRunId == some r.id)
    have hold : (WTask.pendRunId (.processing jid insId runId) == some r.id)
        = false := rfl
    have hlink := hpend_link r.id
    have := h17 r hr
    unfold freeTerminalCount at this
    show r.succeeded + r.failed +
        pendCount (sys.tasks.set i tnew) r.id ≤
      (sys.store.jobs.map ujf).countP fun j => j.runId == some r.id &&
        j.status.isTerminal && !(hasLiveTask (sys.tasks.set i tnew) j.id)
    unfold pendCount at this ⊢
    rw [hfree]
    by_cases hc : ((ujf j0).runId == some r.id &&
        (ujf j0).status.isTerminal) = true
    · rw [if_pos hc]
      rw [hc] at hlink
      rw [hold, hlink] at hpend
      have e0 : (if false = true then (1 : ℕ) else 0) = 0 := rfl
      have e1 : (if true = true then (1 : ℕ) else 0) = 1 := rfl
      rw [e0, e1] at hpend
      omega
    · rw [if_neg (by simpa using hc)]
      have hcf : ((ujf j0).runId == some r.id &&
          (ujf j0).status.isTerminal) = false := by
        cases hcc : ((ujf j0).runId == some r.id &&
            (ujf j0).status.isTerminal) with
        | false => rfl
        | true => exact absurd hcc hc
      rw [hcf] at hlink
      rw [hold, hlink] at hpend
      have e0 : (if false = true then (1 : ℕ) else 0) = 0 := rfl
      rw [e0] at hpend
      omega
  · intro r hr
    have hcnt : ((sys.store.jobs.map ujf).countP fun j =>
        j.runId == some r.id)
        = sys.store.jobs.countP fun j => j.runId == some r.id :=
      countP_map_congr (fun y _ => by rw [hk_run y])
    have := h18 r hr
    show ((sys.store.jobs.map ujf).countP fun j => j.runId == some r.id)
        + prodPending sys.producers r.id ≤ r.productsQueued
    rw [hcnt]
    unfold runJobCount at this
    exact this

/-- The success or failure transaction of a processing worker cycle preserves
the invariant. -/
theorem wf_taskStep_processing (sys : Sys) (hwf : WF sys) (i jid insId : ℕ)
    (runId : Option ℕ) (o : Outcome)
    (hget : sys.tasks[i]? = some (.processing jid insId runId)) :
    WF (stepWTask sys i (.processing jid insId runId) o) := by
  have htmem : WTask.processing jid insId runId ∈ sys.tasks :=
    List.getElem?_mem hget
  by_cases hguard : ((sys.store.jobs.find? fun j => j.id == jid).isSome &&
      (sys.store.insights.find? fun x => x.id == insId).isSome) = true
  case neg =>
    obtain ⟨h1, h2, h3, h4, h5, h6, h7, h8, h9, h10, h11, h12, h13, h14, h15,
      h16, h17, h18⟩ := hwf
    have happ : stepWTask sys i (.processing jid insId runId) o =
        { sys with tasks := sys.tasks.set i .done } := by
      simp only [stepWTask]
      rw [if_neg hguard]
    rw [happ]
    obtain ⟨hlva, hlvb, hlvc, hlvnd⟩ := live_set_remove sys.tasks i
      (.processing jid insId runId) .done jid hget rfl rfl h11
    have hpendeq : ∀ rid : ℕ, pendCount (sys.tasks.set i .done) rid
        = pendCount sys.tasks rid := by
      intro rid
      unfold pendCount
      have := countP_set_balance hget WTask.done
        (fun t => t.pendRunId == some rid)
      simpa using this
    refine ⟨h1, h2, h3, h4, h5, h6, h7, ?_, ?_, h10, hlvnd, ?_, ?_, h14, h15,
      h16, ?_, h18⟩
    · intro t ht jid1 hjid1
      rcases List.mem_or_eq_of_mem_set ht with hto | htn
      · exact h8 t hto jid1 hjid1
      · rw [htn] at hjid1
        cases Option.mem_def.mp hjid1
    · intro t ht rid hrid
      rcases List.mem_or_eq_of_mem_set ht with hto | htn
      · exact h9 t hto rid hrid
      · rw [htn] at hrid
        cases Option.mem_def.mp hrid
    · intro t ht jid1 hjid1 j hj hjeq
      rcases List.mem_or_eq_of_mem_set ht with hto | htn
      · exact h12 t hto jid1 hjid1 j hj hjeq
      · rw [htn] at hjid1
        cases Option.mem_def.mp hjid1
    · intro t ht pr hpr j hj hjeq
      rcases List.mem_or_eq_of_mem_set ht with hto | htn
      · exact h13 t hto pr hpr j hj hjeq
      · rw [htn] at hpr
        cases Option.mem_def.mp hpr
    · intro r hr
      have hmono : (sys.store.jobs.countP fun j => j.runId == some r.id &&
          j.status.isTerminal && !(hasLiveTask sys.tasks j.id))
          ≤ sys.store.jobs.countP fun j => j.runId == some r.id &&
            j.status.isTerminal &&
              !(hasLiveTask (sys.tasks.set i .done) j.id) := by
        refine List.countP_mono_left ?_
        intro y _ hp
        simp only [Bool.and_eq_true] at hp ⊢
        obtain ⟨⟨hA, hB⟩, hC⟩ := hp
        have hyne : y.id ≠ jid := by
          intro hyeq
          rw [hyeq, hlva] at hC
          cases hC
        refine ⟨⟨hA, hB⟩, ?_⟩
        rw [hlvc y.id hyne]
        exact hC
      have := h17 r hr
      rw [hpendeq r.id]
      show r.succeeded + r.failed + pendCount sys.tasks r.id ≤
        sys.store.jobs.countP fun j => j.runId == some r.id &&
          j.status.isTerminal && !(hasLiveTask (sys.tasks.set i .done) j.id)
      unfold freeTerminalCount at this
      omega
  case pos =>
    simp only [Bool.and_eq_true] at hguard
    obtain ⟨hjs, his⟩ := hguard
    obtain ⟨j0, hfind⟩ := Option.isSome_iff_exists.mp hjs
    have hj0mem : j0 ∈ sys.store.jobs := List.mem_of_find?_eq_some hfind
    have hj0id : j0.id = jid := by
      have := List.find?_some hfind
      simpa using this
    have hguard' : ((sys.store.jobs.find? fun j => j.id == jid).isSome &&
        (sys.store.insights.find? fun x => x.id == insId).isSome) = true := by
      rw [hjs, his]
      rfl
    have hbeq : (j0.id == jid) = true := by
      simp [hj0id]
    cases o with
    | ok out =>
      have hujf0 : (if j0.id == jid then
          ({ j0 with status := .succeeded, lastError := none,
                     updatedAt := sys.store.clock } : Job) else j0)
          = { j0 with status := .succeeded, lastError := none,
                      updatedAt := sys.store.clock } := by
        rw [if_pos hbeq]
      have hins1 : ((processSuccessTxn sys.store jid insId out).insights.map
          Insight.id) = sys.store.insights.map Insight.id := by
        show ((updateInsightById sys.store.insights insId _).map Insight.id)
          = sys.store.insights.map Insight.id
        exact updateInsightById_map_id _ _ _ (fun y => rfl)
      have hkid : ∀ y : Job, (if y.id == jid then
          ({ y with status := .succeeded, lastError := none,
                    updatedAt := sys.store.clock } : Job) else y).id = y.id := by
        intro y
        by_cases hc : (y.id == jid) = true
        · rw [if_pos hc]
        · rw [if_neg (by simpa using hc)]
      have hkrun : ∀ y : Job, (if y.id == jid then
          ({ y with status := .succeeded, lastError := none,
                    updatedAt := sys.store.clock } : Job) else y).runId
          = y.runId := by
        intro y
        by_cases hc : (y.id == jid) = true
        · rw [if_pos hc]
        · rw [if_neg (by simpa using hc)]
      have hkshop : ∀ y : Job, (if y.id == jid then
          ({ y with status := .succeeded, lastError := none,
                    updatedAt := sys.store.clock } : Job) else y).shop
          = y.shop := by
        intro y
        by_cases hc : (y.id == jid) = true
        · rw [if_pos hc]
        · rw [if_neg (by simpa using hc)]
      have hother : ∀ y : Job, y.id ≠ jid → (if y.id == jid then
          ({ y with status := .succeeded, lastError := none,
                    updatedAt := sys.store.clock } : Job) else y) = y := by
        intro y hy
        rw [if_neg (by simpa using hy)]
      cases runId with
      | some r =>
        have hj0run : j0.runId = some r :=
          hwf.taskRun _ htmem (jid, some r) (Option.mem_def.mpr rfl) j0
            hj0mem hj0id
        have happ : stepWTask sys i (.processing jid insId (some r))
            (.ok out) =
            { sys with
              store := { sys.store with
                jobs := sys.store.jobs.map fun y => if y.id == jid then
                  ({ y with status := .succeeded, lastError := none,
                            updatedAt := sys.store.clock } : Job) else y,
                insights := (processSuccessTxn sys.store jid insId
                  out).insights },
              tasks := sys.tasks.set i (.incrSucc r) } := by
          simp only [stepWTask]
          rw [if_pos hguard']
          rfl
        rw [happ]
        refine wf_processing_core sys i jid insId (some r) (.incrSucc r) _ _
          j0 hget hj0mem hj0id rfl rfl ?_ hother hkid hkrun hkshop hins1 hwf
        intro rid
        rw [hujf0]
        show (some r == some rid)
          = (j0.runId == some rid && JobStatus.succeeded.isTerminal)
        rw [hj0run]
        show (some r == some rid) = (some r == some rid && true)
        rw [Bool.and_true]
      | none =>
        have hj0run : j0.runId = none :=
          hwf.taskRun _ htmem (jid, none) (Option.mem_def.mpr rfl) j0
            hj0mem hj0id
        have happ : stepWTask sys i (.processing jid insId none) (.ok out) =
            { sys with
              store := { sys.store with
                jobs := sys.store.jobs.map fun y => if y.id == jid then
                  ({ y with status := .succeeded, lastError := none,
                            updatedAt := sys.store.clock } : Job) else y,
                insights := (processSuccessTxn sys.store jid insId
                  out).insights },
              tasks := sys.tasks.set i .done } := by
          simp only [stepWTask]
          rw [if_pos hguard']
          rfl
        rw [happ]
        refine wf_processing_core sys i jid insId none .done _ _
          j0 hget hj0mem hj0id rfl rfl ?_ hother hkid hkrun hkshop hins1 hwf
        intro rid
        rw [hujf0]
        show (false : Bool)
          = (j0.runId == some rid && JobStatus.succeeded.isTerminal)
        rw [hj0run]
        rfl
    | err msg =>
      by_cases hwr : j0.attempts < MAX_ATTEMPTS
      · have hfail : processFailureTxn sys.store jid insId msg =
            ({ sys.store with
              insights := updateInsightById sys.store.insights insId fun x =>
                { x with aiStatus := some .queued, aiError := none },
              jobs := updateJobById sys.store.jobs jid fun j =>
                { j with status := .queued,
                         lastError := some (truncateError msg),
                         nextRetryAt := some (sys.store.clock +
                           getBackoffMs (j0.attempts - 1)),
                         updatedAt := sys.store.clock } },
             true, j0.attempts) := by
          simp [processFailureTxn, hfind, hwr]
        have hujf0 : (if j0.id == jid then
            ({ j0 with status := .queued,
                       lastError := some (truncateError msg),
                       nextRetryAt := some (sys.store.clock +
                         getBackoffMs (j0.attempts - 1)),
                       updatedAt := sys.store.clock } : Job) else j0)
            = { j0 with status := .queued,
                        lastError := some (truncateError msg),
                        nextRetryAt := some (sys.store.clock +
                          getBackoffMs (j0.attempts - 1)),
                        updatedAt := sys.store.clock } := by
          rw [if_pos hbeq]
        have hins1 : ((updateInsightById sys.store.insights insId fun x =>
            { x with aiStatus := some .queued,
                     aiError := none }).map Insight.id)
            = sys.store.insights.map Insight.id :=
          updateInsightById_map_id _ _ _ (fun y => rfl)
        have hkid : ∀ y : Job, (if y.id == jid then
            ({ y with status := .queued,
                      lastError := some (truncateError msg),
                      nextRetryAt := some (sys.store.clock +
                        getBackoffMs (j0.attempts - 1)),
                      updatedAt := sys.store.clock } : Job) else y).id
            = y.id := by
          intro y
          by_cases hc : (y.id == jid) = true
          · rw [if_pos hc]
          · rw [if_neg (by simpa using hc)]
        have hkrun : ∀ y : Job, (if y.id == jid then
            ({ y with status := .queued,
                      lastError := some (truncateError msg),
                      nextRetryAt := some (sys.store.clock +
                        getBackoffMs (j0.attempts - 1)),
                      updatedAt := sys.store.clock } : Job) else y).runId
            = y.runId := by
          intro y
          by_cases hc : (y.id == jid) = true
          · rw [if_pos hc]
          · rw [if_neg (by simpa using hc)]
        have hkshop : ∀ y : Job, (if y.id == jid then
            ({ y with status := .queued,
                      lastError := some (truncateError msg),
                      nextRetryAt := some (sys.store.clock +
                        getBackoffMs (j0.attempts - 1)),
                      updatedAt := sys.store.clock } : Job) else y).shop
            = y.shop := by
          intro y
          by_cases hc : (y.id == jid) = true
          · rw [if_pos hc]
          · rw [if_neg (by simpa using hc)]
        have hother : ∀ y : Job, y.id ≠ jid → (if y.id == jid then
            ({ y with status := .queued,
                      lastError := some (truncateError msg),
                      nextRetryAt := some (sys.store.clock +
                        getBackoffMs (j0.attempts - 1)),
                      updatedAt := sys.store.clock } : Job) else y) = y := by
          intro y hy
          rw [if_neg (by simpa using hy)]
        have hlink : ∀ rid : ℕ, (WTask.pendRunId .done == some rid)
            = ((if j0.id == jid then
              ({ j0 with status := .queued,
                         lastError := some (truncateError msg),
                         nextRetryAt := some (sys.store.clock +
                           getBackoffMs (j0.attempts - 1)),
                         updatedAt := sys.store.clock } : Job) else
              j0).runId == some rid &&
              (if j0.id == jid then
              ({ j0 with status := .queued,
                         lastError := some (truncateError msg),
                         nextRetryAt := some (sys.store.clock +
                           getBackoffMs (j0.attempts - 1)),
                         updatedAt := sys.store.clock } : Job) else
              j0).status.isTerminal) := by
          intro rid
          rw [hujf0]
          show (false : Bool) = (j0.runId == some rid && false)
          rw [Bool.and_false]
        cases runId with
        | some r =>
          have happ : stepWTask sys i (.processing jid insId (some r))
              (.err msg) =
              { sys with
                store := { sys.store with
                  jobs := sys.store.jobs.map fun y => if y.id == jid then
                    ({ y with status := .queued,
                              lastError := some (truncateError msg),
                              nextRetryAt := some (sys.store.clock +
                                getBackoffMs (j0.attempts - 1)),
                              updatedAt := sys.store.clock } : Job) else y,
                  insights := updateInsightById sys.store.insights insId
                    fun x => { x with
                      aiStatus := some .queued, aiError := none } },
                tasks := sys.tasks.set i .done } := by
            simp only [stepWTask]
            rw [if_pos hguard']
            rw [hfail]
            rfl
          rw [happ]
          exact wf_processing_core sys i jid insId (some r) .done _ _
            j0 hget hj0mem hj0id rfl rfl hlink hother hkid hkrun hkshop
            hins1 hwf
        | none =>
          have happ : stepWTask sys i (.processing jid insId none)
              (.err msg) =
              { sys with
                store := { sys.store with
                  jobs := sys.store.jobs.map fun y => if y.id == jid then
                    ({ y with status := .queued,
                              lastError := some (truncateError msg),
                              nextRetryAt := some (sys.store.clock +
                                getBackoffMs (j0.attempts - 1)),
                              updatedAt := sys.store.clock } : Job) else y,
                  insights := updateInsightById sys.store.insights insId
                    fun x => { x with
                      aiStatus := some .queued, aiError := none } },
                tasks := sys.tasks.set i .done } := by
            simp only [stepWTask]
            rw [if_pos hguard']
            rw [hfail]
            rfl
          rw [happ]
          exact wf_processing_core sys i jid insId none .done _ _
            j0 hget hj0mem hj0id rfl rfl hlink hother hkid hkrun hkshop
            hins1 hwf
      · have hfail : processFailureTxn sys.store jid insId msg =
            ({ sys.store with
              insights := updateInsightById sys.store.insights insId fun x =>
                { x with aiStatus := some .failed,
                         aiError := some (truncateError msg) },
              jobs := updateJobById sys.store.jobs jid fun j =>
                { j with status := .failed,
                         lastError := some (truncateError msg),
                         nextRetryAt := none,
                         updatedAt := sys.store.clock } },
             false, j0.attempts) := by
          simp [processFailureTxn, hfind, hwr]
        have hujf0 : (if j0.id == jid then
            ({ j0 with status := .failed,
                       lastError := some (truncateError msg),
                       nextRetryAt := none,
                       updatedAt := sys.store.clock } : Job) else j0)
            = { j0 with status := .failed,
                        lastError := some (truncateError msg),
                        nextRetryAt := none,
                        updatedAt := sys.store.clock } := by
          rw [if_pos hbeq]
        have hins1 : ((updateInsightById sys.store.insights insId fun x =>
            { x with aiStatus := some .failed,
                     aiError := some (truncateError msg) }).map Insight.id)
            = sys.store.insights.map Insight.id :=
          updateInsightById_map_id _ _ _ (fun y => rfl)
        have hkid : ∀ y : Job, (if y.id == jid then
            ({ y with status := .failed,
                      lastError := some (truncateError msg),
                      nextRetryAt := none,
                      updatedAt := sys.store.clock } : Job) else y).id
            = y.id := by
          intro y
          by_cases hc : (y.id == jid) = true
          · rw [if_pos hc]
          · rw [if_neg (by simpa using hc)]
        have hkrun : ∀ y : Job, (if y.id == jid then
            ({ y with status := .failed,
                      lastError := some (truncateError msg),
                      nextRetryAt := none,
                      updatedAt := sys.store.clock } : Job) else y).runId
            = y.runId := by
          intro y
          by_cases hc : (y.id == jid) = true
          · rw [if_pos hc]
          · rw [if_neg (by simpa using hc)]
        have hkshop : ∀ y : Job, (if y.id == jid then
            ({ y with status := .failed,
                      lastError := some (truncateError msg),
                      nextRetryAt := none,
                      updatedAt := sys.store.clock } : Job) else y).shop
            = y.shop := by
          intro y
          by_cases hc : (y.id == jid) = true
          · rw [if_pos hc]
          · rw [if_neg (by simpa using hc)]
        have hother : ∀ y : Job, y.id ≠ jid → (if y.id == jid then
            ({ y with status := .failed,
                      lastError := some (truncateError msg),
                      nextRetryAt := none,
                      updatedAt := sys.store.clock } : Job) else y) = y := by
          intro y hy
          rw [if_neg (by simpa using hy)]
        cases runId with
        | some r =>
          have hj0run : j0.runId = some r :=
            hwf.taskRun _ htmem (jid, some r) (Option.mem_def.mpr rfl) j0
              hj0mem hj0id
          have happ : stepWTask sys i (.processing jid insId (some r))
              (.err msg) =
              { sys with
                store := { sys.store with
                  jobs := sys.store.jobs.map fun y => if y.id == jid then
                    ({ y with status := .failed,
                              lastError := some (truncateError msg),
                              nextRetryAt := none,
                              updatedAt := sys.store.clock } : Job) else y,
                  insights := updateInsightById sys.store.insights insId
                    fun x => { x with
                      aiStatus := some .failed,
                      aiError := some (truncateError msg) } },
                tasks := sys.tasks.set i (.incrFail r) } := by
            simp only [stepWTask]
            rw [if_pos hguard']
            rw [hfail]
            rfl
          rw [happ]
          refine wf_processing_core sys i jid insId (some r) (.incrFail r)
            _ _ j0 hget hj0mem hj0id rfl rfl ?_ hother hkid hkrun hkshop
            hins1 hwf
          intro rid
          rw [hujf0]
          show (some r == some rid)
            = (j0.runId == some rid && JobStatus.failed.isTerminal)
          rw [hj0run]
          show (some r == some rid) = (some r == some rid && true)
          rw [Bool.and_true]
        | none =>
          have hj0run : j0.runId = none :=
            hwf.taskRun _ htmem (jid, none) (Option.mem_def.mpr rfl) j0
              hj0mem hj0id
          have happ : stepWTask sys i (.processing jid insId none)
              (.err msg) =
              { sys with
                store := { sys.store with
                  jobs := sys.store.jobs.map fun y => if y.id == jid then
                    ({ y with status := .failed,
                              lastError := some (truncateError msg),
                              nextRetryAt := none,
                              updatedAt := sys.store.clock } : Job) else y,
                  insights := updateInsightById sys.store.insights insId
                    fun x => { x with
                      aiStatus := some .failed,
                      aiError := some (truncateError msg) } },
                tasks := sys.tasks.set i .done } := by
            simp only [stepWTask]
            rw [if_pos hguard']
            rw [hfail]
            rfl
          rw [happ]
          refine wf_processing_core sys i jid insId none .done _ _
            j0 hget hj0mem hj0id rfl rfl ?_ hother hkid hkrun hkshop
            hins1 hwf
          intro rid
          rw [hujf0]
          show (false : Bool)
            = (j0.runId == some rid && JobStatus.failed.isTerminal)
          rw [hj0run]
          rfl

/-- Core preservation argument for the deferred run-counter increment: the
owing worker cycle ends and the counter sum of the run row grows by one. -/
theorem wf_incr_core (sys : Sys) (i r : ℕ) (told : WTask) (upd : Run → Run)
    (hget : sys.tasks[i]? = some told)
    (hpendold : told.pendRunId = some r)
    (hactiveold : told.activeJobId = none)
    (hjobrunold : told.jobRun = none)
    (hid : ∀ y : Run, (upd y).id = y.id)
    (hshop : ∀ y : Run, (upd y).shop = y.shop)
    (hstat : ∀ y : Run, (upd y).status = y.status)
    (hcomp : ∀ y : Run, (upd y).completedAt = y.completedAt)
    (hpq : ∀ y : Run, (upd y).productsQueued = y.productsQueued)
    (hsf : ∀ y : Run, (upd y).succeeded + (upd y).failed
      = y.succeeded + y.failed + 1)
    (hwf : WF sys) :
    WF { sys with
      store := { sys.store with runs := updateRunById sys.store.runs r upd },
      tasks := sys.tasks.set i .done } := by
  obtain ⟨h1, h2, h3, h4, h5, h6, h7, h8, h9, h10, h11, h12, h13, h14, h15,
    h16, h17, h18⟩ := hwf
  have hlive : liveJobIds (sys.tasks.set i .done) = liveJobIds sys.tasks := by
    refine filterMap_set_eq hget ?_
    rw [hactiveold]
    rfl
  have hhl : ∀ x : ℕ, hasLiveTask (sys.tasks.set i .done) x
      = hasLiveTask sys.tasks x := by
    intro x
    unfold hasLiveTask
    rw [hlive]
  have hmemOf : ∀ x ∈ updateRunById sys.store.runs r upd,
      ∃ y ∈ sys.store.runs, x.id = y.id ∧ x.shop = y.shop ∧
        x.status = y.status ∧ x.completedAt = y.completedAt ∧
        x.productsQueued = y.productsQueued := by
    intro x hx
    obtain ⟨y, hy, hxy⟩ := List.mem_map.mp hx
    by_cases hc : (y.id == r) = true
    · rw [if_pos hc] at hxy
      exact ⟨y, hy, by rw [← hxy, hid], by rw [← hxy, hshop],
        by rw [← hxy, hstat], by rw [← hxy, hcomp], by rw [← hxy, hpq]⟩
    · rw [if_neg (by simpa using hc)] at hxy
      subst hxy
      exact ⟨y, hy, rfl, rfl, rfl, rfl, rfl⟩
  have hfeq : ∀ rid : ℕ, (sys.store.jobs.countP fun j =>
      j.runId == some rid && j.status.isTerminal &&
        !(hasLiveTask (sys.tasks.set i .done) j.id))
      = sys.store.jobs.countP fun j => j.runId == some rid &&
        j.status.isTerminal && !(hasLiveTask sys.tasks j.id) := by
    intro rid
    refine List.countP_congr ?_
    intro y _
    dsimp only
    rw [hhl y.id]
  refine ⟨h1, ?_, h3, h4, ?_, h6, h7, ?_, ?_, h10, ?_, ?_, ?_, ?_, ?_, ?_,
    ?_, ?_⟩
  · rw [updateRunById_map_id sys.store.runs r upd hid]
    exact h2
  · intro x hx
    obtain ⟨y, hy, hxid, _, _, _, _⟩ := hmemOf x hx
    rw [hxid]
    exact h5 y hy
  · intro t ht jid1 hjid1
    rcases List.mem_or_eq_of_mem_set ht with hto | htn
    · exact h8 t hto jid1 hjid1
    · rw [htn] at hjid1
      cases Option.mem_def.mp hjid1
  · intro t ht rid hrid
    rcases List.mem_or_eq_of_mem_set ht with hto | htn
    · exact h9 t hto rid hrid
    · rw [htn] at hrid
      cases Option.mem_def.mp hrid
  · rw [hlive]
    exact h11
  · intro t ht jid1 hjid1 j hj hjeq
    rcases List.mem_or_eq_of_mem_set ht with hto | htn
    · exact h12 t hto jid1 hjid1 j hj hjeq
    · rw [htn] at hjid1
      cases Option.mem_def.mp hjid1
  · intro t ht pr hpr j hj hjeq
    rcases List.mem_or_eq_of_mem_set ht with hto | htn
    · exact h13 t hto pr hpr j hj hjeq
    · rw [htn] at hpr
      cases Option.mem_def.mp hpr
  · intro j hj rid hrid x hx hxid
    obtain ⟨y, hy, hyid, hyshop, _, _, _⟩ := hmemOf x hx
    rw [hyshop]
    exact h14 j hj rid hrid y hy (by rw [← hyid]; exact hxid)
  · intro p hp x hx hxid
    obtain ⟨y, hy, hyid, hyshop, _, _, _⟩ := hmemOf x hx
    rw [hyshop]
    exact h15 p hp y hy (by rw [← hyid]; exact hxid)
  · intro x hx
    obtain ⟨y, hy, _, _, hystat, hycomp, _⟩ := hmemOf x hx
    rw [hystat, hycomp]
    exact h16 y hy
  · intro x hx
    obtain ⟨y, hy, hxy⟩ := List.mem_map.mp hx
    have hpend := countP_set_balance hget WTask.done
      (fun t => t.pendRunId == some x.id)
    have hold : (WTask.pendRunId told == some x.id)
        = (some r == some x.id) := by
      rw [hpendold]
    have hdone : (WTask.pendRunId .done == some x.id) = false := rfl
    rw [hold, hdone] at hpend
    have e0 : (if false = true then (1 : ℕ) else 0) = 0 := rfl
    rw [e0] at hpend
    show x.succeeded + x.failed +
        pendCount (sys.tasks.set i .done) x.id ≤
      sys.store.jobs.countP fun j => j.runId == some x.id &&
        j.status.isTerminal && !(hasLiveTask (sys.tasks.set i .done) j.id)
    rw [hfeq x.id]
    unfold pendCount
    by_cases hc : (y.id == r) = true
    · rw [if_pos hc] at hxy
      have hxid : x.id = y.id := by
        rw [← hxy, hid]
      have hyr : y.id = r := by
        simpa using hc
      have hifr : (some r == some x.id) = true := by
        show (r == x.id) = true
        rw [beq_iff_eq, hxid, hyr]
      rw [hifr] at hpend
      have e1 : (if true = true then (1 : ℕ) else 0) = 1 := rfl
      rw [e1] at hpend
      have hxsf : x.succeeded + x.failed = y.succeeded + y.failed + 1 := by
        rw [← hxy]
        exact hsf y
      have hy17 := h17 y hy
      unfold freeTerminalCount pendCount at hy17
      rw [hxid] at hpend ⊢
      omega
    · rw [if_neg (by simpa using hc)] at hxy
      subst hxy
      have hifr : (some r == some y.id) = false := by
        show (r == y.id) = false
        rw [beq_eq_false_iff_ne]
        have : ¬ y.id = r := by
          simpa using hc
        omega
      rw [hifr] at hpend
      rw [e0] at hpend
      have hy17 := h17 y hy
      unfold freeTerminalCount pendCount at hy17
      omega
  · intro x hx
    obtain ⟨y, hy, hyid, _, _, _, hypq⟩ := hmemOf x hx
    show runJobCount sys.store x.id + prodPending sys.producers x.id
      ≤ x.productsQueued
    rw [hyid, hypq]
    exact h18 y hy

/-- The loader upsert preserves the invariant. -/
theorem wf_upsert (sys : Sys) (hwf : WF sys) (shop pid title : String) :
    WF (applyEv sys (.upsertInsight shop pid title)) := by
  obtain ⟨h1, h2, h3, h4, h5, h6, h7, h8, h9, h10, h11, h12, h13, h14, h15,
    h16, h17, h18⟩ := hwf
  cases hfind : findInsightByKey sys.store.insights shop pid with
  | some i =>
    have happ : applyEv sys (.upsertInsight shop pid title) =
        { sys with store := { sys.store with
            insights := updateInsightById sys.store.insights i.id
              (fun ins => { ins with productTitle := title }) } } := by
      simp [applyEv, hfind]
    rw [happ]
    refine ⟨h1, h2, ?_, h4, h5, ?_, h7, h8, h9, h10, h11, h12, h13, h14, h15,
      h16, h17, h18⟩
    · rw [updateInsightById_map_id sys.store.insights i.id
        (fun ins => { ins with productTitle := title }) (fun y => rfl)]
      exact h3
    · intro x hx
      obtain ⟨y, hy, hxy⟩ := List.mem_map.mp hx
      have hid : x.id = y.id := by
        rw [← hxy]
        by_cases hc : (y.id == i.id) = true
        · rw [if_pos hc]
        · rw [if_neg (by simpa using hc)]
      rw [hid]
      exact h6 y hy
  | none =>
    have happ : applyEv sys (.upsertInsight shop pid title) =
        { sys with store := { sys.store with
            insights := sys.store.insights ++
              [{ id := sys.store.nextInsightId, shop := shop, productId := pid,
                 productTitle := title, aiStatus := none, aiError := none,
                 aiExplanation := none, aiActionType := none,
                 aiGeneratedAt := none, aiModel := none, reasonsJson := none }],
            nextInsightId := sys.store.nextInsightId + 1 } } := by
      simp [applyEv, hfind]
    rw [happ]
    refine ⟨h1, h2, ?_, h4, h5, ?_, h7, h8, h9, h10, h11, h12, h13, h14, h15,
      h16, h17, h18⟩
    · rw [List.map_append]
      exact nodup_append_fresh h3 (by simpa using h6)
    · intro x hx
      rcases List.mem_append.mp hx with hold | hnew
      · have := h6 x hold
        dsimp only
        omega
      · rw [List.mem_singleton] at hnew
        subst hnew
        simp

/-- The reconciler's RUNNING observation preserves the invariant. -/
theorem wf_reconcileFind (sys : Sys) (hwf : WF sys) (rid : ℕ) :
    WF (applyEv sys (.reconcileFind rid)) := by
  obtain ⟨h1, h2, h3, h4, h5, h6, h7, h8, h9, h10, h11, h12, h13, h14, h15,
    h16, h17, h18⟩ := hwf
  cases hfind : sys.store.runs.find? (fun r => r.id == rid) with
  | none =>
    have happ : applyEv sys (.reconcileFind rid) = sys := by
      simp [applyEv, hfind]
    rw [happ]
    exact ⟨h1, h2, h3, h4, h5, h6, h7, h8, h9, h10, h11, h12, h13, h14, h15,
      h16, h17, h18⟩
  | some r =>
    by_cases hst : (r.status == RunStatus.running) = true
    · have happ : applyEv sys (.reconcileFind rid) =
          { sys with rtasks := sys.rtasks ++ [.sawRunning rid] } := by
        simp [applyEv, hfind, hst]
      rw [happ]
      exact ⟨h1, h2, h3, h4, h5, h6, h7, h8, h9, h10, h11, h12, h13, h14,
        h15, h16, h17, h18⟩
    · have happ : applyEv sys (.reconcileFind rid) = sys := by
        simp only [applyEv]
        rw [hfind]
        dsimp only
        rw [if_neg hst]
      rw [happ]
      exact ⟨h1, h2, h3, h4, h5, h6, h7, h8, h9, h10, h11, h12, h13, h14,
        h15, h16, h17, h18⟩

/-- The reconciler's pending-children count preserves the invariant. -/
theorem wf_reconcileCount (sys : Sys) (hwf : WF sys) (i : ℕ) :
    WF (applyEv sys (.reconcileCount i)) := by
  obtain ⟨h1, h2, h3, h4, h5, h6, h7, h8, h9, h10, h11, h12, h13, h14, h15,
    h16, h17, h18⟩ := hwf
  cases hget : sys.rtasks[i]? with
  | none =>
    have happ : applyEv sys (.reconcileCount i) = sys := by
      simp [applyEv, hget]
    rw [happ]
    exact ⟨h1, h2, h3, h4, h5, h6, h7, h8, h9, h10, h11, h12, h13, h14, h15,
      h16, h17, h18⟩
  | some rt =>
    cases rt with
    | sawRunning rid =>
      by_cases hcnt : (sys.store.jobs.countP (fun j => j.runId == some rid &&
          j.status.isActive) == 0) = true
      · have happ : applyEv sys (.reconcileCount i) =
            { sys with rtasks := sys.rtasks.set i (.countedZero rid) } := by
          simp [applyEv, hget, hcnt]
        rw [happ]
        exact ⟨h1, h2, h3, h4, h5, h6, h7, h8, h9, h10, h11, h12, h13, h14,
          h15, h16, h17, h18⟩
      · have happ : applyEv sys (.reconcileCount i) =
            { sys with rtasks := sys.rtasks.eraseIdx i } := by
          simp only [applyEv]
          rw [hget]
          dsimp only
          rw [if_neg hcnt]
        rw [happ]
        exact ⟨h1, h2, h3, h4, h5, h6, h7, h8, h9, h10, h11, h12, h13, h14,
          h15, h16, h17, h18⟩
    | countedZero rid =>
      have happ : applyEv sys (.reconcileCount i) = sys := by
        simp [applyEv, hget]
      rw [happ]
      exact ⟨h1, h2, h3, h4, h5, h6, h7, h8, h9, h10, h11, h12, h13, h14,
        h15, h16, h17, h18⟩

/-- The reconciler's completion write preserves the invariant. -/
theorem wf_reconcileWrite (sys : Sys) (hwf : WF sys) (i : ℕ) :
    WF (applyEv sys (.reconcileWrite i)) := by
  obtain ⟨h1, h2, h3, h4, h5, h6, h7, h8, h9, h10, h11, h12, h13, h14, h15,
    h16, h17, h18⟩ := hwf
  cases hget : sys.rtasks[i]? with
  | none =>
    have happ : applyEv sys (.reconcileWrite i) = sys := by
      simp [applyEv, hget]
    rw [happ]
    exact ⟨h1, h2, h3, h4, h5, h6, h7, h8, h9, h10, h11, h12, h13, h14, h15,
      h16, h17, h18⟩
  | some rt =>
    cases rt with
    | sawRunning rid =>
      have happ : applyEv sys (.reconcileWrite i) = sys := by
        simp [applyEv, hget]
      rw [happ]
      exact ⟨h1, h2, h3, h4, h5, h6, h7, h8, h9, h10, h11, h12, h13, h14,
        h15, h16, h17, h18⟩
    | countedZero rid =>
      have happ : applyEv sys (.reconcileWrite i) =
          { sys with
            store := { sys.store with
              runs := updateRunById sys.store.runs rid (fun x =>
                { x with status := .completed,
                         completedAt := some sys.store.clock }) },
            rtasks := sys.rtasks.eraseIdx i } := by
        simp [applyEv, hget]
      rw [happ]
      have hmemOf : ∀ x ∈ updateRunById sys.store.runs rid (fun y =>
          { y with status := .completed, completedAt := some sys.store.clock }),
          ∃ y ∈ sys.store.runs, x.id = y.id ∧ x.shop = y.shop ∧
            x.succeeded = y.succeeded ∧ x.failed = y.failed ∧
            x.productsQueued = y.productsQueued := by
        intro x hx
        obtain ⟨y, hy, hxy⟩ := List.mem_map.mp hx
        by_cases hc : (y.id == rid) = true
        · rw [if_pos hc] at hxy
          exact ⟨y, hy, by rw [← hxy], by rw [← hxy], by rw [← hxy],
            by rw [← hxy], by rw [← hxy]⟩
        · rw [if_neg (by simpa using hc)] at hxy
          subst hxy
          exact ⟨y, hy, rfl, rfl, rfl, rfl, rfl⟩
      refine ⟨h1, ?_, h3, h4, ?_, h6, h7, h8, h9, h10, h11, h12, h13, ?_,
        ?_, ?_, ?_, ?_⟩
      · rw [updateRunById_map_id sys.store.runs rid
          (fun x => { x with status := .completed,
                             completedAt := some sys.store.clock })
          (fun y => rfl)]
        exact h2
      · intro x hx
        obtain ⟨y, hy, hxy, _, _, _, _⟩ := hmemOf x hx
        rw [hxy]
        exact h5 y hy
      · intro j hj rid1 hrid1 x hx hxid
        obtain ⟨y, hy, hxy, hxshop, _, _, _⟩ := hmemOf x hx
        rw [hxshop]
        exact h14 j hj rid1 hrid1 y hy (by rw [← hxy]; exact hxid)
      · intro p hp x hx hxid
        obtain ⟨y, hy, hxy, hxshop, _, _, _⟩ := hmemOf x hx
        rw [hxshop]
        exact h15 p hp y hy (by rw [← hxy]; exact hxid)
      · intro x hx
        obtain ⟨y, hy, hxy⟩ := List.mem_map.mp hx
        by_cases hc : (y.id == rid) = true
        · rw [if_pos hc] at hxy
          rw [← hxy]
          simp
        · rw [if_neg (by simpa using hc)] at hxy
          subst hxy
          exact h16 y hy
      · intro x hx
        obtain ⟨y, hy, hxy, _, hsucc, hfail, _⟩ := hmemOf x hx
        rw [hxy, hsucc, hfail]
        exact h17 y hy
      · intro x hx
        obtain ⟨y, hy, hxy, _, _, _, hpq⟩ := hmemOf x hx
        rw [hxy, hpq]
        exact h18 y hy

/-- The uninstall purge preserves the invariant. -/
theorem wf_purge (sys : Sys) (hwf : WF sys) (shop : String) :
    WF (applyEv sys (.uninstallPurge shop)) := by
  obtain ⟨h1, h2, h3, h4, h5, h6, h7, h8, h9, h10, h11, h12, h13, h14, h15,
    h16, h17, h18⟩ := hwf
  have happ : applyEv sys (.uninstallPurge shop) =
      { sys with store := { sys.store with
          jobs := sys.store.jobs.filter (fun j => j.shop != shop),
          runs := sys.store.runs.filter (fun r => r.shop != shop),
          insights := sys.store.insights.filter (fun i => i.shop != shop) } } := by
    simp [applyEv]
  rw [happ]
  refine ⟨?_, ?_, ?_, ?_, ?_, ?_, ?_, h8, h9, h10, h11, ?_, ?_, ?_, ?_, ?_,
    ?_, ?_⟩
  · exact List.Nodup.sublist (List.Sublist.map Job.id (List.filter_sublist _)) h1
  · exact List.Nodup.sublist (List.Sublist.map Run.id (List.filter_sublist _)) h2
  · exact List.Nodup.sublist (List.Sublist.map Insight.id (List.filter_sublist _)) h3
  · intro j hj
    exact h4 j (List.mem_filter.mp hj).1
  · intro r hr
    exact h5 r (List.mem_filter.mp hr).1
  · intro i hi
    exact h6 i (List.mem_filter.mp hi).1
  · intro j hj rid hrid
    exact h7 j (List.mem_filter.mp hj).1 rid hrid
  · intro t ht jid hjid j hj
    exact h12 t ht jid hjid j (List.mem_filter.mp hj).1
  · intro t ht pr hpr j hj
    exact h13 t ht pr hpr j (List.mem_filter.mp hj).1
  · intro j hj rid hrid r hr
    exact h14 j (List.mem_filter.mp hj).1 rid hrid r (List.mem_filter.mp hr).1
  · intro p hp r hr
    exact h15 p hp r (List.mem_filter.mp hr).1
  · intro r hr
    exact h16 r (List.mem_filter.mp hr).1
  · intro r hr
    obtain ⟨hrmem, hrshop⟩ := List.mem_filter.mp hr
    have hft : (sys.store.jobs.filter (fun j => j.shop != shop)).countP
        (fun j => j.runId == some r.id && j.status.isTerminal &&
          !(hasLiveTask sys.tasks j.id))
        = sys.store.jobs.countP
        (fun j => j.runId == some r.id && j.status.isTerminal &&
          !(hasLiveTask sys.tasks j.id)) := by
      rw [List.countP_filter]
      refine List.countP_congr ?_
      intro j hj
      dsimp only
      cases hA : (j.runId == some r.id) with
      | false => simp [hA]
      | true =>
        have hrun : j.runId = some r.id := eq_of_beq hA
        have hshop : r.shop = j.shop :=
          h14 j hj r.id (Option.mem_def.mpr hrun) r hrmem rfl
        have hjs : (j.shop != shop) = true := by
          rw [← hshop]
          exact hrshop
        rw [hjs, Bool.and_true]
    show r.succeeded + r.failed + pendCount sys.tasks r.id ≤
      (sys.store.jobs.filter (fun j => j.shop != shop)).countP
        (fun j => j.runId == some r.id && j.status.isTerminal &&
          !(hasLiveTask sys.tasks j.id))
    rw [hft]
    exact h17 r hrmem
  · intro r hr
    obtain ⟨hrmem, _⟩ := List.mem_filter.mp hr
    have hle : (sys.store.jobs.filter (fun j => j.shop != shop)).countP
        (fun j => j.runId == some r.id)
        ≤ sys.store.jobs.countP (fun j => j.runId == some r.id) :=
      List.Sublist.countP_le _ (List.filter_sublist _)
    have hold := h18 r hrmem
    show (sys.store.jobs.filter (fun j => j.shop != shop)).countP
        (fun j => j.runId == some r.id) + prodPending sys.producers r.id
      ≤ r.productsQueued
    unfold runJobCount at hold
    omega

/-- Starting a batch run preserves the invariant. -/
theorem wf_batchStart (sys : Sys) (hwf : WF sys) (shop : String)
    (pids : List String) :
    WF (applyEv sys (.batchStart shop pids)) := by
  obtain ⟨h1, h2, h3, h4, h5, h6, h7, h8, h9, h10, h11, h12, h13, h14, h15,
    h16, h17, h18⟩ := hwf
  have happ : applyEv sys (.batchStart shop pids) =
      { sys with
        store := { sys.store with
          runs := sys.store.runs ++
            [{ id := sys.store.nextRunId, shop := shop, status := .running,
               productsQueued := pids.length, succeeded := 0, failed := 0,
               completedAt := none }],
          nextRunId := sys.store.nextRunId + 1 },
        producers := sys.producers ++
          [{ shop := shop, runId := sys.store.nextRunId, remaining := pids }] } := by
    simp [applyEv]
  rw [happ]
  refine ⟨h1, ?_, h3, h4, ?_, h6, ?_, h8, ?_, ?_, h11, h12, h13, ?_, ?_, ?_,
    ?_, ?_⟩
  · rw [List.map_append]
    exact nodup_append_fresh h2 (by simpa using h5)
  · intro r hr
    rcases List.mem_append.mp hr with hold | hnew
    · have := h5 r hold
      dsimp only
      omega
    · rw [List.mem_singleton] at hnew
      subst hnew
      simp
  · intro j hj rid hrid
    have := h7 j hj rid hrid
    dsimp only
    omega
  · intro t ht rid hrid
    have := h9 t ht rid hrid
    dsimp only
    omega
  · intro p hp
    rcases List.mem_append.mp hp with hold | hnew
    · have := h10 p hold
      dsimp only
      omega
    · rw [List.mem_singleton] at hnew
      subst hnew
      simp
  · intro j hj rid hrid r hr
    rcases List.mem_append.mp hr with hold | hnew
    · exact h14 j hj rid hrid r hold
    · rw [List.mem_singleton] at hnew
      subst hnew
      intro hid
      exfalso
      have := h7 j hj rid hrid
      dsimp only at hid
      omega
  · intro p hp r hr
    rcases List.mem_append.mp hp with hpold | hpnew
    · rcases List.mem_append.mp hr with hrold | hrnew
      · exact h15 p hpold r hrold
      · rw [List.mem_singleton] at hrnew
        subst hrnew
        intro hid
        exfalso
        have := h10 p hpold
        dsimp only at hid
        omega
    · rw [List.mem_singleton] at hpnew
      subst hpnew
      rcases List.mem_append.mp hr with hrold | hrnew
      · intro hid
        exfalso
        have := h5 r hrold
        dsimp only at hid
        omega
      · rw [List.mem_singleton] at hrnew
        subst hrnew
        intro _
        rfl
  · intro r hr
    rcases List.mem_append.mp hr with hold | hnew
    · exact h16 r hold
    · rw [List.mem_singleton] at hnew
      subst hnew
      simp
  · intro r hr
    rcases List.mem_append.mp hr with hold | hnew
    · exact h17 r hold
    · rw [List.mem_singleton] at hnew
      subst hnew
      have hpend0 : pendCount sys.tasks sys.store.nextRunId = 0 := by
        unfold pendCount
        rw [List.countP_eq_zero]
        intro t ht
        cases hpr : t.pendRunId with
        | none => simp [hpr]
        | some rid =>
          have := h9 t ht rid (by rw [hpr]; rfl)
          simp [hpr]
          omega
      show 0 + 0 + pendCount sys.tasks sys.store.nextRunId ≤ _
      rw [hpend0]
      exact Nat.zero_le _
  · intro r hr
    rcases List.mem_append.mp hr with hold | hnew
    · have hsum : prodPending (sys.producers ++
          [({ shop := shop, runId := sys.store.nextRunId,
              remaining := pids } : Producer)]) r.id
          = prodPending sys.producers r.id := by
        unfold prodPending
        rw [List.map_append, List.sum_append]
        have hz : (List.map (fun p =>
              if p.runId == r.id then p.remaining.length else 0)
            [({ shop := shop, runId := sys.store.nextRunId,
                remaining := pids } : Producer)]).sum = 0 := by
          have hne : ¬ sys.store.nextRunId = r.id := by
            have := h5 r hold
            omega
          simp [hne]
        rw [hz]
        omega
      show runJobCount sys.store r.id + prodPending (sys.producers ++
          [({ shop := shop, runId := sys.store.nextRunId,
              remaining := pids } : Producer)]) r.id ≤ r.productsQueued
      rw [hsum]
      exact h18 r hold
    · rw [List.mem_singleton] at hnew
      subst hnew
      have hjc : sys.store.jobs.countP
          (fun j => j.runId == some sys.store.nextRunId) = 0 := by
        rw [List.countP_eq_zero]
        intro j hj
        cases hrid : j.runId with
        | none => simp [hrid]
        | some rid =>
          have := h7 j hj rid (by rw [hrid]; rfl)
          simp [hrid]
          omega
      have hsum : prodPending (sys.producers ++
          [({ shop := shop, runId := sys.store.nextRunId,
              remaining := pids } : Producer)]) sys.store.nextRunId
          = pids.length := by
        unfold prodPending
        rw [List.map_append, List.sum_append]
        have hz : ((sys.producers.map (fun p =>
            if p.runId == sys.store.nextRunId then p.remaining.length
            else 0))).sum = 0 := by
          refine List.sum_eq_zero ?_
          intro n hn
          obtain ⟨p, hp, hpn⟩ := List.mem_map.mp hn
          have := h10 p hp
          have hne : (p.runId == sys.store.nextRunId) = false := by
            simp only [beq_eq_false_iff_ne, ne_eq]
            omega
          rw [hne] at hpn
          simp at hpn
          omega
        rw [hz]
        simp
      show runJobCount sys.store sys.store.nextRunId
          + prodPending (sys.producers ++
            [({ shop := shop, runId := sys.store.nextRunId,
                remaining := pids } : Producer)]) sys.store.nextRunId
        ≤ pids.length
      unfold runJobCount
      rw [hjc, hsum]
      omega

/-- One worker-cycle step preserves the invariant. -/
theorem wf_taskStep (sys : Sys) (hwf : WF sys) (i : ℕ) (o : Outcome) :
    WF (applyEv sys (.taskStep i o)) := by
  cases hget : sys.tasks[i]? with
  | none =>
    have happ : applyEv sys (.taskStep i o) = sys := by
      simp [applyEv, hget]
    rw [happ]
    exact hwf
  | some t =>
    have happ : applyEv sys (.taskStep i o) = stepWTask sys i t o := by
      simp [applyEv, hget]
    rw [happ]
    cases t with
    | claimed jid shop pid runId =>
      exact wf_taskStep_claimed sys hwf i jid shop pid runId o hget
    | processing jid insId runId =>
      exact wf_taskStep_processing sys hwf i jid insId runId o hget
    | incrSucc r =>
      have hstep : stepWTask sys i (.incrSucc r) o =
          { sys with
            store := { sys.store with
              runs := updateRunById sys.store.runs r fun x =>
                { x with succeeded := x.succeeded + 1 } },
            tasks := sys.tasks.set i .done } := rfl
      rw [hstep]
      exact wf_incr_core sys i r (.incrSucc r) _ hget rfl rfl rfl
        (fun y => rfl) (fun y => rfl) (fun y => rfl) (fun y => rfl)
        (fun y => rfl) (fun y => by dsimp only; omega) hwf
    | incrFail r =>
      have hstep : stepWTask sys i (.incrFail r) o =
          { sys with
            store := { sys.store with
              runs := updateRunById sys.store.runs r fun x =>
                { x with failed := x.failed + 1 } },
            tasks := sys.tasks.set i .done } := rfl
      rw [hstep]
      exact wf_incr_core sys i r (.incrFail r) _ hget rfl rfl rfl
        (fun y => rfl) (fun y => rfl) (fun y => rfl) (fun y => rfl)
        (fun y => rfl) (fun y => by dsimp only; omega) hwf
    | done =>
      have hstep : stepWTask sys i .done o = sys := rfl
      rw [hstep]
      exact hwf

/-- Logical-clock changes do not affect the invariant. -/
theorem wf_clock (sys : Sys) (hwf : WF sys) (c : ℕ) :
    WF { sys with store := { sys.store with clock := c } } := by
  obtain ⟨h1, h2, h3, h4, h5, h6, h7, h8, h9, h10, h11, h12, h13, h14, h15,
    h16, h17, h18⟩ := hwf
  exact ⟨h1, h2, h3, h4, h5, h6, h7, h8, h9, h10, h11, h12, h13, h14, h15,
    h16, h17, h18⟩

/-- Every observable transition preserves the invariant. -/
theorem wf_stepE (sys : Sys) (hwf : WF sys) (e : Ev) : WF (stepE sys e) := by
  have h1 : WF (applyEv sys e) := by
    cases e with
    | upsertInsight shop pid title => exact wf_upsert sys hwf shop pid title
    | batchStart shop pids => exact wf_batchStart sys hwf shop pids
    | producerStep i => exact wf_producerStep sys hwf i
    | soloEnqueue shop pid force => exact wf_soloEnqueue sys hwf shop pid force
    | workerClaim => exact wf_workerClaim sys hwf
    | taskStep i o => exact wf_taskStep sys hwf i o
    | reconcileFind rid => exact wf_reconcileFind sys hwf rid
    | reconcileCount i => exact wf_reconcileCount sys hwf i
    | reconcileWrite i => exact wf_reconcileWrite sys hwf i
    | uninstallPurge shop => exact wf_purge sys hwf shop
  exact wf_clock (applyEv sys e) h1 _

/-- The empty initial system satisfies the invariant. -/
theorem wf_init : WF sysInit := by
  constructor <;> simp [sysInit, liveJobIds]

/-- Event folding preserves the invariant. -/
theorem wf_foldl (evs : List Ev) (s : Sys) (h : WF s) :
    WF (evs.foldl stepE s) := by
  induction evs generalizing s with
  | nil => exact h
  | cons e rest ih => exact ih _ (wf_stepE s h e)

/-- Every observable system state satisfies the invariant. -/
theorem wf_reachable (sys : Sys) (h : ReachableSys sys) : WF sys := by
  obtain ⟨evs, heq⟩ := h
  rw [heq]
  exact wf_foldl evs sysInit wf_init

/-- Enqueueing never touches the run table. -/
theorem enqueue_runs (s : Store) (shop pid : String) (runId : Option ℕ)
    (force : Bool) : (enqueueInsightJob s shop pid runId force).1.runs
    = s.runs := by
  unfold enqueueInsightJob
  by_cases h : ((findActiveJob s.jobs shop pid).isSome && !force) = true
  · rw [if_pos h]
  · rw [if_neg h]

/-- The claim transaction never touches the run table. -/
theorem claimTxn_runs (s : Store) : (claimTxn s).1.runs = s.runs := by
  unfold claimTxn
  cases hsel : selectCandidate s.clock s.jobs with
  | none => rfl
  | some cand =>
    dsimp only
    by_cases hcnt : ((condClaimUpdate s.jobs cand.id cand.updatedAt
        s.clock).2 == 0) = true
    · rw [if_pos hcnt]
    · rw [if_neg hcnt]

/-- Counterexample for claim C2: after the success transaction of a
run-owned job commits, the state with the job SUCCEEDED and the insight
mirror SUCCEEDED but the run counter still untouched is observable - the
counter increment is a separate, later store operation
(jobs.server.ts lines 193-198 sit outside the lines 174-191 transaction). -/
theorem success_increment_not_atomic :
    ReachableSys c2Sys ∧
    (∃ j ∈ c2Sys.store.jobs, j.runId = some 0 ∧ j.status = .succeeded ∧
      j.lastError = none) ∧
    (∃ x ∈ c2Sys.store.insights, x.aiStatus = some .succeeded) ∧
    (∃ r ∈ c2Sys.store.runs, r.id = 0 ∧ r.succeeded = 0) := by
  refine ⟨⟨c2Trace, rfl⟩, ?_, ?_, ?_⟩ <;> decide

/-- Claim C2, amended: the success `$transaction` atomically rewrites the
insight and the job while leaving every run row untouched; the succeeded
counter increment is a separate subsequent `prisma.run.update` that changes
only the owning run row, adding exactly one to `succeeded` and preserving
every other field. -/
theorem success_txn_amended (s : Store) (jid iid rid : ℕ) (out : AIOutput) :
    (processSuccessTxn s jid iid out).runs = s.runs ∧
    (incrRunSucceeded s rid).jobs = s.jobs ∧
    (incrRunSucceeded s rid).insights = s.insights ∧
    (∀ r ∈ s.runs, r.id = rid →
      ({ r with succeeded := r.succeeded + 1 } : Run)
        ∈ (incrRunSucceeded s rid).runs) ∧
    (∀ r ∈ s.runs, r.id ≠ rid → r ∈ (incrRunSucceeded s rid).runs) := by
  refine ⟨rfl, rfl, rfl, ?_, ?_⟩
  · intro r hr hrid
    have hmem := List.mem_map_of_mem
      (fun y => if y.id == rid then
        ({ y with succeeded := y.succeeded + 1 } : Run) else y) hr
    dsimp only at hmem
    rw [if_pos (by simpa using hrid)] at hmem
    exact hmem
  · intro r hr hrid
    have hmem := List.mem_map_of_mem
      (fun y => if y.id == rid then
        ({ y with succeeded := y.succeeded + 1 } : Run) else y) hr
    dsimp only at hmem
    rw [if_neg (by simpa using hrid)] at hmem
    exact hmem

/-- Witness for the amended claim C2 at the concrete store `demoStore`. -/
theorem success_txn_amended_witness :
    (processSuccessTxn demoStore 0 0 sampleOutput).runs = demoStore.runs ∧
    ({ demoRun0 with succeeded := demoRun0.succeeded + 1 } : Run)
      ∈ (incrRunSucceeded demoStore demoRun0.id).runs := by
  have h := success_txn_amended demoStore 0 0 demoRun0.id sampleOutput
  exact ⟨h.1, h.2.2.2.1 demoRun0 (by decide) rfl⟩

/-- Claim C10: when the claim transaction hands over a job whose
ProductInsight row is missing, `claimNextJob` marks exactly that job FAILED
with the fixed error "ProductInsight not found" and returns null, leaving
the run table unchanged; consequently a run whose child fails this way
reaches COMPLETED with `succeeded + failed` strictly below
`productsQueued`, as the observable state of `c10Trace` shows. -/
theorem claim_missing_insight_spec :
    (∀ (s : Store) (job : Job), (claimTxn s).2 = some job →
      findInsightByKey (claimTxn s).1.insights job.shop job.productId
        = none →
      (claimNextJob s).2 = none ∧
      (claimNextJob s).1.runs = s.runs ∧
      (claimNextJob s).1.jobs = updateJobById (claimTxn s).1.jobs job.id
        (fun j => { j with status := .failed,
                           lastError := some "ProductInsight not found",
                           updatedAt := (claimTxn s).1.clock })) ∧
    (ReachableSys c10Sys ∧
     (∃ r ∈ c10Sys.store.runs, r.status = .completed ∧
        r.succeeded = 0 ∧ r.failed = 0 ∧ r.productsQueued = 1) ∧
     (∃ j ∈ c10Sys.store.jobs, j.runId = some 0 ∧ j.status = .failed ∧
        j.lastError = some "ProductInsight not found")) := by
  constructor
  · intro s job hjob hmiss
    rcases hclaim : claimTxn s with ⟨s1, jopt⟩
    rw [hclaim] at hjob hmiss
    dsimp only at hjob hmiss
    subst hjob
    have hruns : s1.runs = s.runs := by
      have := claimTxn_runs s
      rw [hclaim] at this
      exact this
    have hnext : claimNextJob s =
        ({ s1 with
           jobs := updateJobById s1.jobs job.id fun j =>
             { j with status := .failed,
                      lastError := some "ProductInsight not found",
                      updatedAt := s1.clock } },
         none) := by
      unfold claimNextJob
      rw [hclaim]
      dsimp only
      rw [hmiss]
    rw [hnext]
    exact ⟨rfl, hruns, rfl⟩
  · refine ⟨⟨c10Trace, rfl⟩, ?_, ?_⟩ <;> decide

/-- Witness for claim C10 at the concrete store `missingInsightStore`. -/
theorem claim_missing_insight_spec_witness :
    (claimNextJob missingInsightStore).2 = none ∧
    (claimNextJob missingInsightStore).1.runs
      = missingInsightStore.runs := by
  have h := claim_missing_insight_spec.1 missingInsightStore
    { id := 0, shop := "s1", productId := "p1", runId := some 0,
      status := .queued, attempts := 1, lastError := none,
      nextRetryAt := none, createdAt := 0, updatedAt := 1 }
    (by decide) (by decide)
  exact ⟨h.1, h.2.1⟩

/-- Counterexample for claim C6: `updateRunCompletion` (worker.ts lines
35-55) runs its RUNNING observation, its pending-children count and its
completion write as three separate unfenced awaits. Two overlapping passes
therefore stamp `completedAt` twice with different timestamps
(`cRaceTrace`), and a batch-enqueue insert between the zero count and the
write stamps a run COMPLETED while a child job is still QUEUED
(`cStampQueuedTrace`); both final states are observable. -/
theorem reconcile_completedAt_races :
    (ReachableSys cRace1Sys ∧ ReachableSys cRace2Sys ∧
     cRace2Sys = stepE cRace1Sys (.reconcileWrite 0) ∧
     (∃ r ∈ cRace1Sys.store.runs, r.id = 0 ∧ r.completedAt = some 5) ∧
     (∃ r ∈ cRace2Sys.store.runs, r.id = 0 ∧ r.completedAt = some 6)) ∧
    (ReachableSys cStampQueuedSys ∧
     (∃ r ∈ cStampQueuedSys.store.runs, r.id = 0 ∧
        r.status = .completed ∧ r.completedAt = some 4) ∧
     (∃ j ∈ cStampQueuedSys.store.jobs, j.runId = some 0 ∧
        j.status = .queued)) := by
  refine ⟨⟨⟨cRaceTrace.take 6, rfl⟩, ⟨cRaceTrace, rfl⟩, ?_, ?_, ?_⟩,
    ⟨cStampQueuedTrace, rfl⟩, ?_, ?_⟩ <;> decide

/-- Claim C6, amended: in every observable system state each run satisfies
`succeeded + failed ≤ productsQueued`. `completedAt` changes only through
the unfenced completion write of a reconciler iteration that has already
counted zero pending children: across every observable transition a
surviving run row either keeps its `completedAt` or is stamped with the
current clock and the COMPLETED status by a `reconcileWrite` of a recorded
`countedZero` intent for it. An iteration is started only on observing the
run RUNNING, and its intent is promoted to `countedZero` exactly when zero
QUEUED/RUNNING children are counted at that instant - but the write itself
is fenced on nothing, so the stamp can repeat or land after a new child was
inserted. -/
theorem run_counters_completedAt_amended :
    (∀ sys : Sys, ReachableSys sys → ∀ r ∈ sys.store.runs,
      r.succeeded + r.failed ≤ r.productsQueued) ∧
    (∀ sys : Sys, ReachableSys sys → ∀ e : Ev, ∀ r ∈ sys.store.runs,
      ∀ r' ∈ (stepE sys e).store.runs, r'.id = r.id →
      r'.completedAt = r.completedAt ∨
      (r'.completedAt = some sys.store.clock ∧ r'.status = .completed ∧
       ∃ i, e = .reconcileWrite i ∧
         sys.rtasks[i]? = some (.countedZero r.id))) ∧
    (∀ (sys : Sys) (rid : ℕ),
      (applyEv sys (.reconcileFind rid)).rtasks = sys.rtasks ∨
      ((applyEv sys (.reconcileFind rid)).rtasks
          = sys.rtasks ++ [.sawRunning rid] ∧
       ∃ r ∈ sys.store.runs, r.id = rid ∧ r.status = .running)) ∧
    (∀ (sys : Sys) (i rid : ℕ),
      sys.rtasks[i]? = some (.sawRunning rid) →
      ((applyEv sys (.reconcileCount i)).rtasks
          = sys.rtasks.set i (.countedZero rid) ↔
       sys.store.jobs.countP (fun j => j.runId == some rid &&
         j.status.isActive) = 0)) := by
  refine ⟨?_, ?_, ?_, ?_⟩
  · intro sys hreach r hr
    have hwf := wf_reachable sys hreach
    have h17 := hwf.counters r hr
    have h18 := hwf.runBound r hr
    have hfree : freeTerminalCount sys r.id ≤ runJobCount sys.store r.id := by
      unfold freeTerminalCount runJobCount
      refine List.countP_mono_left ?_
      intro j _ hp
      simp only [Bool.and_eq_true] at hp
      exact hp.1.1
    omega
  · intro sys hreach e r hr r' hr' hid
    have hwf := wf_reachable sys hreach
    have hnd := hwf.runsNodup
    have hruns0 : (stepE sys e).store.runs = (applyEv sys e).store.runs := rfl
    rw [hruns0] at hr'
    have hsame : ∀ runs1 : List Run, runs1 = sys.store.runs →
        r' ∈ runs1 → r'.completedAt = r.completedAt ∨
        (r'.completedAt = some sys.store.clock ∧ r'.status = .completed ∧
         ∃ i, e = .reconcileWrite i ∧
           sys.rtasks[i]? = some (.countedZero r.id)) := by
      intro runs1 he hm
      rw [he] at hm
      left
      rw [eq_of_nodup_key hnd hm hr hid]
    have hupd : ∀ (rid : ℕ) (f : Run → Run), (∀ y, (f y).id = y.id) →
        (∀ y, (f y).completedAt = y.completedAt) →
        r' ∈ updateRunById sys.store.runs rid f →
        r'.completedAt = r.completedAt ∨
        (r'.completedAt = some sys.store.clock ∧ r'.status = .completed ∧
         ∃ i, e = .reconcileWrite i ∧
           sys.rtasks[i]? = some (.countedZero r.id)) := by
      intro rid f hfid hfc hm
      obtain ⟨y, hy, hxy⟩ := List.mem_map.mp hm
      left
      by_cases hc : (y.id == rid) = true
      · rw [if_pos hc] at hxy
        have h1 : r'.completedAt = y.completedAt := by
          rw [← hxy, hfc]
        have h2 : y.id = r.id := by
          rw [← hfid y, hxy, hid]
        rw [eq_of_nodup_key hnd hy hr h2] at h1
        exact h1
      · rw [if_neg (by simpa using hc)] at hxy
        have h2 : y.id = r.id := by
          rw [hxy, hid]
        rw [← hxy, eq_of_nodup_key hnd hy hr h2]
    cases e with
    | upsertInsight shop pid title =>
      refine hsame _ ?_ hr'
      cases hfind : findInsightByKey sys.store.insights shop pid <;>
        simp [applyEv, hfind]
    | batchStart shop pids =>
      have happ : (applyEv sys (.batchStart shop pids)).store.runs
          = sys.store.runs ++
            [{ id := sys.store.nextRunId, shop := shop,
               status := .running, productsQueued := pids.length,
               succeeded := 0, failed := 0, completedAt := none }] := by
        simp [applyEv]
      rw [happ] at hr'
      rcases List.mem_append.mp hr' with hro | hrn
      · left
        rw [eq_of_nodup_key hnd hro hr hid]
      · exfalso
        rw [List.mem_singleton] at hrn
        have := hwf.runsLt r hr
        rw [hrn] at hid
        dsimp only at hid
        omega
    | producerStep i =>
      refine hsame _ ?_ hr'
      cases hget : sys.producers[i]? with
      | none => simp [applyEv, hget]
      | some p =>
        cases hrem : p.remaining with
        | nil => simp [applyEv, hget, hrem]
        | cons pid rest =>
          have : (applyEv sys (.producerStep i)).store.runs
              = (enqueueInsightJob sys.store p.shop pid (some p.runId)
                  false).1.runs := by
            simp [applyEv, hget, hrem]
          rw [this, enqueue_runs]
    | soloEnqueue shop pid force =>
      refine hsame _ ?_ hr'
      have : (applyEv sys (.soloEnqueue shop pid force)).store.runs
          = (enqueueInsightJob sys.store shop pid none force).1.runs := rfl
      rw [this, enqueue_runs]
    | workerClaim =>
      refine hsame _ ?_ hr'
      rcases hclaim : claimTxn sys.store with ⟨s1, jopt⟩
      have hs1 : s1.runs = sys.store.runs := by
        have := claimTxn_runs sys.store
        rw [hclaim] at this
        exact this
      cases jopt with
      | none =>
        have : (applyEv sys .workerClaim).store.runs = s1.runs := by
          simp [applyEv, hclaim]
        rw [this, hs1]
      | some job =>
        have : (applyEv sys .workerClaim).store.runs = s1.runs := by
          simp [applyEv, hclaim]
        rw [this, hs1]
    | taskStep i o =>
      cases hget : sys.tasks[i]? with
      | none =>
        refine hsame _ ?_ hr'
        simp [applyEv, hget]
      | some t =>
        have happ : (applyEv sys (.taskStep i o)).store.runs
            = (stepWTask sys i t o).store.runs := by
          simp [applyEv, hget]
        rw [happ] at hr'
        cases t with
        | claimed jid shop pid runId =>
          refine hsame _ ?_ hr'
          cases hfind : findInsightByKey sys.store.insights shop pid <;>
            simp [stepWTask, hfind]
        | processing jid insId runId =>
          refine hsame _ ?_ hr'
          simp only [stepWTask]
          by_cases hguard : ((sys.store.jobs.find? fun j =>
              j.id == jid).isSome &&
              (sys.store.insights.find? fun x => x.id == insId).isSome)
              = true
          · rw [if_pos hguard]
            cases o with
            | ok out => rfl
            | err msg => rfl
          · rw [if_neg hguard]
        | incrSucc rid =>
          have : (stepWTask sys i (.incrSucc rid) o).store.runs
              = updateRunById sys.store.runs rid
                  (fun x => { x with succeeded := x.succeeded + 1 }) := rfl
          rw [this] at hr'
          exact hupd rid (fun x => { x with succeeded := x.succeeded + 1 })
            (fun y => rfl) (fun y => rfl) hr'
        | incrFail rid =>
          have : (stepWTask sys i (.incrFail rid) o).store.runs
              = updateRunById sys.store.runs rid
                  (fun x => { x with failed := x.failed + 1 }) := rfl
          rw [this] at hr'
          exact hupd rid (fun x => { x with failed := x.failed + 1 })
            (fun y => rfl) (fun y => rfl) hr'
        | done =>
          refine hsame _ ?_ hr'
          rfl
    | reconcileFind rid =>
      refine hsame _ ?_ hr'
      cases hfind : sys.store.runs.find? (fun x => x.id == rid) with
      | none => simp [applyEv, hfind]
      | some r0 =>
        by_cases hst : (r0.status == RunStatus.running) = true
        · simp [applyEv, hfind, hst]
        · simp only [applyEv]
          rw [hfind]
          dsimp only
          rw [if_neg hst]
    | reconcileCount i =>
      refine hsame _ ?_ hr'
      cases hget : sys.rtasks[i]? with
      | none => simp [applyEv, hget]
      | some rt =>
        cases rt with
        | sawRunning rid =>
          by_cases hcnt : (sys.store.jobs.countP (fun j =>
              j.runId == some rid && j.status.isActive) == 0) = true
          · simp [applyEv, hget, hcnt]
          · simp only [applyEv]
            rw [hget]
            dsimp only
            rw [if_neg hcnt]
        | countedZero rid => simp [applyEv, hget]
    | reconcileWrite i =>
      cases hget : sys.rtasks[i]? with
      | none =>
        refine hsame _ ?_ hr'
        simp [applyEv, hget]
      | some rt =>
        cases rt with
        | sawRunning rid =>
          refine hsame _ ?_ hr'
          simp [applyEv, hget]
        | countedZero rid =>
          have happ : (applyEv sys (.reconcileWrite i)).store.runs
              = updateRunById sys.store.runs rid (fun x =>
                  { x with status := .completed,
                           completedAt := some sys.store.clock }) := by
            simp [applyEv, hget]
          rw [happ] at hr'
          obtain ⟨y, hy, hxy⟩ := List.mem_map.mp hr'
          by_cases hc : (y.id == rid) = true
          · right
            rw [if_pos hc] at hxy
            have hyid : y.id = r.id := by
              rw [← hid, ← hxy]
            have hridr : rid = r.id := by
              rw [← hyid]
              symm
              simpa using hc
            refine ⟨?_, ?_, i, rfl, ?_⟩
            · rw [← hxy]
            · rw [← hxy]
            · rw [← hridr]
              exact hget
          · left
            rw [if_neg (by simpa using hc)] at hxy
            have h2 : y.id = r.id := by
              rw [hxy, hid]
            rw [← hxy, eq_of_nodup_key hnd hy hr h2]
    | uninstallPurge shop =>
      have happ : (applyEv sys (.uninstallPurge shop)).store.runs
          = sys.store.runs.filter (fun x => x.shop != shop) := by
        simp [applyEv]
      rw [happ] at hr'
      left
      rw [eq_of_nodup_key hnd (List.mem_filter.mp hr').1 hr hid]
  · intro sys rid
    cases hfind : sys.store.runs.find? (fun x => x.id == rid) with
    | none =>
      left
      simp [applyEv, hfind]
    | some r0 =>
      by_cases hst : (r0.status == RunStatus.running) = true
      · right
        refine ⟨by simp [applyEv, hfind, hst], r0,
          List.mem_of_find?_eq_some hfind, ?_, ?_⟩
        · have := List.find?_some hfind
          simpa using this
        · simpa using hst
      · left
        simp only [applyEv]
        rw [hfind]
        dsimp only
        rw [if_neg hst]
  · intro sys i rid hget
    by_cases hcnt : (sys.store.jobs.countP (fun j => j.runId == some rid &&
        j.status.isActive) == 0) = true
    · have happ : (applyEv sys (.reconcileCount i)).rtasks
          = sys.rtasks.set i (.countedZero rid) := by
        simp [applyEv, hget, hcnt]
      rw [happ]
      constructor
      · intro _
        simpa using hcnt
      · intro _
        rfl
    · have happ : (applyEv sys (.reconcileCount i)).rtasks
          = sys.rtasks.eraseIdx i := by
        simp only [applyEv]
        rw [hget]
        dsimp only
        rw [if_neg hcnt]
      rw [happ]
      constructor
      · intro heq
        exfalso
        have hlt : i < sys.rtasks.length := by
          by_contra hge
          rw [List.getElem?_eq_none (by omega)] at hget
          cases hget
        have hlen1 : (sys.rtasks.eraseIdx i).length
            = sys.rtasks.length - 1 := by
          rw [List.length_eraseIdx]
          rw [if_pos hlt]
        have hlen2 : (sys.rtasks.set i (RTask.countedZero rid)).length
            = sys.rtasks.length := List.length_set _ _ _
        rw [heq, hlen2] at hlen1
        omega
      · intro hc0
        exfalso
        apply hcnt
        rw [hc0]
        rfl

/-- Witness for the amended claim C6 at the concrete batch trace `c6Trace`:
its final state is observable and its run satisfies the counter bound. -/
theorem run_counters_completedAt_amended_witness :
    ReachableSys c6Sys ∧
    ({ id := 0,
       shop := "shop1",
       status := .completed,
       productsQueued := 1,
       succeeded := 1,
       failed := 0,
       completedAt := some 9 } : Run) ∈ c6Sys.store.runs ∧
    (1 : ℕ) + 0 ≤ 1 := by
  have hreach : ReachableSys c6Sys := ⟨c6Trace, rfl⟩
  have hmem : ({ id := 0,
                 shop := "shop1",
                 status := .completed,
                 productsQueued := 1,
                 succeeded := 1,
                 failed := 0,
                 completedAt := some 9 } : Run) ∈ c6Sys.store.runs := by
    decide
  have h := run_counters_completedAt_amended.1 c6Sys hreach _ hmem
  exact ⟨hreach, hmem, h⟩
